import Mathlib

/-!
# slow5tools `merge`: read-group reconciliation and output assembly

A shallow embedding of `src/merge.c` (`merge_main`, `parallel_files_model`,
`parallel_reads_model`, `delete_directory`).  The file system and the slow5
library are the environment: what `slow5_open` finds at a path, whether a
`fopen`/`remove`/`rmdir` call succeeds and in which order a directory is
listed are inputs of the model.
-/

namespace Slow5Merge

/-! ## Data model -/

/-- One read group of a SLOW5 header: the `run_id` attribute (the only one
`merge_main` looks at; every group is taken to have one, as `strcmp` needs) and
the remaining attribute/value pairs. -/
structure ReadGroup where
  run_id : String
  attrs : List (String × String)
deriving DecidableEq, Repr

/-- A SLOW5 record.  `merge` rewrites `read_group` and carries the rest along
unchanged. -/
structure Slow5Rec where
  read_id : String
  read_group : Nat
  signal : List Int
deriving DecidableEq, Repr

/-- What `slow5_open(path, "r")` yields for an openable file:
`header->num_read_groups` is `groups.length`, `aux_meta` says whether
`header->aux_meta != NULL`, `records` is the record stream in file order and
`read_error` says whether the stream ends in an error other than
`SLOW5_ERR_EOF`. -/
structure Slow5File where
  groups : List ReadGroup
  aux_meta : Bool
  records : List Slow5Rec
  read_error : Bool
deriving DecidableEq, Repr

/-- The variables of the reconciliation loop of `merge_main` (lines 343-390):
the read groups of `slow5File->header` (so `num_read_groups` is
`header.length`), the translation tables `list`, the counter `index`, the
accepted paths `slow5_files`, and whether the sanity-check `WARNING` of line
381 has been printed. -/
structure MergeState where
  header : List ReadGroup
  list : List (List Nat)
  index : Nat
  slow5_files : List String
  warned : Bool
deriving DecidableEq, Repr

/-- The two ways the reconciliation loop can stop early: the lossless
precondition of line 354 (`return EXIT_FAILURE`), and a write `list[index][j]`
outside the vectors, which C++ leaves undefined. -/
inductive MergeError where
  | no_aux_meta (path : String)
  | out_of_range
deriving DecidableEq, Repr

/-! ## The reconciliation loop (lines 343-390) -/

/-- Modelled from the spec: `slow5_hdr_add_rg_data` belongs to slow5lib and is
not among the sources.  The spec says "append the local group's full metadata
to the global header as group index = current global group count": the group
is appended and the count before the append is returned. -/
def slow5_hdr_add_rg_data (header : List ReadGroup) (rg : ReadGroup) :
    List ReadGroup × Nat :=
  (header ++ [rg], header.length)

/-- The `k` loop of lines 369-376: compare `run_id_j` with the `run_id` of the
global groups `k, k+1, ...` and stop at the first equal one. -/
def scanHeader (run_id_j : String) : List ReadGroup → Nat → Option Nat
  | [], _ => none
  | g :: rest, k =>
    if run_id_j = g.run_id then some k else scanHeader run_id_j rest (k + 1)

/-- The assignment `list[index][j] = v`; `none` when `index` or `j` is outside
the vectors. -/
def setEntry (list : List (List Nat)) (index j v : Nat) : Option (List (List Nat)) :=
  match list[index]? with
  | none => none
  | some row => if j < row.length then some (list.set index (row.set j v)) else none

/-- One iteration of the `j` loop (lines 366-384) for the local group `g` at
local index `j`. -/
def groupStep (st : MergeState) (j : Nat) (g : ReadGroup) : Except MergeError MergeState :=
  let read_group_count := st.header.length
  match scanHeader g.run_id st.header 0 with
  | some k =>
    match setEntry st.list st.index j k with
    | some l => .ok { st with list := l }
    | none => .error .out_of_range
  | none =>
    let added := slow5_hdr_add_rg_data st.header g
    let new_read_group := added.2
    match setEntry st.list st.index j new_read_group with
    | some l =>
      .ok { st with
            header := added.1
            list := l
            warned := st.warned || (new_read_group != read_group_count) }
    | none => .error .out_of_range

/-- The `j` loop of line 365 over the local groups still to visit, `j` being
the local index of the first of them. -/
def groupLoop : MergeState → Nat → List ReadGroup → Except MergeError MergeState
  | st, _, [] => .ok st
  | st, j, g :: rest =>
    match groupStep st j g with
    | .ok st1 => groupLoop st1 (j + 1) rest
    | .error e => .error e

/-- Line 362-363: `list.push_back(read_group_tracker)`, a zero-filled vector
with one entry per local read group. -/
def pushTracker (st : MergeState) (read_group_count_i : Nat) : MergeState :=
  { st with list := st.list ++ [List.replicate read_group_count_i 0] }

/-- One iteration of the file loop (lines 348-390). -/
def fileStep (slow5_open : String → Option Slow5File) (lossy : Bool)
    (st : MergeState) (path : String) : Except MergeError MergeState :=
  match slow5_open path with
  | none => .ok st
  | some slow5File_i =>
    if lossy = false ∧ slow5File_i.aux_meta = false then
      .error (.no_aux_meta path)
    else
      match groupLoop (pushTracker st slow5File_i.groups.length) 0 slow5File_i.groups with
      | .ok st1 =>
        .ok { st1 with index := st1.index + 1, slow5_files := st1.slow5_files ++ [path] }
      | .error e => .error e

/-- The file loop of line 348 over the paths still to visit. -/
def fileLoop (slow5_open : String → Option Slow5File) (lossy : Bool) :
    MergeState → List String → Except MergeError MergeState
  | st, [] => .ok st
  | st, path :: rest =>
    match fileStep slow5_open lossy st path with
    | .ok st1 => fileLoop slow5_open lossy st1 rest
    | .error e => .error e

/-- Lines 343-347: the state before the file loop. -/
def initState : MergeState :=
  { header := [], list := [], index := 0, slow5_files := [], warned := false }

/-- The reconciliation of `merge_main`: lines 343-390 on the listed `files`. -/
def reconcile (slow5_open : String → Option Slow5File) (lossy : Bool)
    (files : List String) : Except MergeError MergeState :=
  fileLoop slow5_open lossy initState files

/-! ## Vocabulary of the specification -/

/-- The local read groups met by the scan, in scan order: files in input
order (unopenable ones contribute nothing), groups in local order. -/
def scannedGroups (slow5_open : String → Option Slow5File) (files : List String) :
    List ReadGroup :=
  ((files.filterMap slow5_open).map Slow5File.groups).flatten

/-- The first occurrence of every `run_id`, in order of appearance. -/
def firstOccurrences : List ReadGroup → List ReadGroup
  | [] => []
  | g :: rest => g :: (firstOccurrences rest).filter (fun h => h.run_id ≠ g.run_id)

/-- The lossless precondition is violated by `path`: lossless mode, and the
file opens but has no auxiliary metadata. -/
def violatesLossless (slow5_open : String → Option Slow5File) (lossy : Bool)
    (path : String) : Bool :=
  match slow5_open path with
  | none => false
  | some f => !lossy && !f.aux_meta

/-- The input list with every unopenable path removed. -/
def openable (slow5_open : String → Option Slow5File) (files : List String) : List String :=
  files.filter (fun p => (slow5_open p).isSome)

/-! ## Closed forms of the two loops -/

/-- The `run_id`s of a header, in group order. -/
def runIds (header : List ReadGroup) : List String := header.map ReadGroup.run_id

/-- Closed form of the header after the `j` loop: every group whose `run_id`
is not yet present is appended. -/
def headerAfter : List ReadGroup → List ReadGroup → List ReadGroup
  | header, [] => header
  | header, g :: rest =>
    if g.run_id ∈ runIds header then headerAfter header rest
    else headerAfter (header ++ [g]) rest

/-- Closed form of the table the `j` loop fills in. -/
def tableAfter : List ReadGroup → List ReadGroup → List Nat
  | _, [] => []
  | header, g :: rest =>
    if g.run_id ∈ runIds header then
      List.indexOf g.run_id (runIds header) :: tableAfter header rest
    else header.length :: tableAfter (header ++ [g]) rest

/-- Closed form of the tables the file loop pushes. -/
def tablesAfter : List ReadGroup → List (List ReadGroup) → List (List Nat)
  | _, [] => []
  | header, gs :: rest => tableAfter header gs :: tablesAfter (headerAfter header gs) rest

/-- The group lists of the openable files, in input order. -/
def fileGroups (slow5_open : String → Option Slow5File) (files : List String) :
    List (List ReadGroup) :=
  (files.filterMap slow5_open).map Slow5File.groups

/-! ## Work items (lines 45-99) -/

/-- The target encodings of `enum slow5_fmt` that `--to` can select. -/
inductive slow5_fmt where
  | SLOW5_FORMAT_ASCII
  | SLOW5_FORMAT_BINARY
deriving DecidableEq, Repr

/-- The compression methods that `-c` can select. -/
inductive slow5_press_method where
  | SLOW5_COMPRESS_NONE
  | SLOW5_COMPRESS_ZLIB
deriving DecidableEq, Repr

/-- The two exit statuses of `merge_main`. -/
inductive ExitStatus where
  | EXIT_SUCCESS
  | EXIT_FAILURE
deriving DecidableEq, Repr

/-- The options after parsing and checking (lines 101-302): `output_dir` is
`--tmp-prefix` when given and the generated `slow5_<time>_<pid>` otherwise;
`read_id_batch_capacity` is non-negative after the check of line 191. -/
structure Config where
  format_out : slow5_fmt
  press_method : slow5_press_method
  lossy : Bool
  parallel_files : Bool
  read_id_batch_capacity : Nat
  arg_fname_out : Option String
  output_dir : String

/-- The environment of one run: the answers of the file system and of the
slow5 library.  `list_all_items_args` is what `list_all_items` collects from
the command-line arguments (line 319-321); `list_all_items_tmp` is what it
lists in the temp directory (line 434), given the temp files that the work
items created: nothing in `merge_main` constrains the order of the listing, nor
that it holds exactly these files. -/
structure Env where
  stat_exists : Bool
  list_directory : List String
  list_all_items_args : List String
  fopen_output_ok : Bool
  slow5_open : String → Option Slow5File
  hdr_fwrite_ok : Bool
  reopen_ok : String → Bool
  fopen_tmp_append_ok : String → Bool
  parse_ok : Slow5Rec → Bool
  encode_ok : Slow5Rec → Bool
  list_all_items_tmp : List String → List String
  fopen_tmp_read_ok : String → Bool
  remove_ok : String → Bool
  close_ok : String → Bool
  rmdir_ok : Bool

/-- The calls of `merge_main` that touch the outside world, with their
outcome where the code tests it.  `write_record` is one record buffer written
to the output; `write_bytes_of path` is the copy to the output (lines 453-455)
of the bytes of a listed file `path` that no work item of the run created. -/
inductive Event where
  | mkdir (dir : String)
  | list_all_items
  | fopen_output (path : String) (ok : Bool)
  | slow5_open (path : String)
  | write_header (header : List ReadGroup) (ok : Bool)
  | write_record (read : Slow5Rec)
  | write_bytes_of (path : String)
  | write_eof
  | close_output
  | write_tmp (path : String) (reads : List Slow5Rec)
  | remove (path : String) (ok : Bool)
  | delete_directory (dir : String) (ok : Bool)
deriving DecidableEq, Repr

/-- How a run ends: `return` from `merge_main`, `exit` inside a work item, or
a vector access outside its bounds (undefined in C++). -/
inductive Termination where
  | returned (status : ExitStatus)
  | exited (status : ExitStatus)
  | undefined
deriving DecidableEq, Repr

/-- A finished run: how it ended and what it did, in order. -/
structure Run where
  result : Termination
  events : List Event
deriving DecidableEq, Repr

/-- The result of one work item or of a whole `work_db` call. -/
inductive WorkResult (α : Type) where
  | done (a : α)
  | exit_failure
  | undefined
deriving DecidableEq, Repr

/-- The access `db->list[file][read_group]` (lines 53 and 88); `none` outside
the vectors. -/
def lookup (list : List (List Nat)) (file read_group : Nat) : Option Nat :=
  match list[file]? with
  | none => none
  | some row => row[read_group]?

/-- Lines 45-65: decode one raw record of the batch, rewrite its read group
with the table of file `slow5_file_index`, and encode it again. -/
def parallel_reads_model (env : Env) (list : List (List Nat)) (slow5_file_index : Nat)
    (mem_record : Slow5Rec) : WorkResult Slow5Rec :=
  if env.parse_ok mem_record = false then .exit_failure
  else
    match lookup list slow5_file_index mem_record.read_group with
    | none => .undefined
    | some v =>
      let read := { mem_record with read_group := v }
      if env.encode_ok read = false then .exit_failure else .done read

/-- The record loop of `parallel_files_model` (lines 87-94) on the records
still to read of file `i`. -/
def rewriteRecords (env : Env) (list : List (List Nat)) (i : Nat) :
    List Slow5Rec → WorkResult (List Slow5Rec)
  | [] => .done []
  | rec0 :: rest =>
    match lookup list i rec0.read_group with
    | none => .undefined
    | some v =>
      let read := { rec0 with read_group := v }
      if env.encode_ok read = false then .exit_failure
      else
        match rewriteRecords env list i rest with
        | .done reads => .done (read :: reads)
        | .exit_failure => .exit_failure
        | .undefined => .undefined

/-- Line 69-70: the temp file of work item `i`. -/
def tempPath (output_dir : String) (i : Nat) : String :=
  output_dir ++ "/" ++ toString i ++ ".blow5"

/-- Lines 68-99: work item `i` of the file-sharded strategy; on completion the
temp file `tempPath output_dir i` holds the returned records. -/
def parallel_files_model (env : Env) (output_dir : String) (slow5_files : List String)
    (list : List (List Nat)) (i : Nat) : WorkResult (String × List Slow5Rec) :=
  let out := tempPath output_dir i
  if env.fopen_tmp_append_ok out = false then .exit_failure
  else
    match slow5_files[i]? with
    | none => .undefined
    | some path =>
      match (if env.reopen_ok path then env.slow5_open path else none) with
      | none => .exit_failure
      | some slow5File_i =>
        match rewriteRecords env list i slow5File_i.records with
        | .done reads => .done (out, reads)
        | .exit_failure => .exit_failure
        | .undefined => .undefined

/-- Run the work items with the given indices one after the other. -/
def runItems {α : Type} (work : Nat → WorkResult α) : List Nat → WorkResult (List α)
  | [] => .done []
  | i :: rest =>
    match work i with
    | .done a =>
      match runItems work rest with
      | .done as => .done (a :: as)
      | .exit_failure => .exit_failure
      | .undefined => .undefined
    | .exit_failure => .exit_failure
    | .undefined => .undefined

/-- Modelled from the spec: `work_db` (thread.c) is not among the sources.  The
spec says it "executes `workFn(i)` for every `i` in `[0, itemCount)` ... and
returns only after all items complete"; the items are independent, so they
are run here in index order, and an `exit` in one of them ends the process. -/
def work_db {α : Type} (n_batch : Nat) (work : Nat → WorkResult α) : WorkResult (List α) :=
  runItems work (List.range n_batch)

/-! ## `merge_main` from the temp directory on (lines 293-576) -/

/-- What a stage of `merge_main` hands on: either the run has ended, or it
goes on with the events so far. -/
inductive Stage where
  | halt (run : Run)
  | next (events : List Event)
deriving DecidableEq, Repr

/-- Lines 305-314: `none` when the temp directory exists and lists more than
two entries; otherwise the events of the stage (a `mkdir` when `stat`
fails). -/
def acquireTemp (cfg : Config) (env : Env) : Option (List Event) :=
  if env.stat_exists = false then some [Event.mkdir cfg.output_dir]
  else if env.list_directory.length > 2 then none
  else some []

/-- Lines 329-339: open the output (`stdout` when `-o` is absent). -/
def openOutput (cfg : Config) (env : Env) : Bool × List Event :=
  match cfg.arg_fname_out with
  | some path => (env.fopen_output_ok, [Event.fopen_output path env.fopen_output_ok])
  | none => (true, [])

/-- The `slow5_open` calls of the file loop (line 349): one per path, up to
and including the first one that violates the lossless precondition. -/
def openedInputs (slow5_open : String → Option Slow5File) (lossy : Bool) :
    List String → List String
  | [] => []
  | path :: rest =>
    if violatesLossless slow5_open lossy path then [path]
    else path :: openedInputs slow5_open lossy rest

/-- What the copy loop of lines 453-455 appends to the output for the listed
file `path`: the records that its work item wrote, when a work item of this run
created the file, and otherwise the bytes of that file, whatever they are
(`write_bytes_of`). -/
def copyOf (tmp : List (String × List Slow5Rec)) (path : String) : List Event :=
  match tmp.find? (fun t => t.1 = path) with
  | some t => t.2.map Event.write_record
  | none => [Event.write_bytes_of path]

/-- Lines 439-465: append every listed file that can be opened to the output
and remove it; a file that cannot be opened is skipped (line 451). -/
def concatLoop (env : Env) (tmp : List (String × List Slow5Rec)) :
    List String → List Event → Stage
  | [], events => .next events
  | path :: rest, events =>
    if env.fopen_tmp_read_ok path = false then concatLoop env tmp rest events
    else
      let events1 := events ++ copyOf tmp path
      if env.remove_ok path = false then
        .halt ⟨.returned .EXIT_FAILURE, events1 ++ [Event.remove path false]⟩
      else concatLoop env tmp rest (events1 ++ [Event.remove path true])

/-- Lines 406-469: the file-sharded strategy. -/
def shardedStage (cfg : Config) (env : Env) (st : MergeState) (events : List Event) : Stage :=
  match work_db st.slow5_files.length
      (parallel_files_model env cfg.output_dir st.slow5_files st.list) with
  | .exit_failure => .halt ⟨.exited .EXIT_FAILURE, events⟩
  | .undefined => .halt ⟨.undefined, events⟩
  | .done tmp =>
    concatLoop env tmp (env.list_all_items_tmp (tmp.map Prod.fst))
      (events ++ tmp.map (fun t => Event.write_tmp t.1 t.2))

/-- The input file the batched strategy is reading: its path, the records not
yet read, and whether the stream ends in a read error. -/
structure OpenFile where
  path : String
  stream : List Slow5Rec
  read_error : Bool
deriving DecidableEq, Repr

/-- The `slow5_open` of lines 480 and 549. -/
def openFrom (env : Env) (path : String) : Option OpenFile :=
  if env.reopen_ok path then
    match env.slow5_open path with
    | some f => some ⟨path, f.records, f.read_error⟩
    | none => none
  else none

/-- Lines 496-509, with `room = batch_size - record_count`: `none` on a read
error (`return EXIT_FAILURE`), else the records read, the rest of the stream
and the new value of `flag_EOF`. -/
def readBatch (read_error : Bool) :
    Nat → List Slow5Rec → Bool → Option (List Slow5Rec × List Slow5Rec × Bool)
  | 0, stream, flag_EOF => some ([], stream, flag_EOF)
  | _ + 1, [], _ => if read_error then none else some ([], [], true)
  | room + 1, mem :: rest, flag_EOF =>
    match readBatch read_error room rest flag_EOF with
    | none => none
    | some (batch, rest1, flag1) => some (mem :: batch, rest1, flag1)

/-- The `while(1)` loop of lines 486-557; `none` when the fuel runs out.
`flag_EOF` is declared before the loop (line 478) and is never cleared. -/
def batchLoop (env : Env) (cfg : Config) (list : List (List Nat)) (slow5_files : List String) :
    Nat → Nat → OpenFile → Bool → List Event → Option Stage
  | 0, _, _, _, _ => none
  | fuel + 1, slow5_file_index, src, flag_EOF, events =>
    match readBatch src.read_error cfg.read_id_batch_capacity src.stream flag_EOF with
    | none => some (.halt ⟨.returned .EXIT_FAILURE, events⟩)
    | some (mem_records, rest, flag1) =>
      match work_db mem_records.length (fun i =>
          match mem_records[i]? with
          | some m => parallel_reads_model env list slow5_file_index m
          | none => .undefined) with
      | .exit_failure => some (.halt ⟨.exited .EXIT_FAILURE, events⟩)
      | .undefined => some (.halt ⟨.undefined, events⟩)
      | .done read_record =>
        let events1 := events ++ read_record.map Event.write_record
        if flag1 then
          if env.close_ok src.path = false then
            some (.halt ⟨.returned .EXIT_FAILURE, events1⟩)
          else if slow5_file_index + 1 = slow5_files.length then some (.next events1)
          else
            match slow5_files[slow5_file_index + 1]? with
            | none => some (.halt ⟨.undefined, events1⟩)
            | some path =>
              match openFrom env path with
              | none =>
                some (.halt ⟨.returned .EXIT_FAILURE, events1 ++ [Event.slow5_open path]⟩)
              | some src1 =>
                batchLoop env cfg list slow5_files fuel (slow5_file_index + 1) src1 flag1
                  (events1 ++ [Event.slow5_open path])
        else
          batchLoop env cfg list slow5_files fuel slow5_file_index { src with stream := rest }
            flag1 events1

/-- Lines 470-564: the batched strategy. -/
def batchedStage (fuel : Nat) (cfg : Config) (env : Env) (st : MergeState)
    (events : List Event) : Option Stage :=
  match st.slow5_files[0]? with
  | none => some (.halt ⟨.undefined, events⟩)
  | some path =>
    match openFrom env path with
    | none => some (.halt ⟨.returned .EXIT_FAILURE, events ++ [Event.slow5_open path]⟩)
    | some src =>
      batchLoop env cfg st.list st.slow5_files fuel 0 src false
        (events ++ [Event.slow5_open path])

/-- Lines 565-576: the end-of-stream marker for the binary format, closing the
output, and `delete_directory`. -/
def finish (cfg : Config) (env : Env) (events : List Event) : Run :=
  let events1 :=
    if cfg.format_out = slow5_fmt.SLOW5_FORMAT_BINARY then events ++ [Event.write_eof]
    else events
  let events2 := events1 ++ [Event.close_output, Event.delete_directory cfg.output_dir env.rmdir_ok]
  if env.rmdir_ok = false then ⟨.returned .EXIT_FAILURE, events2⟩
  else ⟨.returned .EXIT_SUCCESS, events2⟩

/-- Lines 392-576: what `merge_main` does after the file loop has ended in
state `st`. -/
def afterReconcile (fuel : Nat) (cfg : Config) (env : Env) (st : MergeState)
    (events : List Event) : Option Run :=
  if st.slow5_files.length = 0 then
    some ⟨.returned .EXIT_SUCCESS, events ++ [Event.delete_directory cfg.output_dir env.rmdir_ok]⟩
  else
    let events1 := events ++ [Event.write_header st.header env.hdr_fwrite_ok]
    if env.hdr_fwrite_ok = false then some ⟨.returned .EXIT_FAILURE, events1⟩
    else
      let stage :=
        if cfg.parallel_files then some (shardedStage cfg env st events1)
        else batchedStage fuel cfg env st events1
      match stage with
      | none => none
      | some (.halt run) => some run
      | some (.next events2) => some (finish cfg env events2)

/-- Lines 329-576 for the listed input `files`, `events1` being the events so
far. -/
def mergeFiles (fuel : Nat) (cfg : Config) (env : Env) (files : List String)
    (events1 : List Event) : Option Run :=
  match openOutput cfg env with
  | (false, events) => some ⟨.returned .EXIT_FAILURE, events1 ++ events⟩
  | (true, events) =>
    let events2 := events1 ++ events ++
      (openedInputs env.slow5_open cfg.lossy files).map Event.slow5_open
    match reconcile env.slow5_open cfg.lossy files with
    | .error (.no_aux_meta _) =>
      some ⟨.returned .EXIT_FAILURE,
        events2 ++ [Event.delete_directory cfg.output_dir env.rmdir_ok]⟩
    | .error .out_of_range => some ⟨.undefined, events2⟩
    | .ok st => afterReconcile fuel cfg env st events2

/-- The body of `merge_main` from line 293 on, for parsed options `cfg` in
environment `env`; `none` when the batched loop is still running after `fuel`
iterations. -/
def merge_main (fuel : Nat) (cfg : Config) (env : Env) : Option Run :=
  match acquireTemp cfg env with
  | none => some ⟨.returned .EXIT_FAILURE, []⟩
  | some events0 =>
    mergeFiles fuel cfg env env.list_all_items_args (events0 ++ [Event.list_all_items])

/-- The writes to the output stream among the events of a run. -/
def outputWrites (events : List Event) : List Event :=
  events.filter (fun e =>
    match e with
    | .write_header _ _ => true
    | .write_record _ => true
    | .write_bytes_of _ => true
    | .write_eof => true
    | _ => false)

/-! ## Accepted files by position -/

/-- The local read group `j` of the accepted file at position `i`. -/
def localGroup (slow5_open : String → Option Slow5File) (slow5_files : List String)
    (i j : Nat) : Option ReadGroup :=
  match slow5_files[i]? with
  | none => none
  | some path =>
    match slow5_open path with
    | none => none
    | some f => f.groups[j]?

/-! ## Concrete inputs -/

/-- Read group with `run_id` "X". -/
def demoX : ReadGroup := ⟨"X", [("flow_cell", "F1")]⟩

/-- Read group with `run_id` "Y". -/
def demoY : ReadGroup := ⟨"Y", []⟩

/-- A small file system: "A" has the group X, "B" has the groups X and Y, "N"
has the group Y and no auxiliary metadata; nothing else opens. -/
def demoOpen (path : String) : Option Slow5File :=
  if path = "A" then
    some ⟨[demoX], true, [⟨"a1", 0, []⟩, ⟨"a2", 0, []⟩], false⟩
  else if path = "B" then
    some ⟨[demoX, demoY], true, [⟨"b1", 1, []⟩, ⟨"b2", 0, []⟩, ⟨"b3", 1, []⟩], false⟩
  else if path = "N" then some ⟨[demoY], false, [⟨"n1", 0, []⟩], false⟩
  else none

/-- The file behind "B" in `demoOpen`. -/
def demoFileB : Slow5File :=
  ⟨[demoX, demoY], true, [⟨"b1", 1, []⟩, ⟨"b2", 0, []⟩, ⟨"b3", 1, []⟩], false⟩

/-- The state of the loop inside "B" after its first group, "A" being done. -/
def demoMid : MergeState :=
  { header := [demoX], list := [[0], [0, 0]], index := 1, slow5_files := ["A"], warned := false }

/-- The state one iteration after `demoMid`. -/
def demoMid2 : MergeState :=
  { header := [demoX, demoY], list := [[0], [0, 1]], index := 1, slow5_files := ["A"],
    warned := false }

/-! ## Reading the events of a stage -/

/-- The events of a stage, ended or not. -/
def stageEvents : Stage → List Event
  | .halt run => run.events
  | .next events => events

/-- A stage started with the events `events` has only added to them, the
output writes it added are record writes, and if it ended the run it did not
end it with success. -/
def StageAppends (events : List Event) (s : Stage) : Prop :=
  ∃ (more : List Event) (reads : List Slow5Rec),
    stageEvents s = events ++ more ∧
    outputWrites more = reads.map Event.write_record ∧
    ∀ run, s = .halt run → run.result ≠ .returned .EXIT_SUCCESS

/-- The run `run` with `events` put in front of its events. -/
def Run.after (events : List Event) (run : Run) : Run :=
  ⟨run.result, events ++ run.events⟩

/-- The stage `s` with `events` put in front of its events. -/
def Stage.after (events : List Event) : Stage → Stage
  | .halt run => .halt (run.after events)
  | .next events1 => .next (events ++ events1)

/-- An environment over `demoOpen` in which every call succeeds: `found` and
`entries` are the answers of `stat` and `list_directory` for the temp
directory, `files` are the listed inputs, and the temp directory is listed in
creation order. -/
def demoEnv (found : Bool) (entries : List String) (files : List String) : Env :=
  { stat_exists := found
    list_directory := entries
    list_all_items_args := files
    fopen_output_ok := true
    slow5_open := demoOpen
    hdr_fwrite_ok := true
    reopen_ok := fun _ => true
    fopen_tmp_append_ok := fun _ => true
    parse_ok := fun _ => true
    encode_ok := fun _ => true
    list_all_items_tmp := fun created => created
    fopen_tmp_read_ok := fun _ => true
    remove_ok := fun _ => true
    close_ok := fun _ => true
    rmdir_ok := true }

/-- Options `-o out.blow5 --tmp-prefix tmp` with the given strategy, batch
size, lossy flag and format. -/
def demoCfg (parallel_files : Bool) (batch : Nat) (lossy : Bool) (fmt : slow5_fmt) : Config :=
  { format_out := fmt
    press_method := slow5_press_method.SLOW5_COMPRESS_ZLIB
    lossy := lossy
    parallel_files := parallel_files
    read_id_batch_capacity := batch
    arg_fname_out := some "out.blow5"
    output_dir := "tmp" }

/-- The state in which the file loop ends on "A", "missing", "B". -/
def demoFinal : MergeState :=
  { header := [demoX, demoY], list := [[0], [0, 1]], index := 2, slow5_files := ["A", "B"],
    warned := false }

/-- The batched run (batch size 2, binary output) on "A", "missing", "B".  The
third record of "B" is not written: `flag_EOF`, set at the end of "A", is
still set after the first batch of "B", so "B" is closed after that batch. -/
def demoBatchedRun : Run :=
  ⟨.returned .EXIT_SUCCESS,
   [Event.mkdir "tmp", Event.list_all_items, Event.fopen_output "out.blow5" true,
    Event.slow5_open "A", Event.slow5_open "missing", Event.slow5_open "B",
    Event.write_header [demoX, demoY] true,
    Event.slow5_open "A",
    Event.write_record ⟨"a1", 0, []⟩, Event.write_record ⟨"a2", 0, []⟩,
    Event.slow5_open "B",
    Event.write_record ⟨"b1", 1, []⟩, Event.write_record ⟨"b2", 0, []⟩,
    Event.write_eof, Event.close_output, Event.delete_directory "tmp" true]⟩

/-- Options `-o out.slow5 --tmp-prefix tmp --to slow5` with the given strategy
and batch size. -/
def demoCfgAscii (parallel_files : Bool) (batch : Nat) : Config :=
  { demoCfg parallel_files batch false slow5_fmt.SLOW5_FORMAT_ASCII with
    arg_fname_out := some "out.slow5" }

/-- The file-sharded run (ASCII output to "out.slow5") on "A", "missing",
"B". -/
def demoShardedRun : Run :=
  ⟨.returned .EXIT_SUCCESS,
   [Event.mkdir "tmp", Event.list_all_items, Event.fopen_output "out.slow5" true,
    Event.slow5_open "A", Event.slow5_open "missing", Event.slow5_open "B",
    Event.write_header [demoX, demoY] true,
    Event.write_tmp "tmp/0.blow5" [⟨"a1", 0, []⟩, ⟨"a2", 0, []⟩],
    Event.write_tmp "tmp/1.blow5" [⟨"b1", 1, []⟩, ⟨"b2", 0, []⟩, ⟨"b3", 1, []⟩],
    Event.write_record ⟨"a1", 0, []⟩, Event.write_record ⟨"a2", 0, []⟩,
    Event.remove "tmp/0.blow5" true,
    Event.write_record ⟨"b1", 1, []⟩, Event.write_record ⟨"b2", 0, []⟩,
    Event.write_record ⟨"b3", 1, []⟩,
    Event.remove "tmp/1.blow5" true,
    Event.close_output, Event.delete_directory "tmp" true]⟩

/-! ## The output-name check (lines 274-291) -/

/-- The difference `a - b` of two `size_t` values (below `2^64`): the
subtraction wraps around when `b` exceeds `a`. -/
def size_t_sub (a b : Nat) : Nat :=
  if b ≤ a then a - b else a + 18446744073709551616 - b

/-- The call `s.substr(pos, len)` of `std::string`, a character of `s` being one
`char`: `none` when `pos > s.size()`, where `std::out_of_range` is thrown;
otherwise at most `len` characters from position `pos` on. -/
def substr (s : String) (pos len : Nat) : Option String :=
  if pos > s.length then none else some ⟨(s.data.drop pos).take len⟩

/-- How the output-name check ends: the name passes, `merge_main` returns
`EXIT_FAILURE` with the extension-mismatch error, or `substr` throws
`std::out_of_range` (nothing in `merge_main` catches it). -/
inductive NameCheck where
  | accepted
  | extension_mismatch (extension : String)
  | out_of_range
deriving DecidableEq, Repr

/-- Lines 274-291: the check of the name given with `-o` against the output
format. -/
def checkOutputName (format_out : slow5_fmt) (arg_fname_out : Option String) : NameCheck :=
  match arg_fname_out with
  | none => .accepted
  | some output_file =>
    match substr output_file (size_t_sub output_file.length 6) output_file.length with
    | none => .out_of_range
    | some extension =>
      if format_out = slow5_fmt.SLOW5_FORMAT_ASCII ∧ extension ≠ ".slow5" then
        .extension_mismatch extension
      else if format_out = slow5_fmt.SLOW5_FORMAT_BINARY ∧ extension ≠ ".blow5" then
        .extension_mismatch extension
      else .accepted

/-! ## The ranges of `f2s_iop` (f2s.c, lines 149-180) -/

/-- The value of `x` converted to `int32_t` (two's complement, 32 bits). -/
def toInt32 (x : Int) : Int := (x + 2147483648) % 4294967296 - 2147483648

/-- The fields of `proc_arg_t` that `f2s_iop` sets; the type is declared outside
the sources and its fields are taken to be `int32_t` like the variables they
are set from. -/
structure proc_arg_t where
  starti : Int
  endi : Int
  proc_index : Int
deriving DecidableEq, Repr

/-- The loop of lines 165-174 with `remaining` iterations to go, `t` and `i`
being the current values of the two `int32_t` variables. -/
def setRanges (num_fast5_files step : Int) : Nat → Int → Int → List proc_arg_t
  | 0, _, _ => []
  | remaining + 1, t, i =>
    let starti := i
    let i1 := toInt32 (i + step)
    let endi := if i1 > num_fast5_files then toInt32 num_fast5_files else i1
    ⟨starti, endi, t⟩ :: setRanges num_fast5_files step remaining (toInt32 (t + 1)) i1

/-- Lines 150-174 of `f2s_iop`: `proc_args[0 .. iop-1]` for `num_fast5_files`
files and `iop >= 1` processes. -/
def f2s_iop (num_fast5_files iop : Nat) : List proc_arg_t :=
  let step := toInt32 (((num_fast5_files + iop - 1) / iop : Nat) : Int)
  setRanges num_fast5_files step iop 0 0

/-- Line 53 of `f2s_child_worker`: the indices `i` with
`args.starti <= i < args.endi`, in the order the loop visits them. -/
def workerItems (args : proc_arg_t) : List Int :=
  (List.range (args.endi - args.starti).toNat).map (fun (d : Nat) => args.starti + (d : Int))

/-! ## Decimal names of the temp files -/

/-- The value of a decimal digit character (0 for any other character). -/
def digitValue (c : Char) : Nat :=
  if c = '1' then 1 else if c = '2' then 2 else if c = '3' then 3 else if c = '4' then 4
  else if c = '5' then 5 else if c = '6' then 6 else if c = '7' then 7 else if c = '8' then 8
  else if c = '9' then 9 else 0

/-- The number read from decimal digits, most significant first, starting from
the value `acc`. -/
def readDecimal (acc : Nat) (digits : List Char) : Nat :=
  digits.foldl (fun a c => a * 10 + digitValue c) acc

/-- The environment `demoEnv` with the temp directory listed in the reverse of
the creation order. -/
def demoEnvReversed (files : List String) : Env :=
  { demoEnv false [] files with list_all_items_tmp := fun created => created.reverse }

/-- The environment `demoEnv` in which the temp file "tmp/1.blow5" cannot be
opened for reading (line 450). -/
def demoEnvUnreadable (files : List String) : Env :=
  { demoEnv false [] files with
    fopen_tmp_read_ok := fun path => decide (path ≠ "tmp/1.blow5") }

/-- The environment `demoEnv` in which the listing of the temp directory (line
434) also returns the file "tmp/out.blow5", which no work item created. -/
def demoEnvListsOutput (files : List String) : Env :=
  { demoEnv false [] files with
    list_all_items_tmp := fun created => created ++ ["tmp/out.blow5"] }

/-- Options `-o tmp/out.blow5 --tmp-prefix tmp`, file-sharded strategy, binary
output: the output file lies in the temp directory. -/
def demoCfgOutputInTemp : Config :=
  { demoCfg true 4096 false slow5_fmt.SLOW5_FORMAT_BINARY with
    arg_fname_out := some "tmp/out.blow5" }

/-- The environment `demoEnv` in which the temp directory cannot be removed. -/
def demoEnvNoRmdir (files : List String) : Env :=
  { demoEnv false [] files with rmdir_ok := false }

/-- The environment `demoEnv` in which the output file cannot be opened. -/
def demoEnvNoOutput (files : List String) : Env :=
  { demoEnv false [] files with fopen_output_ok := false }

/-- The environment `demoEnv` in which writing the header fails. -/
def demoEnvNoHeader (files : List String) : Env :=
  { demoEnv false [] files with hdr_fwrite_ok := false }

/-- The environment `demoEnv` in which no temp file can be removed. -/
def demoEnvNoRemove (files : List String) : Env :=
  { demoEnv false [] files with remove_ok := fun _ => false }

/-- The environment `demoEnv` in which "B" cannot be opened a second time. -/
def demoEnvNoReopen (files : List String) : Env :=
  { demoEnv false [] files with reopen_ok := fun path => decide (path ≠ "B") }

/-- Whether an event is a call of `delete_directory`. -/
def isDeleteDirectory : Event → Bool
  | .delete_directory _ _ => true
  | _ => false

/-- Whether an event creates, fills or removes a temp file. -/
def isTempFileEvent : Event → Bool
  | .write_tmp _ _ => true
  | .remove _ _ => true
  | _ => false

/-! ## The batches of the batched strategy -/

/-- The batches that the loop of lines 486-557 hands to `work_db` (line 525),
each with the value of `core.slow5_file_index` at that moment, for as long as
the loop runs within `fuel` iterations. -/
def dispatchedBatches (env : Env) (cfg : Config) (list : List (List Nat))
    (slow5_files : List String) : Nat → Nat → OpenFile → Bool → List (Nat × List Slow5Rec)
  | 0, _, _, _ => []
  | fuel + 1, slow5_file_index, src, flag_EOF =>
    match readBatch src.read_error cfg.read_id_batch_capacity src.stream flag_EOF with
    | none => []
    | some (mem_records, rest, flag1) =>
      (slow5_file_index, mem_records) ::
        match work_db mem_records.length (fun i =>
            match mem_records[i]? with
            | some m => parallel_reads_model env list slow5_file_index m
            | none => .undefined) with
        | .exit_failure => []
        | .undefined => []
        | .done _ =>
          if flag1 then
            if env.close_ok src.path = false then []
            else if slow5_file_index + 1 = slow5_files.length then []
            else
              match slow5_files[slow5_file_index + 1]? with
              | none => []
              | some path =>
                match openFrom env path with
                | none => []
                | some src1 =>
                  dispatchedBatches env cfg list slow5_files fuel (slow5_file_index + 1) src1
                    flag1
          else
            dispatchedBatches env cfg list slow5_files fuel slow5_file_index
              { src with stream := rest } flag1

/-- The records `read_record` are the records `mem_records` with every read
group replaced by its entry in the table of file `idx`. -/
def Translated (list : List (List Nat)) (idx : Nat) (mem_records read_record : List Slow5Rec) :
    Prop :=
  List.Forall₂ (fun m r =>
    ∃ v, lookup list idx m.read_group = some v ∧ r = { m with read_group := v })
    mem_records read_record

/-! ## A single input file -/

/-- The state with the groups of `f` as header and the identity table for the
one accepted file `path`. -/
def identityState (path : String) (f : Slow5File) : MergeState :=
  { header := f.groups
    list := [List.range f.groups.length]
    index := 1
    slow5_files := [path]
    warned := false }

/-- No call into the system or the slow5 library fails in `env`, and the
directory listing of line 435 returns the files it is given. -/
structure NoFailure (env : Env) : Prop where
  temp : env.stat_exists = false ∨ env.list_directory.length ≤ 2
  fopen_output : env.fopen_output_ok = true
  hdr_fwrite : env.hdr_fwrite_ok = true
  reopen : ∀ p, env.reopen_ok p = true
  fopen_tmp_append : ∀ p, env.fopen_tmp_append_ok p = true
  parse : ∀ r, env.parse_ok r = true
  encode : ∀ r, env.encode_ok r = true
  listing : ∀ created, env.list_all_items_tmp created = created
  fopen_tmp_read : ∀ p, env.fopen_tmp_read_ok p = true
  remove : ∀ p, env.remove_ok p = true
  close : ∀ p, env.close_ok p = true
  rmdir : env.rmdir_ok = true

/-! ## The loops compute their closed forms -/

theorem scanHeader_eq (key : String) (header : List ReadGroup) (k : Nat) :
    scanHeader key header k =
      if key ∈ runIds header then some (k + List.indexOf key (runIds header)) else none := by
  induction header generalizing k with
  | nil => simp [scanHeader, runIds]
  | cons g rest ih =>
    by_cases h : key = g.run_id
    · simp [scanHeader, runIds, h]
    · have h2 : g.run_id ≠ key := fun e => h e.symm
      simp only [scanHeader, h, if_false, ih, runIds, List.map_cons, List.mem_cons, false_or]
      rw [List.indexOf_cons_ne _ h2]
      split
      · simp; omega
      · rfl

theorem setEntry_last (pre : List (List Nat)) (done pad : List Nat) (p v : Nat) :
    setEntry (pre ++ [done ++ p :: pad]) pre.length done.length v
      = some (pre ++ [(done ++ [v]) ++ pad]) := by
  simp [setEntry]

theorem groupStep_eq (st : MergeState) (pre : List (List Nat)) (done pad : List Nat) (p : Nat)
    (g : ReadGroup) (hl : st.list = pre ++ [done ++ p :: pad]) (hi : st.index = pre.length) :
    groupStep st done.length g = .ok
      { st with
        header := headerAfter st.header [g]
        list := pre ++ [(done ++ tableAfter st.header [g]) ++ pad] } := by
  unfold groupStep
  simp only [scanHeader_eq, hl, hi, setEntry_last, headerAfter, tableAfter, slow5_hdr_add_rg_data]
  by_cases h : g.run_id ∈ runIds st.header
  · simp [h]
  · simp [h]

theorem headerAfter_cons (header : List ReadGroup) (g : ReadGroup) (rest : List ReadGroup) :
    headerAfter header (g :: rest) = headerAfter (headerAfter header [g]) rest := by
  by_cases h : g.run_id ∈ runIds header <;> simp [headerAfter, h]

theorem tableAfter_cons (header : List ReadGroup) (g : ReadGroup) (rest : List ReadGroup) :
    tableAfter header (g :: rest)
      = tableAfter header [g] ++ tableAfter (headerAfter header [g]) rest := by
  by_cases h : g.run_id ∈ runIds header <;> simp [headerAfter, tableAfter, h]

theorem groupLoop_eq (gs : List ReadGroup) :
    ∀ (st : MergeState) (pre : List (List Nat)) (done pad extra : List Nat),
      st.list = pre ++ [done ++ (pad ++ extra)] → st.index = pre.length →
      pad.length = gs.length →
      groupLoop st done.length gs = .ok
        { st with
          header := headerAfter st.header gs
          list := pre ++ [done ++ (tableAfter st.header gs ++ extra)] } := by
  induction gs with
  | nil =>
    intro st pre done pad extra hl hi hp
    have : pad = [] := List.length_eq_zero.mp hp
    subst this
    cases st
    simp_all [groupLoop, headerAfter, tableAfter]
  | cons g rest ih =>
    intro st pre done pad extra hl hi hp
    match pad, hp with
    | p :: pad1, hp =>
      rw [groupLoop, groupStep_eq st pre done (pad1 ++ extra) p g hl hi]
      simp only
      have := ih { st with
                   header := headerAfter st.header [g]
                   list := pre ++ [(done ++ tableAfter st.header [g]) ++ (pad1 ++ extra)] }
                 pre (done ++ tableAfter st.header [g]) pad1 extra rfl hi (by simpa using hp)
      have hlen : (done ++ tableAfter st.header [g]).length = done.length + 1 := by
        by_cases h : g.run_id ∈ runIds st.header <;> simp [tableAfter, h]
      rw [hlen] at this
      rw [this, headerAfter_cons st.header g rest, tableAfter_cons st.header g rest]
      simp

theorem fileStep_skip (slow5_open : String → Option Slow5File) (lossy : Bool) (st : MergeState)
    (path : String) (h : slow5_open path = none) :
    fileStep slow5_open lossy st path = .ok st := by
  simp [fileStep, h]

theorem fileStep_violation (slow5_open : String → Option Slow5File) (lossy : Bool)
    (st : MergeState) (path : String) (h : violatesLossless slow5_open lossy path = true) :
    fileStep slow5_open lossy st path = .error (.no_aux_meta path) := by
  unfold violatesLossless at h
  cases hf : slow5_open path with
  | none => simp [hf] at h
  | some f =>
    simp [hf] at h
    simp [fileStep, hf, h]

theorem fileStep_accept (slow5_open : String → Option Slow5File) (lossy : Bool)
    (st : MergeState) (path : String) (f : Slow5File) (hf : slow5_open path = some f)
    (hv : violatesLossless slow5_open lossy path = false) (hi : st.index = st.list.length) :
    fileStep slow5_open lossy st path = .ok
      { header := headerAfter st.header f.groups
        list := st.list ++ [tableAfter st.header f.groups]
        index := st.index + 1
        slow5_files := st.slow5_files ++ [path]
        warned := st.warned } := by
  have hcond : ¬ (lossy = false ∧ f.aux_meta = false) := by
    simp [violatesLossless, hf] at hv
    intro hc
    have := hv hc.1
    simp [hc.2] at this
  have hloop := groupLoop_eq f.groups (pushTracker st f.groups.length) st.list []
    (List.replicate f.groups.length 0) [] (by simp [pushTracker]) (by simp [pushTracker, hi])
    (by simp)
  simp only [List.length_nil] at hloop
  simp only [fileStep, hf, hcond, if_false, hloop]
  simp [pushTracker]

theorem headerAfter_append (a b : List ReadGroup) :
    ∀ h : List ReadGroup, headerAfter h (a ++ b) = headerAfter (headerAfter h a) b := by
  induction a with
  | nil => intro h; simp [headerAfter]
  | cons g rest ih =>
    intro h
    by_cases hm : g.run_id ∈ runIds h <;> simp [headerAfter, hm, ih]

theorem tableAfter_length (gs : List ReadGroup) :
    ∀ h : List ReadGroup, (tableAfter h gs).length = gs.length := by
  induction gs with
  | nil => intro h; simp [tableAfter]
  | cons g rest ih =>
    intro h
    by_cases hm : g.run_id ∈ runIds h <;> simp [tableAfter, hm, ih]

theorem fileLoop_ok (slow5_open : String → Option Slow5File) (lossy : Bool)
    (files : List String) :
    ∀ st : MergeState, st.index = st.list.length →
      (∀ p ∈ files, violatesLossless slow5_open lossy p = false) →
      fileLoop slow5_open lossy st files = .ok
        { header := headerAfter st.header (scannedGroups slow5_open files)
          list := st.list ++ tablesAfter st.header (fileGroups slow5_open files)
          index := st.index + (openable slow5_open files).length
          slow5_files := st.slow5_files ++ openable slow5_open files
          warned := st.warned } := by
  induction files with
  | nil =>
    intro st _ _
    cases st
    simp [fileLoop, scannedGroups, fileGroups, openable, headerAfter, tablesAfter]
  | cons p rest ih =>
    intro st hi hv
    have hvp := hv p (List.mem_cons_self _ _)
    have hvr : ∀ q ∈ rest, violatesLossless slow5_open lossy q = false :=
      fun q hq => hv q (List.mem_cons_of_mem _ hq)
    cases hf : slow5_open p with
    | none =>
      rw [fileLoop, fileStep_skip slow5_open lossy st p hf]
      simp only
      rw [ih st hi hvr]
      simp [scannedGroups, fileGroups, openable, hf]
    | some f =>
      rw [fileLoop, fileStep_accept slow5_open lossy st p f hf hvp hi]
      simp only
      rw [ih _ (by simp [hi]) hvr]
      simp [scannedGroups, fileGroups, openable, hf, headerAfter_append, tablesAfter,
        Nat.add_assoc, Nat.add_comm 1]

theorem fileLoop_error (slow5_open : String → Option Slow5File) (lossy : Bool)
    (a : List String) (p : String) (b : List String) :
    ∀ st : MergeState, st.index = st.list.length →
      (∀ q ∈ a, violatesLossless slow5_open lossy q = false) →
      violatesLossless slow5_open lossy p = true →
      fileLoop slow5_open lossy st (a ++ p :: b) = .error (.no_aux_meta p) := by
  induction a with
  | nil =>
    intro st _ _ hp
    simp [fileLoop, fileStep_violation slow5_open lossy st p hp]
  | cons q rest ih =>
    intro st hi hv hp
    have hvq := hv q (List.mem_cons_self _ _)
    have hvr : ∀ r ∈ rest, violatesLossless slow5_open lossy r = false :=
      fun r hr => hv r (List.mem_cons_of_mem _ hr)
    cases hf : slow5_open q with
    | none =>
      rw [List.cons_append, fileLoop, fileStep_skip slow5_open lossy st q hf]
      exact ih st hi hvr hp
    | some f =>
      rw [List.cons_append, fileLoop, fileStep_accept slow5_open lossy st q f hf hvq hi]
      exact ih _ (by simp [hi]) hvr hp

theorem runIds_append (a b : List ReadGroup) : runIds (a ++ b) = runIds a ++ runIds b := by
  simp [runIds]

theorem headerAfter_firstOccurrences (gs : List ReadGroup) :
    ∀ h : List ReadGroup,
      headerAfter h gs = h ++ (firstOccurrences gs).filter (fun g => g.run_id ∉ runIds h) := by
  induction gs with
  | nil => intro h; simp [headerAfter, firstOccurrences]
  | cons g rest ih =>
    intro h
    by_cases hm : g.run_id ∈ runIds h
    · simp only [headerAfter, hm, if_true, ih, firstOccurrences]
      rw [List.filter_cons_of_neg (by simpa using hm), List.filter_filter]
      congr 1
      apply List.filter_congr
      intro x _
      by_cases hx : x.run_id ∈ runIds h
      · simp [hx]
      · have : x.run_id ≠ g.run_id := fun e => hx (e ▸ hm)
        simp [hx, this]
    · simp only [headerAfter, hm, if_false, ih, firstOccurrences]
      rw [List.filter_cons_of_pos (by simpa using hm), List.filter_filter, List.append_assoc]
      congr 1
      simp only [List.singleton_append]
      congr 1
      apply List.filter_congr
      intro x _
      simp [runIds_append, runIds, not_or]

theorem mem_runIds_headerAfter (key : String) (gs : List ReadGroup) :
    ∀ h : List ReadGroup,
      key ∈ runIds (headerAfter h gs) ↔ key ∈ runIds h ∨ key ∈ runIds gs := by
  induction gs with
  | nil => intro h; simp [headerAfter, runIds]
  | cons g rest ih =>
    intro h
    by_cases hm : g.run_id ∈ runIds h
    · simp only [headerAfter, hm, if_true, ih]
      constructor
      · rintro (h1 | h1)
        · exact Or.inl h1
        · exact Or.inr (by simp [runIds] at h1 ⊢; exact Or.inr h1)
      · rintro (h1 | h1)
        · exact Or.inl h1
        · simp only [runIds, List.map_cons, List.mem_cons] at h1
          rcases h1 with h1 | h1
          · exact Or.inl (h1 ▸ hm)
          · exact Or.inr h1
    · simp only [headerAfter, hm, if_false, ih, runIds_append]
      simp only [runIds, List.map_cons, List.map_nil, List.mem_append, List.mem_cons,
        List.mem_singleton, List.not_mem_nil, or_false]
      tauto

theorem nodup_runIds_headerAfter (gs : List ReadGroup) :
    ∀ h : List ReadGroup, (runIds h).Nodup → (runIds (headerAfter h gs)).Nodup := by
  induction gs with
  | nil => intro h hn; simpa [headerAfter] using hn
  | cons g rest ih =>
    intro h hn
    by_cases hm : g.run_id ∈ runIds h
    · simpa [headerAfter, hm] using ih h hn
    · simp only [headerAfter, hm, if_false]
      apply ih
      rw [runIds_append, List.nodup_append]
      refine ⟨hn, by simp [runIds], ?_⟩
      intro a ha hb
      simp [runIds] at hb
      exact hm (hb ▸ ha)

theorem headerAfter_extends (h gs : List ReadGroup) :
    ∃ ext, headerAfter h gs = h ++ ext :=
  ⟨_, headerAfter_firstOccurrences gs h⟩

theorem indexOf_headerAfter (key : String) (h gs : List ReadGroup) (hm : key ∈ runIds h) :
    List.indexOf key (runIds (headerAfter h gs)) = List.indexOf key (runIds h) := by
  obtain ⟨ext, he⟩ := headerAfter_extends h gs
  rw [he, runIds_append, List.indexOf_append_of_mem hm]

theorem tableAfter_eq (gs : List ReadGroup) :
    ∀ h : List ReadGroup,
      tableAfter h gs
        = gs.map (fun g => List.indexOf g.run_id (runIds (headerAfter h gs))) := by
  induction gs with
  | nil => intro h; simp [tableAfter]
  | cons g rest ih =>
    intro h
    by_cases hm : g.run_id ∈ runIds h
    · simp only [tableAfter, headerAfter, hm, if_true, List.map_cons, ih]
      rw [indexOf_headerAfter g.run_id h rest hm]
    · simp only [tableAfter, headerAfter, hm, if_false, List.map_cons, ih]
      congr 1
      have hm2 : g.run_id ∈ runIds (h ++ [g]) := by simp [runIds]
      rw [indexOf_headerAfter g.run_id (h ++ [g]) rest hm2, runIds_append,
        List.indexOf_append_of_not_mem hm]
      simp [runIds]

theorem tablesAfter_eq (gss : List (List ReadGroup)) :
    ∀ h : List ReadGroup,
      tablesAfter h gss
        = gss.map (fun gs =>
            gs.map (fun g => List.indexOf g.run_id (runIds (headerAfter h gss.flatten)))) := by
  induction gss with
  | nil => intro h; simp [tablesAfter]
  | cons gs rest ih =>
    intro h
    simp only [tablesAfter, List.map_cons, List.flatten_cons, headerAfter_append, ih]
    congr 1
    rw [tableAfter_eq]
    apply List.map_congr_left
    intro g hg
    have : g.run_id ∈ runIds (headerAfter h gs) :=
      (mem_runIds_headerAfter g.run_id gs h).mpr (Or.inr (by simp [runIds]; exact ⟨g, hg, rfl⟩))
    rw [indexOf_headerAfter g.run_id (headerAfter h gs) rest.flatten this]

/-! ## The reconciliation as a whole -/

theorem firstOccurrences_eq_headerAfter (gs : List ReadGroup) :
    headerAfter [] gs = firstOccurrences gs := by
  rw [headerAfter_firstOccurrences]
  simp [runIds]

theorem nodup_runIds_firstOccurrences (gs : List ReadGroup) :
    (runIds (firstOccurrences gs)).Nodup := by
  rw [← firstOccurrences_eq_headerAfter]
  exact nodup_runIds_headerAfter gs [] (by simp [runIds])

theorem mem_runIds_firstOccurrences (key : String) (gs : List ReadGroup) :
    key ∈ runIds (firstOccurrences gs) ↔ key ∈ runIds gs := by
  rw [← firstOccurrences_eq_headerAfter, mem_runIds_headerAfter]
  simp [runIds]

theorem flatten_fileGroups (slow5_open : String → Option Slow5File) (files : List String) :
    (fileGroups slow5_open files).flatten = scannedGroups slow5_open files := rfl

/-- When no input violates the lossless precondition the file loop runs to its
end, and this is the state it ends in. -/
theorem reconcile_ok (slow5_open : String → Option Slow5File) (lossy : Bool)
    (files : List String)
    (hpre : ∀ p ∈ files, violatesLossless slow5_open lossy p = false) :
    reconcile slow5_open lossy files = .ok
      { header := firstOccurrences (scannedGroups slow5_open files)
        list := (fileGroups slow5_open files).map (fun gs =>
          gs.map (fun g => List.indexOf g.run_id
            (runIds (firstOccurrences (scannedGroups slow5_open files)))))
        index := (openable slow5_open files).length
        slow5_files := openable slow5_open files
        warned := false } := by
  unfold reconcile
  rw [fileLoop_ok slow5_open lossy files initState rfl hpre]
  simp [initState, tablesAfter_eq, flatten_fileGroups, firstOccurrences_eq_headerAfter]

theorem exists_first_violation (slow5_open : String → Option Slow5File) (lossy : Bool)
    (files : List String) (p : String) (hp : p ∈ files)
    (hv : violatesLossless slow5_open lossy p = true) :
    ∃ a q b, files = a ++ q :: b ∧
      (∀ r ∈ a, violatesLossless slow5_open lossy r = false) ∧
      violatesLossless slow5_open lossy q = true := by
  induction files with
  | nil => cases hp
  | cons x rest ih =>
    by_cases hx : violatesLossless slow5_open lossy x = true
    · exact ⟨[], x, rest, rfl, by simp, hx⟩
    · have hp2 : p ∈ rest := by
        rcases List.mem_cons.mp hp with h | h
        · exact absurd (h ▸ hv) hx
        · exact h
      obtain ⟨a, q, b, he, ha, hq⟩ := ih hp2
      refine ⟨x :: a, q, b, by simp [he], ?_, hq⟩
      intro r hr
      rcases List.mem_cons.mp hr with h | h
      · simpa [h] using hx
      · exact ha r h

/-- When some input violates the lossless precondition the file loop stops at
the first such input. -/
theorem reconcile_error (slow5_open : String → Option Slow5File) (lossy : Bool)
    (files : List String) (p : String) (hp : p ∈ files)
    (hv : violatesLossless slow5_open lossy p = true) :
    ∃ q, q ∈ files ∧ violatesLossless slow5_open lossy q = true ∧
      reconcile slow5_open lossy files = .error (.no_aux_meta q) := by
  obtain ⟨a, q, b, he, ha, hq⟩ := exists_first_violation slow5_open lossy files p hp hv
  refine ⟨q, by simp [he], hq, ?_⟩
  unfold reconcile
  rw [he]
  exact fileLoop_error slow5_open lossy a q b initState rfl ha hq

theorem fileGroups_eq_map (slow5_open : String → Option Slow5File) (files : List String) :
    fileGroups slow5_open files
      = (openable slow5_open files).map (fun p =>
          match slow5_open p with
          | some f => f.groups
          | none => []) := by
  induction files with
  | nil => rfl
  | cons p rest ih =>
    unfold fileGroups openable at *
    cases hf : slow5_open p with
    | none => simpa [List.filterMap_cons, List.filter_cons, hf] using ih
    | some f => simpa [List.filterMap_cons, List.filter_cons, hf] using ih

theorem mem_scannedGroups (slow5_open : String → Option Slow5File) (files : List String)
    (g : ReadGroup) :
    g ∈ scannedGroups slow5_open files ↔
      ∃ gs ∈ fileGroups slow5_open files, g ∈ gs := by
  rw [← flatten_fileGroups]
  simp [List.mem_flatten]

/-! ## The stages of `merge_main` only append events -/

theorem outputWrites_append (a b : List Event) :
    outputWrites (a ++ b) = outputWrites a ++ outputWrites b := by
  simp [outputWrites, List.filter_append]

theorem outputWrites_write_record (reads : List Slow5Rec) :
    outputWrites (reads.map Event.write_record) = reads.map Event.write_record := by
  induction reads with
  | nil => rfl
  | cons r rest ih =>
    simp only [outputWrites, List.map_cons, List.filter_cons] at ih ⊢
    simp [ih]

theorem outputWrites_slow5_open (paths : List String) :
    outputWrites (paths.map Event.slow5_open) = [] := by
  induction paths with
  | nil => rfl
  | cons p rest ih =>
    simp only [outputWrites, List.map_cons, List.filter_cons] at ih ⊢
    simp [ih]

theorem outputWrites_write_tmp (tmp : List (String × List Slow5Rec)) :
    outputWrites (tmp.map (fun t => Event.write_tmp t.1 t.2)) = [] := by
  induction tmp with
  | nil => rfl
  | cons p rest ih =>
    simp only [outputWrites, List.map_cons, List.filter_cons] at ih ⊢
    simp [ih]

theorem outputWrites_records_remove (reads : List Slow5Rec) (p : String) (ok : Bool) :
    outputWrites (reads.map Event.write_record ++ [Event.remove p ok])
      = reads.map Event.write_record := by
  rw [outputWrites_append, outputWrites_write_record]
  simp [outputWrites]

theorem StageAppends.next_self (events : List Event) : StageAppends events (.next events) :=
  ⟨[], [], by simp [stageEvents], rfl, by intro run h; cases h⟩

theorem StageAppends.halt_of (events more : List Event) (reads : List Slow5Rec)
    (r : Termination) (hr : r ≠ .returned .EXIT_SUCCESS)
    (hw : outputWrites more = reads.map Event.write_record) :
    StageAppends events (.halt ⟨r, events ++ more⟩) :=
  ⟨more, reads, rfl, hw, by intro run h; cases h; exact hr⟩

theorem StageAppends.after (events more : List Event) (reads : List Slow5Rec) (s : Stage)
    (hw : outputWrites more = reads.map Event.write_record)
    (h : StageAppends (events ++ more) s) : StageAppends events s := by
  obtain ⟨more2, reads2, he, hw2, hh⟩ := h
  refine ⟨more ++ more2, reads ++ reads2, by simp [he], ?_, hh⟩
  rw [outputWrites_append, hw, hw2, List.map_append]

theorem outputWrites_copyOf (tmp : List (String × List Slow5Rec)) (p : String) :
    outputWrites (copyOf tmp p) = copyOf tmp p := by
  unfold copyOf
  cases tmp.find? (fun t => t.1 = p) with
  | none => simp [outputWrites]
  | some t => exact outputWrites_write_record t.2

theorem concatLoop_halt (env : Env) (tmp : List (String × List Slow5Rec))
    (paths : List String) :
    ∀ events run, concatLoop env tmp paths events = .halt run →
      run.result ≠ .returned .EXIT_SUCCESS := by
  induction paths with
  | nil => intro events run h; simp [concatLoop] at h
  | cons p rest ih =>
    intro events run h
    unfold concatLoop at h
    by_cases hr : env.fopen_tmp_read_ok p = false
    · simp only [hr, if_true] at h
      exact ih events run h
    · simp only [hr, if_false] at h
      by_cases hd : env.remove_ok p = false
      · simp only [hd, if_true] at h
        cases h
        simp
      · simp only [hd, if_false] at h
        exact ih _ run h

theorem shardedStage_halt (cfg : Config) (env : Env) (st : MergeState)
    (events : List Event) (run : Run) (h : shardedStage cfg env st events = .halt run) :
    run.result ≠ .returned .EXIT_SUCCESS := by
  unfold shardedStage at h
  cases hw : work_db st.slow5_files.length
      (parallel_files_model env cfg.output_dir st.slow5_files st.list) with
  | exit_failure =>
    simp only [hw, Stage.halt.injEq] at h
    subst h
    simp
  | undefined =>
    simp only [hw, Stage.halt.injEq] at h
    subst h
    simp
  | done tmp =>
    simp only [hw] at h
    exact concatLoop_halt env tmp _ _ run h

theorem batchLoop_appends (env : Env) (cfg : Config) (list : List (List Nat))
    (slow5_files : List String) (fuel : Nat) :
    ∀ (idx : Nat) (src : OpenFile) (flag_EOF : Bool) (events : List Event) (s : Stage),
      batchLoop env cfg list slow5_files fuel idx src flag_EOF events = some s →
      StageAppends events s := by
  induction fuel with
  | zero => intro idx src flag events s h; simp [batchLoop] at h
  | succ fuel ih =>
    intro idx src flag events s h
    unfold batchLoop at h
    cases hb : readBatch src.read_error cfg.read_id_batch_capacity src.stream flag with
    | none =>
      simp only [hb, Option.some.injEq] at h
      subst h
      simpa using StageAppends.halt_of events [] [] (.returned .EXIT_FAILURE) (by simp) rfl
    | some triple =>
      obtain ⟨mem_records, rest, flag1⟩ := triple
      simp only [hb] at h
      cases hw : work_db mem_records.length (fun i =>
          match mem_records[i]? with
          | some m => parallel_reads_model env list idx m
          | none => WorkResult.undefined) with
      | exit_failure =>
        simp only [hw, Option.some.injEq] at h
        subst h
        simpa using StageAppends.halt_of events [] [] (.exited .EXIT_FAILURE) (by simp) rfl
      | undefined =>
        simp only [hw, Option.some.injEq] at h
        subst h
        simpa using StageAppends.halt_of events [] [] .undefined (by simp) rfl
      | done read_record =>
        simp only [hw] at h
        have hrec := outputWrites_write_record read_record
        have hrec2 : ∀ p, outputWrites (read_record.map Event.write_record
            ++ [Event.slow5_open p]) = read_record.map Event.write_record := by
          intro p
          rw [outputWrites_append, hrec]
          simp [outputWrites]
        by_cases hflag : flag1 = true
        · simp only [hflag, if_true] at h
          by_cases hc : env.close_ok src.path = false
          · simp only [hc, if_true, Option.some.injEq] at h
            subst h
            exact StageAppends.halt_of events _ read_record _ (by simp) hrec
          · simp only [hc, Bool.true_eq_false, if_false] at h
            by_cases hlast : idx + 1 = slow5_files.length
            · simp only [hlast, if_true, Option.some.injEq] at h
              subst h
              exact StageAppends.after events _ read_record _ hrec
                (StageAppends.next_self _)
            · simp only [hlast, if_false] at h
              cases hp : slow5_files[idx + 1]? with
              | none =>
                simp only [hp, Option.some.injEq] at h
                subst h
                exact StageAppends.halt_of events _ read_record _ (by simp) hrec
              | some path =>
                simp only [hp] at h
                cases ho : openFrom env path with
                | none =>
                  simp only [ho, Option.some.injEq, List.append_assoc] at h
                  subst h
                  exact StageAppends.halt_of events _ read_record _ (by simp) (hrec2 path)
                | some src1 =>
                  simp only [ho, List.append_assoc] at h
                  exact StageAppends.after events _ read_record _ (hrec2 path)
                    (by simpa using ih _ _ _ _ _ h)
        · simp only [hflag, if_false] at h
          exact StageAppends.after events _ read_record _ hrec (ih _ _ _ _ _ h)

theorem batchedStage_appends (fuel : Nat) (cfg : Config) (env : Env) (st : MergeState)
    (events : List Event) (s : Stage) (h : batchedStage fuel cfg env st events = some s) :
    StageAppends events s := by
  unfold batchedStage at h
  cases hp : st.slow5_files[0]? with
  | none =>
    simp only [hp, Option.some.injEq] at h
    subst h
    simpa using StageAppends.halt_of events [] [] .undefined (by simp) rfl
  | some path =>
    simp only [hp] at h
    have hopen : outputWrites [Event.slow5_open path] = ([] : List Slow5Rec).map
        Event.write_record := by simp [outputWrites]
    cases ho : openFrom env path with
    | none =>
      simp only [ho, Option.some.injEq] at h
      subst h
      exact StageAppends.halt_of events _ [] _ (by simp) hopen
    | some src =>
      simp only [ho] at h
      exact StageAppends.after events _ [] _ hopen
        (batchLoop_appends env cfg st.list st.slow5_files fuel _ _ _ _ _ h)

/-! ## The stages do not look at the events before them -/

theorem concatLoop_after (env : Env) (tmp : List (String × List Slow5Rec))
    (paths : List String) (a : List Event) :
    ∀ b, concatLoop env tmp paths (a ++ b) = (concatLoop env tmp paths b).after a := by
  induction paths with
  | nil => intro b; rfl
  | cons p rest ih =>
    intro b
    unfold concatLoop
    by_cases hr : env.fopen_tmp_read_ok p = false
    · simp only [hr, if_true]
      exact ih b
    · simp only [hr, if_false]
      by_cases hd : env.remove_ok p = false
      · simp [hd, Stage.after, Run.after]
      · simp only [hd, if_false, List.append_assoc]
        exact ih _

theorem shardedStage_after (cfg : Config) (env : Env) (st : MergeState) (a b : List Event) :
    shardedStage cfg env st (a ++ b) = (shardedStage cfg env st b).after a := by
  unfold shardedStage
  cases work_db st.slow5_files.length
      (parallel_files_model env cfg.output_dir st.slow5_files st.list) with
  | exit_failure => rfl
  | undefined => rfl
  | done tmp =>
    simp only [List.append_assoc]
    exact concatLoop_after env tmp _ a _

theorem batchLoop_after (env : Env) (cfg : Config) (list : List (List Nat))
    (slow5_files : List String) (a : List Event) (fuel : Nat) :
    ∀ (idx : Nat) (src : OpenFile) (flag_EOF : Bool) (b : List Event),
      batchLoop env cfg list slow5_files fuel idx src flag_EOF (a ++ b)
        = (batchLoop env cfg list slow5_files fuel idx src flag_EOF b).map (Stage.after a) := by
  induction fuel with
  | zero => intro idx src flag b; rfl
  | succ fuel ih =>
    intro idx src flag b
    unfold batchLoop
    cases hb : readBatch src.read_error cfg.read_id_batch_capacity src.stream flag with
    | none => rfl
    | some triple =>
      obtain ⟨mem_records, rest, flag1⟩ := triple
      simp only
      cases hw : work_db mem_records.length (fun i =>
          match mem_records[i]? with
          | some m => parallel_reads_model env list idx m
          | none => WorkResult.undefined) with
      | exit_failure => rfl
      | undefined => rfl
      | done read_record =>
        simp only
        by_cases hflag : flag1 = true
        · simp only [hflag, if_true]
          by_cases hc : env.close_ok src.path = false
          · simp [hc, Stage.after, Run.after]
          · simp only [hc, Bool.true_eq_false, if_false]
            by_cases hlast : idx + 1 = slow5_files.length
            · simp [hlast, Stage.after]
            · simp only [hlast, if_false]
              cases hp : slow5_files[idx + 1]? with
              | none => simp [Stage.after, Run.after]
              | some path =>
                simp only
                cases ho : openFrom env path with
                | none => simp [Stage.after, Run.after]
                | some src1 =>
                  simp only [List.append_assoc]
                  exact ih _ _ _ _
        · simp only [hflag, if_false, List.append_assoc]
          exact ih _ _ _ _

theorem batchedStage_after (fuel : Nat) (cfg : Config) (env : Env) (st : MergeState)
    (a b : List Event) :
    batchedStage fuel cfg env st (a ++ b)
      = (batchedStage fuel cfg env st b).map (Stage.after a) := by
  unfold batchedStage
  cases hp : st.slow5_files[0]? with
  | none => rfl
  | some path =>
    simp only
    cases ho : openFrom env path with
    | none => simp [Stage.after, Run.after]
    | some src =>
      simp only [List.append_assoc]
      exact batchLoop_after env cfg st.list st.slow5_files a fuel _ _ _ _

theorem finish_after (cfg : Config) (env : Env) (a b : List Event) :
    finish cfg env (a ++ b) = (finish cfg env b).after a := by
  unfold finish
  by_cases hf : cfg.format_out = slow5_fmt.SLOW5_FORMAT_BINARY <;>
    by_cases hr : env.rmdir_ok = false <;> simp [hf, hr, Run.after]

theorem afterReconcile_after (fuel : Nat) (cfg : Config) (env : Env) (st : MergeState)
    (a b : List Event) :
    afterReconcile fuel cfg env st (a ++ b)
      = (afterReconcile fuel cfg env st b).map (Run.after a) := by
  unfold afterReconcile
  by_cases he : st.slow5_files.length = 0
  · simp [he, Run.after]
  · simp only [he, if_false]
    by_cases hh : env.hdr_fwrite_ok = false
    · simp [hh, Run.after]
    · have hh2 : env.hdr_fwrite_ok = true := by simpa using hh
      simp only [hh2, Bool.true_eq_false, if_false, List.append_assoc]
      by_cases hp : cfg.parallel_files = true
      · simp only [hp, if_true, shardedStage_after cfg env st a]
        cases hs : shardedStage cfg env st (b ++ [Event.write_header st.header true]) with
        | halt run => rfl
        | next events2 => simp [Stage.after, finish_after]
      · simp only [hp, if_false, batchedStage_after fuel cfg env st a]
        cases hs : batchedStage fuel cfg env st (b ++ [Event.write_header st.header true]) with
        | none => rfl
        | some s =>
          cases s with
          | halt run => rfl
          | next events2 => simp [Stage.after, finish_after]

/-! ## `merge_main` stage by stage -/

theorem acquireTemp_cases (cfg : Config) (env : Env) (events0 : List Event)
    (h : acquireTemp cfg env = some events0) :
    (env.stat_exists = false ∧ events0 = [Event.mkdir cfg.output_dir]) ∨
    (env.stat_exists = true ∧ env.list_directory.length ≤ 2 ∧ events0 = []) := by
  unfold acquireTemp at h
  by_cases hs : env.stat_exists = false
  · simp only [hs, if_true, Option.some.injEq] at h
    exact Or.inl ⟨hs, h.symm⟩
  · have hs2 : env.stat_exists = true := by simpa using hs
    simp only [hs2, Bool.true_eq_false, if_false] at h
    by_cases hl : env.list_directory.length > 2
    · simp [hl] at h
    · simp only [hl, if_false, Option.some.injEq] at h
      exact Or.inr ⟨hs2, by omega, h.symm⟩

theorem outputWrites_prelude (cfg : Config) (env : Env) (events0 : List Event)
    (paths : List String) (h : acquireTemp cfg env = some events0) :
    outputWrites (events0 ++ [Event.list_all_items] ++ (openOutput cfg env).2
      ++ paths.map Event.slow5_open) = [] := by
  rw [outputWrites_append, outputWrites_append, outputWrites_append, outputWrites_slow5_open]
  have h1 : outputWrites events0 = [] := by
    rcases acquireTemp_cases cfg env events0 h with ⟨_, he⟩ | ⟨_, _, he⟩ <;>
      simp [he, outputWrites]
  have h2 : outputWrites (openOutput cfg env).2 = [] := by
    unfold openOutput
    cases cfg.arg_fname_out <;> simp [outputWrites]
  rw [h1, h2]
  simp [outputWrites]

theorem finish_events (cfg : Config) (env : Env) (events : List Event) :
    (finish cfg env events).events = events ++
      ((if cfg.format_out = slow5_fmt.SLOW5_FORMAT_BINARY then [Event.write_eof] else []) ++
        [Event.close_output, Event.delete_directory cfg.output_dir env.rmdir_ok]) := by
  unfold finish
  by_cases hf : cfg.format_out = slow5_fmt.SLOW5_FORMAT_BINARY <;>
    by_cases hr : env.rmdir_ok = false <;> simp [hf, hr]

theorem afterReconcile_events (fuel : Nat) (cfg : Config) (env : Env) (st : MergeState)
    (events : List Event) (run : Run)
    (h : afterReconcile fuel cfg env st events = some run) :
    ∃ more, run.events = events ++ more := by
  have hafter := afterReconcile_after fuel cfg env st events []
  rw [List.append_nil, h] at hafter
  cases h0 : afterReconcile fuel cfg env st [] with
  | none => simp [h0] at hafter
  | some run0 =>
    simp only [h0, Option.map_some', Option.some.injEq] at hafter
    exact ⟨run0.events, by rw [hafter]; rfl⟩

theorem merge_main_events (fuel : Nat) (cfg : Config) (env : Env) (events0 : List Event)
    (run : Run) (h0 : acquireTemp cfg env = some events0)
    (h : merge_main fuel cfg env = some run) :
    ∃ rest, run.events = events0 ++ Event.list_all_items :: rest := by
  unfold merge_main mergeFiles at h
  simp only [h0] at h
  cases ho : openOutput cfg env with
  | mk ok events =>
    simp only [ho] at h
    cases ok with
    | false =>
      simp only [Option.some.injEq] at h
      subst h
      exact ⟨events, by simp⟩
    | true =>
      simp only at h
      cases hr : reconcile env.slow5_open cfg.lossy env.list_all_items_args with
      | error e =>
        simp only [hr] at h
        cases e with
        | no_aux_meta p =>
          simp only [Option.some.injEq] at h
          subst h
          simp only [List.append_assoc, List.singleton_append]
          exact ⟨_, rfl⟩
        | out_of_range =>
          simp only [Option.some.injEq] at h
          subst h
          simp only [List.append_assoc, List.singleton_append]
          exact ⟨_, rfl⟩
      | ok st =>
        simp only [hr] at h
        obtain ⟨more, hev⟩ := afterReconcile_events fuel cfg env st _ run h
        rw [hev]
        simp only [List.append_assoc, List.singleton_append]
        exact ⟨_, rfl⟩

/-! ## The claims -/

theorem lookup_reconciled (slow5_open : String → Option Slow5File) (files : List String)
    (keys : List String) (i j : Nat) (g : ReadGroup)
    (hg : localGroup slow5_open (openable slow5_open files) i j = some g) :
    lookup ((fileGroups slow5_open files).map (fun gs =>
        gs.map (fun g => List.indexOf g.run_id keys))) i j
      = some (List.indexOf g.run_id keys) ∧ g ∈ scannedGroups slow5_open files := by
  unfold localGroup at hg
  cases hp : (openable slow5_open files)[i]? with
  | none => simp [hp] at hg
  | some p =>
    cases hf : slow5_open p with
    | none => simp [hp, hf] at hg
    | some f =>
      simp only [hp, hf] at hg
      have hrow : (fileGroups slow5_open files)[i]? = some f.groups := by
        rw [fileGroups_eq_map, List.getElem?_map, hp]
        simp [hf]
      constructor
      · simp [lookup, List.getElem?_map, hrow, hg]
      · rw [mem_scannedGroups]
        exact ⟨f.groups, List.getElem?_mem hrow, List.getElem?_mem hg⟩

theorem mem_runIds_of_mem {g : ReadGroup} {gs : List ReadGroup} (h : g ∈ gs) :
    g.run_id ∈ runIds gs :=
  List.mem_map.mpr ⟨g, h, rfl⟩

/-- C1: when the reconciliation loop of `merge_main` runs to its end (no
input violates the lossless precondition), the number of read groups of the
merged header equals the number of distinct `run_id` values among the local
read groups of the openable input files. -/
theorem merged_group_count_eq_distinct_run_ids (slow5_open : String → Option Slow5File)
    (lossy : Bool) (files : List String)
    (hpre : ∀ p ∈ files, violatesLossless slow5_open lossy p = false) :
    ∃ st, reconcile slow5_open lossy files = .ok st ∧
      st.header.length = (runIds (scannedGroups slow5_open files)).dedup.length := by
  refine ⟨_, reconcile_ok slow5_open lossy files hpre, ?_⟩
  simp only
  rw [← List.card_toFinset]
  have hset : (runIds (scannedGroups slow5_open files)).toFinset
      = (runIds (firstOccurrences (scannedGroups slow5_open files))).toFinset := by
    ext key
    simp [mem_runIds_firstOccurrences]
  rw [hset, List.toFinset_card_of_nodup (nodup_runIds_firstOccurrences _)]
  simp [runIds]

/-- C2: the translation tables send two local groups to the same global index
exactly when their `run_id`s are equal; and merging a file with the group `X`
and a file with the groups `X`, `Y` (of different `run_id`) gives the two
global groups `X`, `Y` and the tables `[0]` and `[0, 1]`. -/
theorem tables_agree_iff_same_run_id :
    (∀ (slow5_open : String → Option Slow5File) (lossy : Bool) (files : List String),
      (∀ p ∈ files, violatesLossless slow5_open lossy p = false) →
      ∃ st, reconcile slow5_open lossy files = .ok st ∧
        ∀ (i j i2 j2 : Nat) (g g2 : ReadGroup),
          localGroup slow5_open st.slow5_files i j = some g →
          localGroup slow5_open st.slow5_files i2 j2 = some g2 →
          ∃ v v2, lookup st.list i j = some v ∧ lookup st.list i2 j2 = some v2 ∧
            (v = v2 ↔ g.run_id = g2.run_id)) ∧
    (∀ (slow5_open : String → Option Slow5File) (lossy : Bool) (a b : String)
      (fa fb : Slow5File) (X Y : ReadGroup),
      slow5_open a = some fa → slow5_open b = some fb →
      fa.groups = [X] → fb.groups = [X, Y] → X.run_id ≠ Y.run_id →
      (lossy = true ∨ (fa.aux_meta = true ∧ fb.aux_meta = true)) →
      reconcile slow5_open lossy [a, b] = .ok
        { header := [X, Y], list := [[0], [0, 1]], index := 2, slow5_files := [a, b],
          warned := false }) := by
  constructor
  · intro slow5_open lossy files hpre
    refine ⟨_, reconcile_ok slow5_open lossy files hpre, ?_⟩
    intro i j i2 j2 g g2 hg hg2
    simp only at hg hg2 ⊢
    obtain ⟨h1, hm1⟩ := lookup_reconciled slow5_open files
      (runIds (firstOccurrences (scannedGroups slow5_open files))) i j g hg
    obtain ⟨h2, hm2⟩ := lookup_reconciled slow5_open files
      (runIds (firstOccurrences (scannedGroups slow5_open files))) i2 j2 g2 hg2
    refine ⟨_, _, h1, h2, ?_⟩
    exact List.indexOf_inj
      ((mem_runIds_firstOccurrences _ _).mpr (mem_runIds_of_mem hm1))
      ((mem_runIds_firstOccurrences _ _).mpr (mem_runIds_of_mem hm2))
  · intro slow5_open lossy a b fa fb X Y ha hb hga hgb hne haux
    have hpre : ∀ p ∈ [a, b], violatesLossless slow5_open lossy p = false := by
      intro p hp
      simp only [List.mem_cons, List.mem_singleton, List.not_mem_nil, or_false] at hp
      rcases hp with rfl | rfl
      · rcases haux with h | h <;> simp [violatesLossless, ha, h]
      · rcases haux with h | h <;> simp [violatesLossless, hb, h]
    rw [reconcile_ok slow5_open lossy [a, b] hpre]
    have hne2 : ¬ Y.run_id = X.run_id := fun e => hne e.symm
    simp [scannedGroups, fileGroups, openable, ha, hb, hga, hgb, firstOccurrences, runIds,
      List.indexOf_cons_ne, hne, hne2]

theorem merged_group_count_eq_distinct_run_ids_witness :
    (∀ p ∈ ["A", "missing", "B"], violatesLossless demoOpen false p = false) ∧
    ∃ st, reconcile demoOpen false ["A", "missing", "B"] = .ok st ∧
      st.header.length = (runIds (scannedGroups demoOpen ["A", "missing", "B"])).dedup.length :=
  ⟨by decide, merged_group_count_eq_distinct_run_ids demoOpen false ["A", "missing", "B"]
    (by decide)⟩

theorem tables_agree_iff_same_run_id_witness :
    (∃ st, reconcile demoOpen false ["A", "missing", "B"] = .ok st ∧
      ∀ (i j i2 j2 : Nat) (g g2 : ReadGroup),
        localGroup demoOpen st.slow5_files i j = some g →
        localGroup demoOpen st.slow5_files i2 j2 = some g2 →
        ∃ v v2, lookup st.list i j = some v ∧ lookup st.list i2 j2 = some v2 ∧
          (v = v2 ↔ g.run_id = g2.run_id)) ∧
    reconcile demoOpen false ["A", "B"] = .ok
      { header := [demoX, demoY], list := [[0], [0, 1]], index := 2, slow5_files := ["A", "B"],
        warned := false } :=
  ⟨tables_agree_iff_same_run_id.1 demoOpen false ["A", "missing", "B"] (by decide),
   tables_agree_iff_same_run_id.2 demoOpen false "A" "B" _ _ demoX demoY rfl rfl rfl rfl
     (by decide) (Or.inr ⟨rfl, rfl⟩)⟩

theorem lt_length_firstOccurrences_iff (S : List ReadGroup) (v : Nat) :
    v < (firstOccurrences S).length ↔
      ∃ g ∈ S, List.indexOf g.run_id (runIds (firstOccurrences S)) = v := by
  constructor
  · intro hv
    have hv2 : v < (runIds (firstOccurrences S)).length := by simpa [runIds] using hv
    have hmem : (runIds (firstOccurrences S))[v] ∈ runIds S :=
      (mem_runIds_firstOccurrences _ S).mp (List.getElem_mem hv2)
    obtain ⟨g, hg, hkey⟩ := List.mem_map.mp hmem
    refine ⟨g, hg, ?_⟩
    rw [hkey]
    exact List.indexOf_getElem (nodup_runIds_firstOccurrences S) v hv2
  · rintro ⟨g, hg, rfl⟩
    have : g.run_id ∈ runIds (firstOccurrences S) :=
      (mem_runIds_firstOccurrences _ S).mpr (mem_runIds_of_mem hg)
    simpa [runIds] using List.indexOf_lt_length.mpr this

theorem lookup_setEntry (list l2 : List (List Nat)) (index j v : Nat)
    (h : setEntry list index j v = some l2) : lookup l2 index j = some v := by
  unfold setEntry at h
  cases hrow : list[index]? with
  | none => simp [hrow] at h
  | some row =>
    simp only [hrow] at h
    by_cases hj : j < row.length
    · simp only [hj, if_true, Option.some.injEq] at h
      have hi : index < list.length := by
        rcases List.getElem?_eq_some.mp hrow with ⟨hi, _⟩
        exact hi
      subst h
      simp [lookup, List.getElem?_set, hi, hj]
    · simp [hj] at h

theorem groupStep_effect (st st2 : MergeState) (j : Nat) (g : ReadGroup)
    (h : groupStep st j g = .ok st2) :
    (g.run_id ∈ runIds st.header → st2.header = st.header) ∧
    (g.run_id ∉ runIds st.header →
      st2.header = st.header ++ [g] ∧ lookup st2.list st.index j = some st.header.length) ∧
    st2.warned = st.warned ∧ st2.index = st.index ∧ st2.slow5_files = st.slow5_files := by
  unfold groupStep at h
  rw [scanHeader_eq] at h
  by_cases hm : g.run_id ∈ runIds st.header
  · simp only [hm, if_true, Nat.zero_add] at h
    cases hs : setEntry st.list st.index j (List.indexOf g.run_id (runIds st.header)) with
    | none => simp [hs] at h
    | some l =>
      simp only [hs, Except.ok.injEq] at h
      subst h
      simp [hm]
  · simp only [hm, if_false, slow5_hdr_add_rg_data] at h
    cases hs : setEntry st.list st.index j st.header.length with
    | none => simp [hs] at h
    | some l =>
      simp only [hs, Except.ok.injEq] at h
      subst h
      simp [hm, lookup_setEntry st.list l st.index j st.header.length hs]

/-- C3: the invariant of the reconciliation loop.  (1) One iteration of the
`j` loop leaves the groups already in the merged header as they are; a group
with a new `run_id` is appended and its table entry is the group count just
before the append; the sanity-check warning is not raised.  (2) After any
number `m` of iterations of the `j` loop inside any accepted file, the merged
header is the list of first occurrences of the `run_id`s scanned so far, no
warning has been raised, and the values assigned in the tables so far are
exactly the numbers below the group count.  (3) The same holds after the
whole file loop, for every input list. -/
theorem reconcile_invariant :
    (∀ (st st2 : MergeState) (j : Nat) (g : ReadGroup), groupStep st j g = .ok st2 →
      (g.run_id ∈ runIds st.header → st2.header = st.header) ∧
      (g.run_id ∉ runIds st.header →
        st2.header = st.header ++ [g] ∧
        lookup st2.list st.index j = some st.header.length) ∧
      st2.warned = st.warned) ∧
    (∀ (slow5_open : String → Option Slow5File) (lossy : Bool) (done : List String)
      (path : String) (f : Slow5File) (m : Nat),
      (∀ p ∈ done, violatesLossless slow5_open lossy p = false) →
      slow5_open path = some f → m ≤ f.groups.length →
      ∃ st0 st cur, reconcile slow5_open lossy done = .ok st0 ∧
        groupLoop (pushTracker st0 f.groups.length) 0 (f.groups.take m) = .ok st ∧
        st.header = firstOccurrences (scannedGroups slow5_open done ++ f.groups.take m) ∧
        (∃ ext, st.header = st0.header ++ ext) ∧
        st.warned = false ∧
        st.list = st0.list ++ [cur ++ List.replicate (f.groups.length - m) 0] ∧
        cur.length = m ∧
        ∀ v, v < st.header.length ↔ ∃ t ∈ st0.list ++ [cur], v ∈ t) ∧
    (∀ (slow5_open : String → Option Slow5File) (lossy : Bool) (files : List String),
      (∀ p ∈ files, violatesLossless slow5_open lossy p = false) →
      ∃ st, reconcile slow5_open lossy files = .ok st ∧
        st.header = firstOccurrences (scannedGroups slow5_open files) ∧
        st.warned = false ∧
        ∀ v, v < st.header.length ↔ ∃ t ∈ st.list, v ∈ t) := by
  refine ⟨?_, ?_, ?_⟩
  · intro st st2 j g h
    obtain ⟨h1, h2, h3, _, _⟩ := groupStep_effect st st2 j g h
    exact ⟨h1, h2, h3⟩
  · intro slow5_open lossy done path f m hpre _ hm
    have h0 := reconcile_ok slow5_open lossy done hpre
    have hsplit : List.replicate f.groups.length 0
        = List.replicate m 0 ++ List.replicate (f.groups.length - m) 0 := by
      rw [← List.replicate_add]
      congr 1
      omega
    have hloop := groupLoop_eq (f.groups.take m)
      (pushTracker
        { header := firstOccurrences (scannedGroups slow5_open done)
          list := (fileGroups slow5_open done).map (fun gs =>
            gs.map (fun g => List.indexOf g.run_id
              (runIds (firstOccurrences (scannedGroups slow5_open done)))))
          index := (openable slow5_open done).length
          slow5_files := openable slow5_open done
          warned := false } f.groups.length)
      ((fileGroups slow5_open done).map (fun gs =>
        gs.map (fun g => List.indexOf g.run_id
          (runIds (firstOccurrences (scannedGroups slow5_open done))))))
      [] (List.replicate m 0) (List.replicate (f.groups.length - m) 0)
      (by simp [pushTracker, hsplit])
      (by simp [pushTracker, fileGroups_eq_map])
      (by simp [List.length_take, hm])
    simp only [List.length_nil, List.nil_append] at hloop
    have hH : headerAfter (firstOccurrences (scannedGroups slow5_open done)) (f.groups.take m)
        = firstOccurrences (scannedGroups slow5_open done ++ f.groups.take m) := by
      rw [← firstOccurrences_eq_headerAfter, ← headerAfter_append,
        firstOccurrences_eq_headerAfter]
    refine ⟨_, _, tableAfter (firstOccurrences (scannedGroups slow5_open done))
      (f.groups.take m), h0, hloop, ?_, ?_, ?_, ?_, ?_, ?_⟩
    · simpa [pushTracker] using hH
    · simpa [pushTracker] using headerAfter_extends _ _
    · simp [pushTracker]
    · simp [pushTracker]
    · simp [tableAfter_length, List.length_take, hm]
    · intro v
      simp only [pushTracker]
      rw [hH, lt_length_firstOccurrences_iff, tableAfter_eq, hH]
      constructor
      · rintro ⟨g, hg, rfl⟩
        rcases List.mem_append.mp hg with hg1 | hg1
        · obtain ⟨gs, hgs, hggs⟩ := (mem_scannedGroups slow5_open done g).mp hg1
          refine ⟨gs.map (fun g => List.indexOf g.run_id
            (runIds (firstOccurrences (scannedGroups slow5_open done)))), ?_, ?_⟩
          · exact List.mem_append_left _ (List.mem_map.mpr ⟨gs, hgs, rfl⟩)
          · refine List.mem_map.mpr ⟨g, hggs, ?_⟩
            rw [← hH]
            exact (indexOf_headerAfter g.run_id _ _
              ((mem_runIds_firstOccurrences _ _).mpr (mem_runIds_of_mem hg1))).symm
        · exact ⟨_, List.mem_append_right _ (List.mem_singleton.mpr rfl),
            List.mem_map.mpr ⟨g, hg1, rfl⟩⟩
      · rintro ⟨t, ht, hv⟩
        rcases List.mem_append.mp ht with ht1 | ht1
        · obtain ⟨gs, hgs, rfl⟩ := List.mem_map.mp ht1
          obtain ⟨g, hg, rfl⟩ := List.mem_map.mp hv
          have hg1 : g ∈ scannedGroups slow5_open done :=
            (mem_scannedGroups slow5_open done g).mpr ⟨gs, hgs, hg⟩
          refine ⟨g, List.mem_append_left _ hg1, ?_⟩
          rw [← hH]
          exact indexOf_headerAfter g.run_id _ _
            ((mem_runIds_firstOccurrences _ _).mpr (mem_runIds_of_mem hg1))
        · rw [List.mem_singleton.mp ht1] at hv
          obtain ⟨g, hg, rfl⟩ := List.mem_map.mp hv
          exact ⟨g, List.mem_append_right _ hg, rfl⟩
  · intro slow5_open lossy files hpre
    refine ⟨_, reconcile_ok slow5_open lossy files hpre, rfl, rfl, ?_⟩
    intro v
    simp only
    rw [lt_length_firstOccurrences_iff]
    constructor
    · rintro ⟨g, hg, rfl⟩
      obtain ⟨gs, hgs, hggs⟩ := (mem_scannedGroups slow5_open files g).mp hg
      exact ⟨_, List.mem_map.mpr ⟨gs, hgs, rfl⟩, List.mem_map.mpr ⟨g, hggs, rfl⟩⟩
    · rintro ⟨t, ht, hv⟩
      obtain ⟨gs, hgs, rfl⟩ := List.mem_map.mp ht
      obtain ⟨g, hg, rfl⟩ := List.mem_map.mp hv
      exact ⟨g, (mem_scannedGroups slow5_open files g).mpr ⟨gs, hgs, hg⟩, rfl⟩

theorem reconcile_invariant_witness :
    (groupStep demoMid 1 demoY = .ok demoMid2 ∧
      ((demoY.run_id ∈ runIds demoMid.header → demoMid2.header = demoMid.header) ∧
       (demoY.run_id ∉ runIds demoMid.header →
          demoMid2.header = demoMid.header ++ [demoY] ∧
          lookup demoMid2.list demoMid.index 1 = some demoMid.header.length) ∧
       demoMid2.warned = demoMid.warned)) ∧
    (∃ st0 st cur, reconcile demoOpen false ["A"] = .ok st0 ∧
        groupLoop (pushTracker st0 demoFileB.groups.length) 0 (demoFileB.groups.take 1) = .ok st ∧
        st.header = firstOccurrences (scannedGroups demoOpen ["A"] ++ demoFileB.groups.take 1) ∧
        (∃ ext, st.header = st0.header ++ ext) ∧
        st.warned = false ∧
        st.list = st0.list ++ [cur ++ List.replicate (demoFileB.groups.length - 1) 0] ∧
        cur.length = 1 ∧
        ∀ v, v < st.header.length ↔ ∃ t ∈ st0.list ++ [cur], v ∈ t) ∧
    (∃ st, reconcile demoOpen false ["A", "missing", "B"] = .ok st ∧
        st.header = firstOccurrences (scannedGroups demoOpen ["A", "missing", "B"]) ∧
        st.warned = false ∧
        ∀ v, v < st.header.length ↔ ∃ t ∈ st.list, v ∈ t) :=
  ⟨⟨rfl, reconcile_invariant.1 demoMid demoMid2 1 demoY rfl⟩,
   reconcile_invariant.2.1 demoOpen false ["A"] "B" demoFileB 1 (by decide) rfl (by decide),
   reconcile_invariant.2.2 demoOpen false ["A", "missing", "B"] (by decide)⟩

theorem lookup_in_range (slow5_open : String → Option Slow5File) (files : List String)
    (i rg : Nat) (path : String) (f : Slow5File)
    (hp : (openable slow5_open files)[i]? = some path) (hf : slow5_open path = some f)
    (hrg : rg < f.groups.length) :
    ∃ v, lookup ((fileGroups slow5_open files).map (fun gs =>
        gs.map (fun g => List.indexOf g.run_id
          (runIds (firstOccurrences (scannedGroups slow5_open files)))))) i rg = some v ∧
      v < (firstOccurrences (scannedGroups slow5_open files)).length := by
  have hg : localGroup slow5_open (openable slow5_open files) i rg = some f.groups[rg] := by
    simp [localGroup, hp, hf, hrg]
  obtain ⟨h1, h2⟩ := lookup_reconciled slow5_open files
    (runIds (firstOccurrences (scannedGroups slow5_open files))) i rg _ hg
  refine ⟨_, h1, ?_⟩
  have := List.indexOf_lt_length.mpr
    ((mem_runIds_firstOccurrences _ _).mpr (mem_runIds_of_mem h2))
  simpa [runIds] using this

theorem rewriteRecords_in_range (env : Env) (list : List (List Nat)) (i n bound : Nat)
    (hl : ∀ rg, rg < n → ∃ v, lookup list i rg = some v ∧ v < bound)
    (reads : List Slow5Rec) (hr : ∀ r ∈ reads, r.read_group < n) :
    rewriteRecords env list i reads = .exit_failure ∨
      ∃ outs, rewriteRecords env list i reads = .done outs ∧ outs.length = reads.length ∧
        ∀ o ∈ outs, o.read_group < bound := by
  induction reads with
  | nil => exact Or.inr ⟨[], rfl, rfl, by simp⟩
  | cons r rest ih =>
    obtain ⟨v, hv, hb⟩ := hl r.read_group (hr r (List.mem_cons_self _ _))
    have ih2 := ih (fun x hx => hr x (List.mem_cons_of_mem _ hx))
    simp only [rewriteRecords, hv]
    by_cases he : env.encode_ok { r with read_group := v } = false
    · simp [he]
    · simp only [he, if_false]
      rcases ih2 with h | ⟨outs, h, hlen, hall⟩
      · simp [h]
      · refine Or.inr ⟨{ r with read_group := v } :: outs, by simp [h], by simp [hlen], ?_⟩
        intro o ho
        rcases List.mem_cons.mp ho with rfl | ho
        · exact hb
        · exact hall o ho

/-- C4: after a completed reconciliation, for every accepted file `i` the
lookup `list[i][rg]` is inside the vectors for every `rg` below the file's
group count and yields a group index of the merged header; hence the read
group written by `parallel_reads_model` for such a record, and the read groups
written by `parallel_files_model` for a file all of whose records are such,
are below the merged group count, and neither work item reads outside the
tables. -/
theorem translated_read_group_in_range (slow5_open : String → Option Slow5File)
    (lossy : Bool) (files : List String)
    (hpre : ∀ p ∈ files, violatesLossless slow5_open lossy p = false) :
    ∃ st, reconcile slow5_open lossy files = .ok st ∧
      ∀ (i : Nat) (path : String) (f : Slow5File),
        st.slow5_files[i]? = some path → slow5_open path = some f →
        (∀ rg, rg < f.groups.length →
          ∃ v, lookup st.list i rg = some v ∧ v < st.header.length) ∧
        (∀ (env : Env) (read : Slow5Rec), read.read_group < f.groups.length →
          parallel_reads_model env st.list i read = .exit_failure ∨
          ∃ v, v < st.header.length ∧ lookup st.list i read.read_group = some v ∧
            parallel_reads_model env st.list i read = .done { read with read_group := v }) ∧
        (∀ (env : Env) (output_dir : String), env.slow5_open = slow5_open →
          (∀ r ∈ f.records, r.read_group < f.groups.length) →
          parallel_files_model env output_dir st.slow5_files st.list i = .exit_failure ∨
          ∃ outs, parallel_files_model env output_dir st.slow5_files st.list i
              = .done (tempPath output_dir i, outs) ∧
            outs.length = f.records.length ∧ ∀ o ∈ outs, o.read_group < st.header.length) := by
  refine ⟨_, reconcile_ok slow5_open lossy files hpre, ?_⟩
  intro i path f hp hf
  simp only at hp ⊢
  have hA := fun rg hrg => lookup_in_range slow5_open files i rg path f hp hf hrg
  refine ⟨hA, ?_, ?_⟩
  · intro env read hrg
    obtain ⟨v, hv, hb⟩ := hA read.read_group hrg
    unfold parallel_reads_model
    by_cases hparse : env.parse_ok read = false
    · simp [hparse]
    · simp only [hparse, if_false, hv]
      by_cases he : env.encode_ok { read with read_group := v } = false
      · simp [he]
      · exact Or.inr ⟨v, hb, rfl, by simp [he]⟩
  · intro env output_dir henv hall
    unfold parallel_files_model
    by_cases ho : env.fopen_tmp_append_ok (tempPath output_dir i) = false
    · simp [ho]
    · simp only [ho, if_false, hp]
      by_cases hre : env.reopen_ok path = true
      · simp only [hre, if_true, henv, hf]
        rcases rewriteRecords_in_range env _ i f.groups.length _ hA f.records hall with
          h | ⟨outs, h, hlen, hb⟩
        · simp [h]
        · exact Or.inr ⟨outs, by simp [h], hlen, hb⟩
      · simp [hre]

theorem translated_read_group_in_range_witness :
    (∀ p ∈ ["A", "missing", "B"], violatesLossless demoOpen false p = false) ∧
    ∃ st, reconcile demoOpen false ["A", "missing", "B"] = .ok st ∧
      ∀ (i : Nat) (path : String) (f : Slow5File),
        st.slow5_files[i]? = some path → demoOpen path = some f →
        (∀ rg, rg < f.groups.length →
          ∃ v, lookup st.list i rg = some v ∧ v < st.header.length) ∧
        (∀ (env : Env) (read : Slow5Rec), read.read_group < f.groups.length →
          parallel_reads_model env st.list i read = .exit_failure ∨
          ∃ v, v < st.header.length ∧ lookup st.list i read.read_group = some v ∧
            parallel_reads_model env st.list i read = .done { read with read_group := v }) ∧
        (∀ (env : Env) (output_dir : String), env.slow5_open = demoOpen →
          (∀ r ∈ f.records, r.read_group < f.groups.length) →
          parallel_files_model env output_dir st.slow5_files st.list i = .exit_failure ∨
          ∃ outs, parallel_files_model env output_dir st.slow5_files st.list i
              = .done (tempPath output_dir i, outs) ∧
            outs.length = f.records.length ∧ ∀ o ∈ outs, o.read_group < st.header.length) :=
  ⟨by decide, translated_read_group_in_range demoOpen false ["A", "missing", "B"] (by decide)⟩

/-- C5: after a completed reconciliation `list` and `slow5_files` have the
same length (which is also the value of `index`), and for every position `i`
the path `slow5_files[i]` opens, `list[i]` has one entry per local read group
of that file, and entry `j` is the index of a merged group with the `run_id`
of the file's group `j` - whatever unopenable paths were skipped in
between. -/
theorem tables_aligned_with_accepted_files (slow5_open : String → Option Slow5File)
    (lossy : Bool) (files : List String)
    (hpre : ∀ p ∈ files, violatesLossless slow5_open lossy p = false) :
    ∃ st, reconcile slow5_open lossy files = .ok st ∧
      st.list.length = st.slow5_files.length ∧ st.index = st.slow5_files.length ∧
      st.slow5_files = openable slow5_open files ∧
      ∀ (i : Nat) (path : String), st.slow5_files[i]? = some path →
        ∃ f t, slow5_open path = some f ∧ st.list[i]? = some t ∧
          t.length = f.groups.length ∧
          ∀ (j : Nat) (g : ReadGroup), f.groups[j]? = some g →
            ∃ v k, t[j]? = some v ∧ st.header[v]? = some k ∧ k.run_id = g.run_id := by
  refine ⟨_, reconcile_ok slow5_open lossy files hpre, ?_, rfl, rfl, ?_⟩
  · simp [fileGroups_eq_map]
  · intro i path hp
    simp only at hp ⊢
    have hopen : (slow5_open path).isSome = true := by
      have := List.getElem?_mem hp
      simp only [openable, List.mem_filter] at this
      exact this.2
    obtain ⟨f, hf⟩ := Option.isSome_iff_exists.mp hopen
    have hrow : (fileGroups slow5_open files)[i]? = some f.groups := by
      rw [fileGroups_eq_map, List.getElem?_map, hp]
      simp [hf]
    refine ⟨f, f.groups.map (fun g => List.indexOf g.run_id
      (runIds (firstOccurrences (scannedGroups slow5_open files)))), hf,
      by simp [List.getElem?_map, hrow], by simp, ?_⟩
    intro j g hg
    have hmem : g ∈ scannedGroups slow5_open files :=
      (mem_scannedGroups slow5_open files g).mpr
        ⟨f.groups, List.getElem?_mem hrow, List.getElem?_mem hg⟩
    have hkey : g.run_id ∈ runIds (firstOccurrences (scannedGroups slow5_open files)) :=
      (mem_runIds_firstOccurrences _ _).mpr (mem_runIds_of_mem hmem)
    have hlt := List.indexOf_lt_length.mpr hkey
    have hlt2 : List.indexOf g.run_id (runIds (firstOccurrences (scannedGroups slow5_open files)))
        < (firstOccurrences (scannedGroups slow5_open files)).length := by
      simpa [runIds] using hlt
    refine ⟨List.indexOf g.run_id (runIds (firstOccurrences (scannedGroups slow5_open files))),
      (firstOccurrences (scannedGroups slow5_open files))[List.indexOf g.run_id
        (runIds (firstOccurrences (scannedGroups slow5_open files)))], ?_, ?_, ?_⟩
    · simp [List.getElem?_map, hg]
    · exact List.getElem?_eq_getElem hlt2
    · have := List.indexOf_get hlt
      simp only [runIds, List.get_eq_getElem, List.getElem_map] at this
      exact this

theorem tables_aligned_with_accepted_files_witness :
    (∀ p ∈ ["A", "missing", "B"], violatesLossless demoOpen false p = false) ∧
    ∃ st, reconcile demoOpen false ["A", "missing", "B"] = .ok st ∧
      st.list.length = st.slow5_files.length ∧ st.index = st.slow5_files.length ∧
      st.slow5_files = openable demoOpen ["A", "missing", "B"] ∧
      ∀ (i : Nat) (path : String), st.slow5_files[i]? = some path →
        ∃ f t, demoOpen path = some f ∧ st.list[i]? = some t ∧
          t.length = f.groups.length ∧
          ∀ (j : Nat) (g : ReadGroup), f.groups[j]? = some g →
            ∃ v k, t[j]? = some v ∧ st.header[v]? = some k ∧ k.run_id = g.run_id :=
  ⟨by decide, tables_aligned_with_accepted_files demoOpen false ["A", "missing", "B"] (by decide)⟩

theorem fileLoop_openable (slow5_open : String → Option Slow5File) (lossy : Bool)
    (files : List String) :
    ∀ st : MergeState, fileLoop slow5_open lossy st files
      = fileLoop slow5_open lossy st (openable slow5_open files) := by
  induction files with
  | nil => intro st; rfl
  | cons p rest ih =>
    intro st
    cases hf : slow5_open p with
    | none =>
      have : openable slow5_open (p :: rest) = openable slow5_open rest := by
        simp [openable, hf]
      rw [this, fileLoop, fileStep_skip slow5_open lossy st p hf]
      exact ih st
    | some f =>
      have : openable slow5_open (p :: rest) = p :: openable slow5_open rest := by
        simp [openable, hf]
      rw [this, fileLoop, fileLoop]
      cases fileStep slow5_open lossy st p with
      | ok st1 => exact ih st1
      | error e => rfl

theorem mergeFiles_events_split (fuel : Nat) (cfg : Config) (env : Env) (files : List String)
    (events1 : List Event) :
    ∃ (pre : List Event) (tail : Option Run),
      outputWrites pre = outputWrites events1 ++ outputWrites (openOutput cfg env).2 ∧
      mergeFiles fuel cfg env files events1 = tail.map (Run.after pre) ∧
      ((openOutput cfg env).1 = false → tail = some ⟨.returned .EXIT_FAILURE, []⟩) ∧
      ((openOutput cfg env).1 = true →
        tail = match reconcile env.slow5_open cfg.lossy files with
          | .error (.no_aux_meta _) =>
            some ⟨.returned .EXIT_FAILURE,
              [Event.delete_directory cfg.output_dir env.rmdir_ok]⟩
          | .error .out_of_range => some ⟨.undefined, []⟩
          | .ok st => afterReconcile fuel cfg env st []) := by
  unfold mergeFiles
  cases ho : openOutput cfg env with
  | mk ok events =>
    cases ok with
    | false =>
      exact ⟨events1 ++ events, _, by simp [outputWrites_append], by simp [Run.after],
        fun _ => rfl, by simp⟩
    | true =>
      refine ⟨events1 ++ events ++
        (openedInputs env.slow5_open cfg.lossy files).map Event.slow5_open, _,
        by simp [outputWrites_append, outputWrites_slow5_open], ?_, by simp, fun _ => rfl⟩
      simp only
      cases hr : reconcile env.slow5_open cfg.lossy files with
      | error e =>
        cases e with
        | no_aux_meta p => simp [Run.after]
        | out_of_range => simp [Run.after]
      | ok st =>
        simp only
        have := afterReconcile_after fuel cfg env st (events1 ++ events ++
          (openedInputs env.slow5_open cfg.lossy files).map Event.slow5_open) []
        simpa using this

theorem mergeFiles_openable (fuel : Nat) (cfg : Config) (env : Env) (files : List String)
    (events1 : List Event) :
    (mergeFiles fuel cfg env files events1).map Run.result
      = (mergeFiles fuel cfg env (openable env.slow5_open files) events1).map Run.result ∧
    (mergeFiles fuel cfg env files events1).map (fun r => outputWrites r.events)
      = (mergeFiles fuel cfg env (openable env.slow5_open files) events1).map
          (fun r => outputWrites r.events) := by
  obtain ⟨pre, tail, hw, hm, hf, ht⟩ := mergeFiles_events_split fuel cfg env files events1
  obtain ⟨pre2, tail2, hw2, hm2, hf2, ht2⟩ :=
    mergeFiles_events_split fuel cfg env (openable env.slow5_open files) events1
  have hrec : reconcile env.slow5_open cfg.lossy files
      = reconcile env.slow5_open cfg.lossy (openable env.slow5_open files) :=
    fileLoop_openable env.slow5_open cfg.lossy files initState
  have htail : tail = tail2 := by
    cases hb : (openOutput cfg env).1 with
    | false => rw [hf hb, hf2 hb]
    | true => rw [ht hb, ht2 hb, hrec]
  subst htail
  rw [hm, hm2]
  constructor
  · simp [Option.map_map, Function.comp_def, Run.after]
  · simp [Option.map_map, Function.comp_def, Run.after, outputWrites_append, hw, hw2]

/-- C6: the reconciliation of an input list gives the same result - merged
header, translation tables, accepted files, or the same lossless failure - as
the reconciliation of the list without its unopenable paths; the loop fails
only at an openable file that violates the lossless precondition, and
completes whenever there is none; and `merge_main` ends in the same way and
writes the same output for the listed files as for the openable ones among
them. -/
theorem reconcile_ignores_unopenable (slow5_open : String → Option Slow5File)
    (lossy : Bool) (files : List String) :
    reconcile slow5_open lossy files
      = reconcile slow5_open lossy (openable slow5_open files) ∧
    (∀ e, reconcile slow5_open lossy files = .error e →
      ∃ p f, p ∈ files ∧ slow5_open p = some f ∧ lossy = false ∧ f.aux_meta = false ∧
        e = .no_aux_meta p) ∧
    ((∀ p ∈ openable slow5_open files, violatesLossless slow5_open lossy p = false) →
      ∃ st, reconcile slow5_open lossy files = .ok st) ∧
    (∀ (fuel : Nat) (cfg : Config) (env : Env) (events1 : List Event),
      env.slow5_open = slow5_open → cfg.lossy = lossy →
      (mergeFiles fuel cfg env files events1).map Run.result
        = (mergeFiles fuel cfg env (openable slow5_open files) events1).map Run.result ∧
      (mergeFiles fuel cfg env files events1).map (fun r => outputWrites r.events)
        = (mergeFiles fuel cfg env (openable slow5_open files) events1).map
            (fun r => outputWrites r.events)) := by
  refine ⟨fileLoop_openable slow5_open lossy files initState, ?_, ?_, ?_⟩
  · intro e he
    by_cases hall : ∀ p ∈ files, violatesLossless slow5_open lossy p = false
    · rw [reconcile_ok slow5_open lossy files hall] at he
      cases he
    · simp only [not_forall] at hall
      obtain ⟨p, hp, hv⟩ := hall
      obtain ⟨q, hq, hvq, hr⟩ := reconcile_error slow5_open lossy files p hp (by simpa using hv)
      rw [hr] at he
      cases he
      unfold violatesLossless at hvq
      cases hf : slow5_open q with
      | none => simp [hf] at hvq
      | some f =>
        simp [hf] at hvq
        exact ⟨q, f, hq, hf, hvq.1, hvq.2, rfl⟩
  · intro hall
    have hall2 : ∀ p ∈ files, violatesLossless slow5_open lossy p = false := by
      intro p hp
      cases hf : slow5_open p with
      | none => simp [violatesLossless, hf]
      | some f => exact hall p (by simp [openable, hp, hf])
    exact ⟨_, reconcile_ok slow5_open lossy files hall2⟩
  · intro fuel cfg env events1 henv _
    subst henv
    exact mergeFiles_openable fuel cfg env files events1

theorem reconcile_ignores_unopenable_witness :
    reconcile demoOpen false ["A", "missing", "B"] = reconcile demoOpen false ["A", "B"] ∧
    (∃ p f, p ∈ ["missing", "N", "A"] ∧ demoOpen p = some f ∧ false = false ∧
      f.aux_meta = false ∧ MergeError.no_aux_meta "N" = .no_aux_meta p) ∧
    (∃ st, reconcile demoOpen false ["A", "missing", "B"] = .ok st) ∧
    ((mergeFiles 9 (demoCfg false 2 false slow5_fmt.SLOW5_FORMAT_BINARY)
        (demoEnv false [] []) ["A", "missing", "B"] []).map Run.result
      = (mergeFiles 9 (demoCfg false 2 false slow5_fmt.SLOW5_FORMAT_BINARY)
        (demoEnv false [] []) ["A", "B"] []).map Run.result ∧
     (mergeFiles 9 (demoCfg false 2 false slow5_fmt.SLOW5_FORMAT_BINARY)
        (demoEnv false [] []) ["A", "missing", "B"] []).map (fun r => outputWrites r.events)
      = (mergeFiles 9 (demoCfg false 2 false slow5_fmt.SLOW5_FORMAT_BINARY)
        (demoEnv false [] []) ["A", "B"] []).map (fun r => outputWrites r.events)) :=
  ⟨(reconcile_ignores_unopenable demoOpen false ["A", "missing", "B"]).1,
   (reconcile_ignores_unopenable demoOpen false ["missing", "N", "A"]).2.1 _ rfl,
   (reconcile_ignores_unopenable demoOpen false ["A", "missing", "B"]).2.2.1 (by decide),
   (reconcile_ignores_unopenable demoOpen false ["A", "missing", "B"]).2.2.2 9
     (demoCfg false 2 false slow5_fmt.SLOW5_FORMAT_BINARY) (demoEnv false [] []) [] rfl rfl⟩

/-- C7, as stated, fails: in lossless mode with the openable input "N" that
has no auxiliary metadata, `merge_main` returns failure, but only after the
output file "out.blow5" has been opened for writing. -/
theorem lossless_failure_after_output_opened :
    (demoCfg true 4096 false slow5_fmt.SLOW5_FORMAT_BINARY).lossy = false ∧
    (∃ f, demoOpen "N" = some f ∧ f.aux_meta = false) ∧
    merge_main 0 (demoCfg true 4096 false slow5_fmt.SLOW5_FORMAT_BINARY)
        (demoEnv false [] ["A", "N", "B"])
      = some ⟨.returned .EXIT_FAILURE,
          [Event.mkdir "tmp", Event.list_all_items, Event.fopen_output "out.blow5" true,
           Event.slow5_open "A", Event.slow5_open "N", Event.delete_directory "tmp" true]⟩ :=
  ⟨rfl, ⟨_, rfl, rfl⟩, rfl⟩

/-- C7, amended: in lossless mode, if some openable input file has no
auxiliary metadata, `merge_main` returns failure and writes no header, record
or end marker to the output; when the temp directory was acquired and `-o`
names an output file that can be opened, that file has been opened for
writing before the first input is opened. -/
theorem lossless_violation_fails_without_writes (fuel : Nat) (cfg : Config) (env : Env)
    (p : String) (f : Slow5File) (hl : cfg.lossy = false)
    (hp : p ∈ env.list_all_items_args) (hf : env.slow5_open p = some f)
    (ha : f.aux_meta = false) :
    ∃ run, merge_main fuel cfg env = some run ∧
      run.result = .returned .EXIT_FAILURE ∧ outputWrites run.events = [] ∧
      ∀ events0 path, acquireTemp cfg env = some events0 → cfg.arg_fname_out = some path →
        env.fopen_output_ok = true →
        run.events = events0 ++ [Event.list_all_items, Event.fopen_output path true] ++
          (openedInputs env.slow5_open cfg.lossy env.list_all_items_args).map Event.slow5_open
          ++ [Event.delete_directory cfg.output_dir env.rmdir_ok] := by
  have hv : violatesLossless env.slow5_open cfg.lossy p = true := by
    simp [violatesLossless, hf, hl, ha]
  obtain ⟨q, _, _, hq⟩ :=
    reconcile_error env.slow5_open cfg.lossy env.list_all_items_args p hp hv
  unfold merge_main mergeFiles
  cases h0 : acquireTemp cfg env with
  | none => exact ⟨_, rfl, rfl, rfl, by intro _ _ h; cases h⟩
  | some events0 =>
    simp only
    cases ho : openOutput cfg env with
    | mk ok events =>
      have hw := outputWrites_prelude cfg env events0
        (openedInputs env.slow5_open cfg.lossy env.list_all_items_args) h0
      rw [ho] at hw
      cases ok with
      | false =>
        refine ⟨_, rfl, rfl, ?_, ?_⟩
        · simp only [outputWrites_append] at hw ⊢
          simp only [List.append_eq_nil] at hw
          rw [hw.1.1.1, hw.1.1.2, hw.1.2]
          rfl
        · intro e0 path _ hpath hok
          simp [openOutput, hpath, hok] at ho
      | true =>
        simp only [hq]
        refine ⟨_, rfl, rfl, ?_, ?_⟩
        · rw [outputWrites_append, hw]
          simp [outputWrites]
        · intro e0 path he0 hpath hok
          simp only [openOutput, hpath, hok, Prod.mk.injEq, true_and] at ho
          simp only [Option.some.injEq] at he0
          subst he0
          subst ho
          simp

theorem lossless_violation_fails_without_writes_witness :
    (demoCfg true 4096 false slow5_fmt.SLOW5_FORMAT_BINARY).lossy = false ∧
    "N" ∈ (demoEnv false [] ["A", "N", "B"]).list_all_items_args ∧
    ∃ run, merge_main 0 (demoCfg true 4096 false slow5_fmt.SLOW5_FORMAT_BINARY)
        (demoEnv false [] ["A", "N", "B"]) = some run ∧
      run.result = .returned .EXIT_FAILURE ∧ outputWrites run.events = [] ∧
      ∀ events0 path,
        acquireTemp (demoCfg true 4096 false slow5_fmt.SLOW5_FORMAT_BINARY)
          (demoEnv false [] ["A", "N", "B"]) = some events0 →
        (demoCfg true 4096 false slow5_fmt.SLOW5_FORMAT_BINARY).arg_fname_out = some path →
        (demoEnv false [] ["A", "N", "B"]).fopen_output_ok = true →
        run.events = events0 ++ [Event.list_all_items, Event.fopen_output path true] ++
          (openedInputs demoOpen false ["A", "N", "B"]).map Event.slow5_open
          ++ [Event.delete_directory "tmp" true] :=
  ⟨rfl, by decide,
   lossless_violation_fails_without_writes 0
     (demoCfg true 4096 false slow5_fmt.SLOW5_FORMAT_BINARY) (demoEnv false [] ["A", "N", "B"])
     "N" ⟨[demoY], false, [⟨"n1", 0, []⟩], false⟩ rfl (by decide) rfl rfl⟩

/-- C8: if the temp directory exists and lists more than two entries,
`merge_main` returns failure having done nothing else (no directory created,
no input listed or opened, no output opened, nothing written or removed); if
the directory does not exist the run starts by creating it and goes on to
list the inputs; if it exists with at most two entries the run goes on to
list the inputs without creating anything. -/
theorem temp_dir_check (fuel : Nat) (cfg : Config) (env : Env) :
    (env.stat_exists = true → env.list_directory.length > 2 →
      merge_main fuel cfg env = some ⟨.returned .EXIT_FAILURE, []⟩) ∧
    (env.stat_exists = false →
      acquireTemp cfg env = some [Event.mkdir cfg.output_dir] ∧
      ∀ run, merge_main fuel cfg env = some run →
        ∃ rest, run.events = Event.mkdir cfg.output_dir :: Event.list_all_items :: rest) ∧
    (env.stat_exists = true → env.list_directory.length ≤ 2 →
      acquireTemp cfg env = some [] ∧
      ∀ run, merge_main fuel cfg env = some run →
        ∃ rest, run.events = Event.list_all_items :: rest) := by
  refine ⟨?_, ?_, ?_⟩
  · intro hs hl
    simp [merge_main, acquireTemp, hs, hl]
  · intro hs
    have h0 : acquireTemp cfg env = some [Event.mkdir cfg.output_dir] := by
      simp [acquireTemp, hs]
    refine ⟨h0, ?_⟩
    intro run hrun
    obtain ⟨rest, hr⟩ := merge_main_events fuel cfg env _ run h0 hrun
    exact ⟨rest, by simpa using hr⟩
  · intro hs hl
    have h0 : acquireTemp cfg env = some [] := by
      have : ¬ env.list_directory.length > 2 := by omega
      simp [acquireTemp, hs, this]
    refine ⟨h0, ?_⟩
    intro run hrun
    obtain ⟨rest, hr⟩ := merge_main_events fuel cfg env _ run h0 hrun
    exact ⟨rest, by simpa using hr⟩

theorem temp_dir_check_witness :
    merge_main 0 (demoCfg true 4096 false slow5_fmt.SLOW5_FORMAT_BINARY)
        (demoEnv true [".", "..", "old.blow5"] ["A", "B"])
      = some ⟨.returned .EXIT_FAILURE, []⟩ ∧
    (acquireTemp (demoCfg false 2 false slow5_fmt.SLOW5_FORMAT_BINARY)
        (demoEnv false [] ["A", "B"]) = some [Event.mkdir "tmp"] ∧
      ∀ run, merge_main 9 (demoCfg false 2 false slow5_fmt.SLOW5_FORMAT_BINARY)
          (demoEnv false [] ["A", "B"]) = some run →
        ∃ rest, run.events = Event.mkdir "tmp" :: Event.list_all_items :: rest) ∧
    (acquireTemp (demoCfg false 2 false slow5_fmt.SLOW5_FORMAT_BINARY)
        (demoEnv true [".", ".."] ["A", "B"]) = some [] ∧
      ∀ run, merge_main 9 (demoCfg false 2 false slow5_fmt.SLOW5_FORMAT_BINARY)
          (demoEnv true [".", ".."] ["A", "B"]) = some run →
        ∃ rest, run.events = Event.list_all_items :: rest) :=
  ⟨(temp_dir_check 0 (demoCfg true 4096 false slow5_fmt.SLOW5_FORMAT_BINARY)
      (demoEnv true [".", "..", "old.blow5"] ["A", "B"])).1 rfl (by decide),
   (temp_dir_check 9 (demoCfg false 2 false slow5_fmt.SLOW5_FORMAT_BINARY)
      (demoEnv false [] ["A", "B"])).2.1 rfl,
   (temp_dir_check 9 (demoCfg false 2 false slow5_fmt.SLOW5_FORMAT_BINARY)
      (demoEnv true [".", ".."] ["A", "B"])).2.2 rfl (by decide)⟩

/-- C10: when the temp directory was acquired, the output was opened and the
file loop ended with an empty `slow5_files`, `merge_main` returns success -
whether or not `rmdir` of the temp directory succeeds - and has written no
header, no record and no end marker: after the input scan its only action is
the `delete_directory` call. -/
theorem no_accepted_file_returns_success (fuel : Nat) (cfg : Config) (env : Env)
    (events0 : List Event) (st : MergeState)
    (h0 : acquireTemp cfg env = some events0)
    (ho : (openOutput cfg env).1 = true)
    (hrec : reconcile env.slow5_open cfg.lossy env.list_all_items_args = .ok st)
    (he : st.slow5_files = []) :
    ∃ run, merge_main fuel cfg env = some run ∧
      run.result = .returned .EXIT_SUCCESS ∧ outputWrites run.events = [] ∧
      run.events = events0 ++ [Event.list_all_items] ++ (openOutput cfg env).2 ++
        (openedInputs env.slow5_open cfg.lossy env.list_all_items_args).map Event.slow5_open
        ++ [Event.delete_directory cfg.output_dir env.rmdir_ok] := by
  have hw := outputWrites_prelude cfg env events0
    (openedInputs env.slow5_open cfg.lossy env.list_all_items_args) h0
  unfold merge_main mergeFiles
  simp only [h0]
  cases hoo : openOutput cfg env with
  | mk ok events =>
    rw [hoo] at ho hw
    simp only at ho
    subst ho
    simp only [hrec, afterReconcile, he, List.length_nil, if_true]
    refine ⟨_, rfl, rfl, ?_, rfl⟩
    rw [outputWrites_append, hw]
    rfl

theorem no_accepted_file_returns_success_witness :
    reconcile demoOpen false ["missing", "gone"] = .ok initState ∧
    ∃ run, merge_main 0 (demoCfg true 4096 false slow5_fmt.SLOW5_FORMAT_BINARY)
        (demoEnv false [] ["missing", "gone"]) = some run ∧
      run.result = .returned .EXIT_SUCCESS ∧ outputWrites run.events = [] ∧
      run.events = [Event.mkdir "tmp"] ++ [Event.list_all_items] ++
        [Event.fopen_output "out.blow5" true] ++
        (openedInputs demoOpen false ["missing", "gone"]).map Event.slow5_open
        ++ [Event.delete_directory "tmp" true] :=
  ⟨rfl,
   no_accepted_file_returns_success 0 (demoCfg true 4096 false slow5_fmt.SLOW5_FORMAT_BINARY)
     (demoEnv false [] ["missing", "gone"]) [Event.mkdir "tmp"] initState rfl rfl rfl rfl⟩

/-! ## The ranges of `f2s_iop` -/

theorem toInt32_of_inRange (x : Int) (h0 : -2147483648 ≤ x) (h1 : x < 2147483648) :
    toInt32 x = x := by
  unfold toInt32
  omega

theorem setRanges_eq (n s : Nat) (hn : n < 2147483648) (remaining : Nat) :
    ∀ t : Nat, (t + remaining) * s < 2147483648 → t + remaining < 2147483648 →
      setRanges n s remaining t ((t * s : Nat) : Int)
        = (List.range' t remaining).map (fun u =>
            (⟨((u * s : Nat) : Int), ((min ((u + 1) * s) n : Nat) : Int), (u : Int)⟩ :
              proc_arg_t)) := by
  induction remaining with
  | zero => intro t _ _; rfl
  | succ r ih =>
    intro t hs ht
    have h1 : (t + 1) * s ≤ (t + (r + 1)) * s := Nat.mul_le_mul_right s (by omega)
    have h2 : (t + 1) * s = t * s + s := Nat.succ_mul t s
    have hi1 : toInt32 (((t * s : Nat) : Int) + (s : Int)) = (((t + 1) * s : Nat) : Int) := by
      rw [toInt32_of_inRange _ (by omega) (by omega)]
      omega
    have ht1 : toInt32 ((t : Int) + 1) = ((t + 1 : Nat) : Int) := by
      rw [toInt32_of_inRange _ (by omega) (by omega)]
      omega
    have hn1 : toInt32 (n : Int) = (n : Int) := toInt32_of_inRange _ (by omega) (by omega)
    have hrec := ih (t + 1) (by rw [Nat.add_assoc, Nat.add_comm 1 r]; exact hs) (by omega)
    rw [List.range'_succ, List.map_cons, setRanges]
    have hend : (if (((t + 1) * s : Nat) : Int) > (n : Int) then (n : Int)
        else (((t + 1) * s : Nat) : Int)) = ((min ((t + 1) * s) n : Nat) : Int) := by
      by_cases hc : (((t + 1) * s : Nat) : Int) > (n : Int)
      · have : min ((t + 1) * s) n = n := by omega
        rw [if_pos hc, this]
      · have : min ((t + 1) * s) n = (t + 1) * s := by omega
        rw [if_neg hc, this]
    rw [hi1, ht1, hn1, hrec, hend]

theorem workerItems_nat (a b : Nat) (t : Int) :
    workerItems ⟨(a : Int), (b : Int), t⟩ = (List.range' a (b - a)).map Int.ofNat := by
  unfold workerItems
  have : ((b : Int) - (a : Int)).toNat = b - a := by omega
  simp only [this, List.range'_eq_map_range, List.map_map]
  apply List.map_congr_left
  intro d _
  simp

theorem flatten_ranges (s n : Nat) (remaining : Nat) :
    ∀ t : Nat,
      ((List.range' t remaining).map (fun u =>
          List.range' (u * s) (min ((u + 1) * s) n - u * s))).flatten
        = List.range' (min (t * s) n) (min ((t + remaining) * s) n - min (t * s) n) := by
  induction remaining with
  | zero => intro t; simp
  | succ r ih =>
    intro t
    have h2 : (t + 1) * s = t * s + s := Nat.succ_mul t s
    have h3 : (t + 1) * s ≤ (t + 1 + r) * s := Nat.mul_le_mul_right s (by omega)
    have h4 : t + (r + 1) = t + 1 + r := by omega
    simp only [List.range'_succ, List.map_cons, List.flatten_cons, ih (t + 1), h4]
    by_cases hc : t * s < n
    · have e1 : min (t * s) n = t * s := by omega
      rw [e1]
      have e2 : min ((t + 1) * s) n = t * s + (min ((t + 1) * s) n - t * s) := by omega
      conv_lhs => rw [e2]
      rw [← e2]
      have e3 : List.range' (min ((t + 1) * s) n)
            (min ((t + 1 + r) * s) n - min ((t + 1) * s) n)
          = List.range' (t * s + (min ((t + 1) * s) n - t * s))
            (min ((t + 1 + r) * s) n - min ((t + 1) * s) n) := by rw [← e2]
      rw [e3, List.range'_append_1]
      congr 1
      omega
    · have e1 : min ((t + 1) * s) n - t * s = 0 := by omega
      have e2 : min ((t + 1 + r) * s) n - min ((t + 1) * s) n = 0 := by omega
      have e3 : min ((t + 1 + r) * s) n - min (t * s) n = 0 := by omega
      simp [e1, e2, e3]

theorem ceil_step (n iop : Nat) (hw : 1 ≤ iop) :
    n ≤ iop * ((n + iop - 1) / iop) ∧ iop * ((n + iop - 1) / iop) < n + iop := by
  have h1 := Nat.div_add_mod (n + iop - 1) iop
  have h2 := Nat.mod_lt (n + iop - 1) (by omega : iop > 0)
  constructor <;> omega

/-- C16, as stated, fails: for 4294967296 files and one process the quotient
`(n + iop - 1) / iop` is 4294967296, which becomes 0 when stored in the
`int32_t` variable `step`; the only range is then `[0, 0)` and no file is
assigned to the process. -/
theorem f2s_iop_step_wraps :
    f2s_iop 4294967296 1 = [⟨0, 0, 0⟩] ∧
    (f2s_iop 4294967296 1).map workerItems = [[]] ∧
    ¬ ∃ args ∈ f2s_iop 4294967296 1, (0 : Int) ∈ workerItems args := by
  decide

/-- C16, amended: for `n` files and `iop >= 1` processes with
`n + iop < 2^31` (so that `step` and the running index fit `int32_t`),
`step` is the ceiling of `n / iop`, process `t` gets the range
`[t * step, min((t + 1) * step, n))` and visits exactly the indices in it,
every index below `n` lies in exactly one of the ranges, and the indices
visited by the processes `0, 1, ...` one after the other are `0, 1, ..., n - 1`,
each once and none else. -/
theorem f2s_iop_ranges_partition (n iop : Nat) (hw : 1 ≤ iop) (hb : n + iop < 2147483648) :
    (n ≤ iop * ((n + iop - 1) / iop) ∧ iop * ((n + iop - 1) / iop) < n + iop) ∧
    f2s_iop n iop = (List.range iop).map (fun t =>
      (⟨((t * ((n + iop - 1) / iop) : Nat) : Int),
        ((min ((t + 1) * ((n + iop - 1) / iop)) n : Nat) : Int), (t : Int)⟩ : proc_arg_t)) ∧
    (∀ t, t < iop → ∃ args, (f2s_iop n iop)[t]? = some args ∧
      ∀ k : Nat, (k : Int) ∈ workerItems args ↔
        (t * ((n + iop - 1) / iop) ≤ k ∧ k < min ((t + 1) * ((n + iop - 1) / iop)) n)) ∧
    (∀ k, k < n → ∃ t, t < iop ∧
      (t * ((n + iop - 1) / iop) ≤ k ∧ k < min ((t + 1) * ((n + iop - 1) / iop)) n) ∧
      ∀ u, (u * ((n + iop - 1) / iop) ≤ k ∧ k < min ((u + 1) * ((n + iop - 1) / iop)) n) →
        u = t) ∧
    ((f2s_iop n iop).map workerItems).flatten = (List.range n).map Int.ofNat := by
  obtain ⟨hc1, hc2⟩ := ceil_step n iop hw
  generalize hs : (n + iop - 1) / iop = s at hc1 hc2 ⊢
  have hmul : iop * s = (0 + iop) * s := by rw [Nat.zero_add]
  have hclosed : f2s_iop n iop = (List.range iop).map (fun t =>
      (⟨((t * s : Nat) : Int), ((min ((t + 1) * s) n : Nat) : Int), (t : Int)⟩ : proc_arg_t)) := by
    have hstep : toInt32 ((s : Nat) : Int) = (s : Int) := by
      have : s ≤ iop * s := Nat.le_mul_of_pos_left s (by omega)
      exact toInt32_of_inRange _ (by omega) (by omega)
    have := setRanges_eq n s (by omega) iop 0 (by rw [← hmul]; omega) (by omega)
    unfold f2s_iop
    simp only [hs, hstep]
    rw [List.range_eq_range']
    simpa using this
  refine ⟨⟨hc1, hc2⟩, hclosed, ?_, ?_, ?_⟩
  · intro t ht
    refine ⟨_, by rw [hclosed, List.getElem?_map, List.getElem?_range ht]; rfl, ?_⟩
    intro k
    rw [workerItems_nat]
    simp only [List.mem_map, List.mem_range'_1]
    constructor
    · rintro ⟨x, hx, hxk⟩
      have : x = k := by simpa using hxk
      omega
    · intro hk
      exact ⟨k, by omega, rfl⟩
  · intro k hk
    have hspos : 0 < s := by
      rcases Nat.eq_zero_or_pos s with h0 | h0
      · rw [h0] at hc1; omega
      · exact h0
    have hdm := Nat.div_add_mod k s
    have hml := Nat.mod_lt k hspos
    have e1 : k / s * s = s * (k / s) := Nat.mul_comm _ _
    have e2 : (k / s + 1) * s = s * (k / s) + s := by rw [Nat.succ_mul, e1]
    refine ⟨k / s, ?_, ⟨by omega, by omega⟩, ?_⟩
    · by_contra hge
      have : iop * s ≤ k / s * s := Nat.mul_le_mul_right s (by omega)
      omega
    · rintro u ⟨hu1, hu2⟩
      exact (Nat.div_eq_of_lt_le hu1 (by omega)).symm
  · rw [hclosed, List.map_map]
    have hfun : (workerItems ∘ fun t =>
        (⟨((t * s : Nat) : Int), ((min ((t + 1) * s) n : Nat) : Int), (t : Int)⟩ : proc_arg_t))
        = fun t => (List.range' (t * s) (min ((t + 1) * s) n - t * s)).map Int.ofNat := by
      funext t
      exact workerItems_nat _ _ _
    rw [hfun]
    have key : ((List.range iop).map (fun t =>
          (List.range' (t * s) (min ((t + 1) * s) n - t * s)).map Int.ofNat)).flatten
        = (((List.range iop).map (fun t =>
          List.range' (t * s) (min ((t + 1) * s) n - t * s))).flatten).map Int.ofNat := by
      rw [List.map_flatten, List.map_map]
      rfl
    rw [key, List.range_eq_range', flatten_ranges s n iop 0]
    congr 1
    have : min ((0 + iop) * s) n = n := by rw [← hmul]; omega
    simp [this, List.range_eq_range', hc1]

theorem f2s_iop_ranges_partition_witness :
    (1 ≤ 3 ∧ 10 + 3 < 2147483648) ∧
    (10 ≤ 3 * ((10 + 3 - 1) / 3) ∧ 3 * ((10 + 3 - 1) / 3) < 10 + 3) ∧
    f2s_iop 10 3 = (List.range 3).map (fun t =>
      (⟨((t * ((10 + 3 - 1) / 3) : Nat) : Int),
        ((min ((t + 1) * ((10 + 3 - 1) / 3)) 10 : Nat) : Int), (t : Int)⟩ : proc_arg_t)) ∧
    (∀ t, t < 3 → ∃ args, (f2s_iop 10 3)[t]? = some args ∧
      ∀ k : Nat, (k : Int) ∈ workerItems args ↔
        (t * ((10 + 3 - 1) / 3) ≤ k ∧ k < min ((t + 1) * ((10 + 3 - 1) / 3)) 10)) ∧
    (∀ k, k < 10 → ∃ t, t < 3 ∧
      (t * ((10 + 3 - 1) / 3) ≤ k ∧ k < min ((t + 1) * ((10 + 3 - 1) / 3)) 10) ∧
      ∀ u, (u * ((10 + 3 - 1) / 3) ≤ k ∧ k < min ((u + 1) * ((10 + 3 - 1) / 3)) 10) →
        u = t) ∧
    ((f2s_iop 10 3).map workerItems).flatten = (List.range 10).map Int.ofNat :=
  ⟨⟨by decide, by decide⟩, f2s_iop_ranges_partition 10 3 (by decide) (by decide)⟩

/-! ## The output-name check -/

theorem size_t_sub_short (len : Nat) (h : len < 6) : size_t_sub len 6 > len := by
  unfold size_t_sub
  split <;> omega

theorem size_t_sub_long (len : Nat) (h : 6 ≤ len) (hmax : len < 18446744073709551616) :
    size_t_sub len 6 = len - 6 := by
  unfold size_t_sub
  split <;> omega

theorem checkOutputName_short (format_out : slow5_fmt) (name : String)
    (h : name.length < 6) : checkOutputName format_out (some name) = .out_of_range := by
  have := size_t_sub_short name.length h
  unfold checkOutputName substr
  simp only
  rw [if_pos this]

/-- C20 fails on the code: the name "o.b5" (four characters) makes
`substr` throw `std::out_of_range`, and so does every name shorter than six
characters, for both formats; only for names of six or more characters is the
check total, accepting exactly when the last six characters are the extension
of the format. -/
theorem output_name_check_short_name :
    checkOutputName slow5_fmt.SLOW5_FORMAT_BINARY (some "o.b5") = .out_of_range ∧
    checkOutputName slow5_fmt.SLOW5_FORMAT_ASCII (some "") = .out_of_range ∧
    (∀ (format_out : slow5_fmt) (name : String), name.length < 6 →
      checkOutputName format_out (some name) = .out_of_range) ∧
    (∀ (format_out : slow5_fmt) (name : String), 6 ≤ name.length →
      name.length < 18446744073709551616 →
      checkOutputName format_out (some name) =
        if (⟨name.data.drop (name.length - 6)⟩ : String) =
            (if format_out = slow5_fmt.SLOW5_FORMAT_ASCII then ".slow5" else ".blow5")
        then .accepted
        else .extension_mismatch ⟨name.data.drop (name.length - 6)⟩) := by
  refine ⟨by decide, by decide, checkOutputName_short, ?_⟩
  intro format_out name h hmax
  have hpos : ¬ name.length - 6 > name.length := by omega
  have htake : (name.data.drop (name.length - 6)).take name.length
      = name.data.drop (name.length - 6) := by
    apply List.take_of_length_le
    simp only [List.length_drop]
    have : name.data.length = name.length := rfl
    omega
  unfold checkOutputName substr
  simp only
  rw [size_t_sub_long name.length h hmax, if_neg hpos, htake]
  cases format_out with
  | SLOW5_FORMAT_ASCII =>
    by_cases he : (⟨name.data.drop (name.length - 6)⟩ : String) = ".slow5" <;> simp [he]
  | SLOW5_FORMAT_BINARY =>
    by_cases he : (⟨name.data.drop (name.length - 6)⟩ : String) = ".blow5" <;> simp [he]

/-! ## The temp file names are pairwise different -/

theorem digitValue_digitChar (d : Nat) (h : d < 10) : digitValue (Nat.digitChar d) = d := by
  interval_cases d <;> rfl

theorem readDecimal_toDigitsCore (fuel : Nat) :
    ∀ (n : Nat) (ds : List Char), n < fuel →
      readDecimal 0 (Nat.toDigitsCore 10 fuel n ds) = readDecimal n ds := by
  induction fuel with
  | zero => intro n ds h; omega
  | succ fuel ih =>
    intro n ds h
    have hd := digitValue_digitChar (n % 10) (Nat.mod_lt n (by decide))
    have hdm := Nat.div_add_mod n 10
    by_cases h0 : n / 10 = 0
    · simp only [Nat.toDigitsCore, h0, if_true, readDecimal, List.foldl_cons, hd]
      congr 1
      omega
    · simp only [Nat.toDigitsCore, h0, if_false]
      rw [ih (n / 10) _ (by omega)]
      simp only [readDecimal, List.foldl_cons, hd]
      congr 1
      omega

theorem toString_nat_injective (i j : Nat) (h : toString i = toString j) : i = j := by
  have h1 : Nat.toDigits 10 i = Nat.toDigits 10 j := by
    have := congrArg String.data h
    exact this
  have hi := readDecimal_toDigitsCore (i + 1) i [] (by omega)
  have hj := readDecimal_toDigitsCore (j + 1) j [] (by omega)
  have e : readDecimal 0 (Nat.toDigits 10 i) = readDecimal 0 (Nat.toDigits 10 j) := by rw [h1]
  unfold Nat.toDigits at e
  rw [hi, hj] at e
  simpa [readDecimal] using e

theorem tempPath_injective (output_dir : String) (i j : Nat)
    (h : tempPath output_dir i = tempPath output_dir j) : i = j := by
  apply toString_nat_injective
  have := congrArg String.data h
  simp only [tempPath, String.data_append, List.append_assoc] at this
  have h2 := List.append_cancel_left (List.append_cancel_left this)
  have h3 := List.append_cancel_right h2
  exact String.ext h3

/-! ## The file-sharded strategy in closed form -/

theorem runItems_done {α : Type} (work : Nat → WorkResult α) (l : List Nat) :
    ∀ outs, runItems work l = .done outs →
      List.Forall₂ (fun i o => work i = .done o) l outs := by
  induction l with
  | nil =>
    intro outs h
    simp only [runItems, WorkResult.done.injEq] at h
    subst h
    exact List.Forall₂.nil
  | cons i rest ih =>
    intro outs h
    unfold runItems at h
    cases hw : work i with
    | exit_failure => simp [hw] at h
    | undefined => simp [hw] at h
    | done a =>
      simp only [hw] at h
      cases hr : runItems work rest with
      | exit_failure => simp [hr] at h
      | undefined => simp [hr] at h
      | done as =>
        simp only [hr, WorkResult.done.injEq] at h
        subst h
        exact List.Forall₂.cons hw (ih as hr)

theorem parallel_files_model_done (env : Env) (output_dir : String)
    (slow5_files : List String) (list : List (List Nat)) (i : Nat) (p : String)
    (reads : List Slow5Rec)
    (h : parallel_files_model env output_dir slow5_files list i = .done (p, reads)) :
    p = tempPath output_dir i ∧
    ∃ path f, slow5_files[i]? = some path ∧ env.slow5_open path = some f ∧
      rewriteRecords env list i f.records = .done reads := by
  unfold parallel_files_model at h
  by_cases ho : env.fopen_tmp_append_ok (tempPath output_dir i) = false
  · simp [ho] at h
  · simp only [ho, Bool.true_eq_false, if_false] at h
    cases hp : slow5_files[i]? with
    | none => simp [hp] at h
    | some path =>
      simp only [hp] at h
      cases hf : (if env.reopen_ok path = true then env.slow5_open path else none) with
      | none => simp [hf] at h
      | some f =>
        simp only [hf] at h
        cases hr : rewriteRecords env list i f.records with
        | exit_failure => simp [hr] at h
        | undefined => simp [hr] at h
        | done outs =>
          simp only [hr, WorkResult.done.injEq, Prod.mk.injEq] at h
          refine ⟨h.1.symm, path, f, rfl, ?_, by rw [← h.2]; exact hr⟩
          by_cases hre : env.reopen_ok path = true
          · simpa [hre] using hf
          · simp [hre] at hf

theorem created_paths (env : Env) (output_dir : String) (slow5_files : List String)
    (list : List (List Nat)) (l : List Nat) :
    ∀ tmp : List (String × List Slow5Rec),
      List.Forall₂ (fun i o =>
        parallel_files_model env output_dir slow5_files list i = .done o) l tmp →
      tmp.map Prod.fst = l.map (tempPath output_dir) := by
  induction l with
  | nil =>
    intro tmp h
    cases h
    rfl
  | cons i rest ih =>
    intro tmp h
    cases h with
    | cons hd htl =>
      rename_i o tmp1
      have := (parallel_files_model_done env output_dir slow5_files list i o.1 o.2 hd).1
      simp [ih tmp1 htl, this]

theorem find_created (tmp : List (String × List Slow5Rec)) (p : String)
    (c : List Slow5Rec) (hnd : (tmp.map Prod.fst).Nodup) (hm : (p, c) ∈ tmp) :
    tmp.find? (fun t => decide (t.1 = p)) = some (p, c) := by
  induction tmp with
  | nil => cases hm
  | cons x rest ih =>
    obtain ⟨q, d⟩ := x
    simp only [List.map_cons, List.nodup_cons] at hnd
    rcases List.mem_cons.mp hm with he | hr
    · simp only [Prod.mk.injEq] at he
      simp [List.find?_cons, he.1, he.2]
    · have hne : ¬ q = p := by
        intro e
        apply hnd.1
        rw [e]
        exact List.mem_map.mpr ⟨(p, c), hr, rfl⟩
      simp only [List.find?_cons, hne, decide_False]
      exact ih hnd.2 hr

theorem copyOf_of_mem (tmp : List (String × List Slow5Rec)) (p : String)
    (c : List Slow5Rec) (hnd : (tmp.map Prod.fst).Nodup) (hm : (p, c) ∈ tmp) :
    copyOf tmp p = c.map Event.write_record := by
  unfold copyOf
  rw [find_created tmp p c hnd hm]

theorem flatMap_copyOf (tmp : List (String × List Slow5Rec))
    (hnd : (tmp.map Prod.fst).Nodup) :
    (tmp.map Prod.fst).flatMap (copyOf tmp) = (tmp.flatMap Prod.snd).map Event.write_record := by
  rw [List.flatMap_map, List.map_flatMap]
  apply List.flatMap_congr
  intro x hx
  exact copyOf_of_mem tmp x.1 x.2 hnd hx

theorem flatMap_copyOf_created (tmp : List (String × List Slow5Rec))
    (hnd : (tmp.map Prod.fst).Nodup) (paths : List String)
    (hsub : ∀ p ∈ paths, p ∈ tmp.map Prod.fst) :
    paths.flatMap (copyOf tmp)
      = ((paths.filterMap (fun p => tmp.find? (fun t => decide (t.1 = p)))).flatMap
          Prod.snd).map Event.write_record := by
  induction paths with
  | nil => rfl
  | cons p rest ih =>
    obtain ⟨t, ht, hp⟩ := List.mem_map.mp (hsub p (List.mem_cons_self _ _))
    obtain ⟨q, c⟩ := t
    simp only at hp
    subst hp
    have hfind := find_created tmp q c hnd ht
    rw [List.flatMap_cons, List.filterMap_cons, hfind, List.flatMap_cons, List.map_append,
      copyOf_of_mem tmp q c hnd ht, ih (fun r hr => hsub r (List.mem_cons_of_mem _ hr))]

theorem filterMap_find_created (tmp : List (String × List Slow5Rec))
    (hnd : (tmp.map Prod.fst).Nodup) :
    (tmp.map Prod.fst).filterMap (fun p => tmp.find? (fun t => decide (t.1 = p))) = tmp := by
  rw [List.filterMap_map]
  have h : ∀ t ∈ tmp, ((fun p => tmp.find? (fun t => decide (t.1 = p))) ∘ Prod.fst) t
      = some t := by
    intro t ht
    exact find_created tmp t.1 t.2 hnd ht
  rw [List.filterMap_congr h]
  exact List.filterMap_some tmp

theorem flatMap_copyOf_perm (tmp : List (String × List Slow5Rec))
    (hnd : (tmp.map Prod.fst).Nodup) (paths : List String)
    (hperm : paths.Perm (tmp.map Prod.fst)) :
    ∃ order : List (String × List Slow5Rec), order.Perm tmp ∧
      paths.flatMap (copyOf tmp) = (order.flatMap Prod.snd).map Event.write_record := by
  refine ⟨paths.filterMap (fun p => tmp.find? (fun t => decide (t.1 = p))), ?_,
    flatMap_copyOf_created tmp hnd paths (fun p hp => hperm.mem_iff.mp hp)⟩
  have := hperm.filterMap (fun p => tmp.find? (fun t => decide (t.1 = p)))
  rwa [filterMap_find_created tmp hnd] at this

theorem concatLoop_next (env : Env) (tmp : List (String × List Slow5Rec))
    (paths : List String) :
    ∀ events events2, concatLoop env tmp paths events = .next events2 →
      outputWrites events2 = outputWrites events ++
        (paths.filter (fun p => env.fopen_tmp_read_ok p)).flatMap (copyOf tmp) := by
  induction paths with
  | nil =>
    intro events events2 h
    simp only [concatLoop, Stage.next.injEq] at h
    simp [h]
  | cons p rest ih =>
    intro events events2 h
    unfold concatLoop at h
    by_cases hr : env.fopen_tmp_read_ok p = false
    · simp only [hr, if_true] at h
      simpa [List.filter_cons, hr] using ih events events2 h
    · simp only [hr, if_false] at h
      have hr2 : env.fopen_tmp_read_ok p = true := by simpa using hr
      by_cases hd : env.remove_ok p = false
      · simp [hd] at h
      · simp only [hd, if_false] at h
        rw [ih _ _ h]
        have hrem : outputWrites [Event.remove p true] = [] := by simp [outputWrites]
        rw [outputWrites_append, outputWrites_append, outputWrites_copyOf, hrem]
        simp [List.filter_cons, hr2, List.flatMap_cons]

theorem shardedStage_next (cfg : Config) (env : Env) (st : MergeState)
    (events events2 : List Event) (h : shardedStage cfg env st events = .next events2) :
    ∃ tmp, work_db st.slow5_files.length
        (parallel_files_model env cfg.output_dir st.slow5_files st.list) = .done tmp ∧
      tmp.map Prod.fst = (List.range st.slow5_files.length).map (tempPath cfg.output_dir) ∧
      (tmp.map Prod.fst).Nodup ∧
      List.Forall₂ (fun i t => ∃ path f, st.slow5_files[i]? = some path ∧
          env.slow5_open path = some f ∧
          rewriteRecords env st.list i f.records = .done t.2)
        (List.range st.slow5_files.length) tmp ∧
      outputWrites events2 = outputWrites events ++
        ((env.list_all_items_tmp (tmp.map Prod.fst)).filter
          (fun p => env.fopen_tmp_read_ok p)).flatMap (copyOf tmp) := by
  unfold shardedStage at h
  cases hw : work_db st.slow5_files.length
      (parallel_files_model env cfg.output_dir st.slow5_files st.list) with
  | exit_failure => simp [hw] at h
  | undefined => simp [hw] at h
  | done tmp =>
    simp only [hw] at h
    have hitems := runItems_done _ _ tmp hw
    have hpaths : tmp.map Prod.fst
        = (List.range st.slow5_files.length).map (tempPath cfg.output_dir) :=
      created_paths env cfg.output_dir st.slow5_files st.list _ tmp hitems
    have hnd : (tmp.map Prod.fst).Nodup := by
      rw [hpaths]
      exact (List.nodup_range _).map (fun i j e => tempPath_injective cfg.output_dir i j e)
    have hout := concatLoop_next env tmp _ _ _ h
    rw [outputWrites_append, outputWrites_write_tmp, List.append_nil] at hout
    refine ⟨tmp, rfl, hpaths, hnd, ?_, hout⟩
    refine List.Forall₂.imp ?_ hitems
    intro i t ht
    exact (parallel_files_model_done env cfg.output_dir st.slow5_files st.list i t.1 t.2 ht).2

/-- C12, as stated, fails: when `list_all_items` lists the temp directory with
"tmp/1.blow5" before "tmp/0.blow5", the records of the second input "B" are
appended to the output before those of the first input "A". -/
theorem sharded_output_follows_listing_order :
    (merge_main 0 (demoCfg true 4096 false slow5_fmt.SLOW5_FORMAT_BINARY)
        (demoEnvReversed ["A", "B"])).map (fun run => (run.result, outputWrites run.events))
      = some (.returned .EXIT_SUCCESS,
          [Event.write_header [demoX, demoY] true,
           Event.write_record ⟨"b1", 1, []⟩, Event.write_record ⟨"b2", 0, []⟩,
           Event.write_record ⟨"b3", 1, []⟩,
           Event.write_record ⟨"a1", 0, []⟩, Event.write_record ⟨"a2", 0, []⟩,
           Event.write_eof]) := by
  rfl

/-- C12, amended: work item `i` writes to the temp file
`<tempdir>/<i>.blow5`, different items have different names, and the second
phase appends, in the order in which `list_all_items` lists the temp
directory, every listed file that can be opened (a file that cannot be opened
is skipped): the records of a work item for a temp file, the bytes of the file
for any other listed file. If the listing returns the temp files in item order
and every temp file can be opened, then the output carries the records of the
items 0, 1, 2, ... in this order, for every number of accepted files. -/
theorem sharded_concatenation_in_listing_order (cfg : Config) (env : Env) (st : MergeState)
    (events events2 : List Event) :
    (∀ i j, tempPath cfg.output_dir i = tempPath cfg.output_dir j → i = j) ∧
    (∀ i p reads,
      parallel_files_model env cfg.output_dir st.slow5_files st.list i = .done (p, reads) →
      p = tempPath cfg.output_dir i) ∧
    (shardedStage cfg env st events = .next events2 →
      ∃ tmp, work_db st.slow5_files.length
          (parallel_files_model env cfg.output_dir st.slow5_files st.list) = .done tmp ∧
        tmp.map Prod.fst = (List.range st.slow5_files.length).map (tempPath cfg.output_dir) ∧
        outputWrites events2 = outputWrites events ++
          ((env.list_all_items_tmp (tmp.map Prod.fst)).filter
              (fun p => env.fopen_tmp_read_ok p)).flatMap (copyOf tmp) ∧
        (env.list_all_items_tmp (tmp.map Prod.fst) = tmp.map Prod.fst →
          (∀ p ∈ tmp.map Prod.fst, env.fopen_tmp_read_ok p = true) →
          outputWrites events2 = outputWrites events ++
            (tmp.flatMap Prod.snd).map Event.write_record)) := by
  refine ⟨tempPath_injective cfg.output_dir, ?_, ?_⟩
  · intro i p reads h
    exact (parallel_files_model_done env cfg.output_dir st.slow5_files st.list i p reads h).1
  · intro h
    obtain ⟨tmp, hw, hpaths, hnd, _, hout⟩ := shardedStage_next cfg env st events events2 h
    refine ⟨tmp, hw, hpaths, hout, ?_⟩
    intro hlist hread
    rw [hout, hlist, List.filter_eq_self.mpr (by simpa using hread), flatMap_copyOf tmp hnd]

/-- C12, amended, on "A" and "B" with the temp directory listed in item
order. -/
theorem sharded_concatenation_in_listing_order_witness :
    shardedStage (demoCfg true 4096 false slow5_fmt.SLOW5_FORMAT_BINARY)
        (demoEnv false [] ["A", "B"]) demoFinal []
      = .next [Event.write_tmp "tmp/0.blow5" [⟨"a1", 0, []⟩, ⟨"a2", 0, []⟩],
          Event.write_tmp "tmp/1.blow5" [⟨"b1", 1, []⟩, ⟨"b2", 0, []⟩, ⟨"b3", 1, []⟩],
          Event.write_record ⟨"a1", 0, []⟩, Event.write_record ⟨"a2", 0, []⟩,
          Event.remove "tmp/0.blow5" true,
          Event.write_record ⟨"b1", 1, []⟩, Event.write_record ⟨"b2", 0, []⟩,
          Event.write_record ⟨"b3", 1, []⟩,
          Event.remove "tmp/1.blow5" true] ∧
    ∃ tmp, work_db demoFinal.slow5_files.length
        (parallel_files_model (demoEnv false [] ["A", "B"]) "tmp" demoFinal.slow5_files
          demoFinal.list) = .done tmp ∧
      tmp.map Prod.fst = (List.range demoFinal.slow5_files.length).map (tempPath "tmp") ∧
      outputWrites [Event.write_tmp "tmp/0.blow5" [⟨"a1", 0, []⟩, ⟨"a2", 0, []⟩],
          Event.write_tmp "tmp/1.blow5" [⟨"b1", 1, []⟩, ⟨"b2", 0, []⟩, ⟨"b3", 1, []⟩],
          Event.write_record ⟨"a1", 0, []⟩, Event.write_record ⟨"a2", 0, []⟩,
          Event.remove "tmp/0.blow5" true,
          Event.write_record ⟨"b1", 1, []⟩, Event.write_record ⟨"b2", 0, []⟩,
          Event.write_record ⟨"b3", 1, []⟩,
          Event.remove "tmp/1.blow5" true] = outputWrites [] ++
        (((demoEnv false [] ["A", "B"]).list_all_items_tmp (tmp.map Prod.fst)).filter
            (fun p => (demoEnv false [] ["A", "B"]).fopen_tmp_read_ok p)).flatMap
          (copyOf tmp) ∧
      ((demoEnv false [] ["A", "B"]).list_all_items_tmp (tmp.map Prod.fst) = tmp.map Prod.fst →
        (∀ p ∈ tmp.map Prod.fst, (demoEnv false [] ["A", "B"]).fopen_tmp_read_ok p = true) →
        outputWrites [Event.write_tmp "tmp/0.blow5" [⟨"a1", 0, []⟩, ⟨"a2", 0, []⟩],
          Event.write_tmp "tmp/1.blow5" [⟨"b1", 1, []⟩, ⟨"b2", 0, []⟩, ⟨"b3", 1, []⟩],
          Event.write_record ⟨"a1", 0, []⟩, Event.write_record ⟨"a2", 0, []⟩,
          Event.remove "tmp/0.blow5" true,
          Event.write_record ⟨"b1", 1, []⟩, Event.write_record ⟨"b2", 0, []⟩,
          Event.write_record ⟨"b3", 1, []⟩,
          Event.remove "tmp/1.blow5" true] = outputWrites [] ++
          (tmp.flatMap Prod.snd).map Event.write_record) :=
  ⟨rfl,
   (sharded_concatenation_in_listing_order
      (demoCfg true 4096 false slow5_fmt.SLOW5_FORMAT_BINARY) (demoEnv false [] ["A", "B"])
      demoFinal [] _).2.2 rfl⟩

/-- C15 fails on the code: after the temp directory "tmp" has been created,
`merge_main` returns failure without calling `delete_directory` when the
output file cannot be opened (line 334), when writing the header fails (line
403), when a temp file cannot be removed (line 463) and when an input cannot
be opened again in the batched strategy (line 552). -/
theorem failure_returns_skip_delete_directory :
    merge_main 0 (demoCfg true 4096 false slow5_fmt.SLOW5_FORMAT_BINARY)
        (demoEnvNoOutput ["A", "B"])
      = some ⟨.returned .EXIT_FAILURE,
          [Event.mkdir "tmp", Event.list_all_items, Event.fopen_output "out.blow5" false]⟩ ∧
    merge_main 0 (demoCfg true 4096 false slow5_fmt.SLOW5_FORMAT_BINARY)
        (demoEnvNoHeader ["A", "B"])
      = some ⟨.returned .EXIT_FAILURE,
          [Event.mkdir "tmp", Event.list_all_items, Event.fopen_output "out.blow5" true,
           Event.slow5_open "A", Event.slow5_open "B",
           Event.write_header [demoX, demoY] false]⟩ ∧
    (merge_main 0 (demoCfg true 4096 false slow5_fmt.SLOW5_FORMAT_BINARY)
        (demoEnvNoRemove ["A", "B"])).map
        (fun run => (run.result, run.events.filter isDeleteDirectory))
      = some (.returned .EXIT_FAILURE, []) ∧
    (merge_main 9 (demoCfg false 4096 false slow5_fmt.SLOW5_FORMAT_BINARY)
        (demoEnvNoReopen ["A", "B"])).map
        (fun run => (run.result, run.events.filter isDeleteDirectory))
      = some (.returned .EXIT_FAILURE, []) := by
  refine ⟨rfl, rfl, rfl, rfl⟩

/-- C11 fails on the code: in the batched strategy with batch size 2 on the
accepted files "A" (two records) and "B" (three records), the run returns
success but the third record of "B" is never written: `flag_EOF`, set at the end
of "A", is not cleared, so "B" is closed after its first batch. -/
theorem batched_run_drops_records :
    (demoOpen "B").map (fun f => f.records.map (fun r => r.read_id)) = some ["b1", "b2", "b3"] ∧
    (merge_main 9 (demoCfg false 2 false slow5_fmt.SLOW5_FORMAT_BINARY)
        (demoEnv false [] ["A", "B"])).map (fun run => (run.result, outputWrites run.events))
      = some (.returned .EXIT_SUCCESS,
          [Event.write_header [demoX, demoY] true,
           Event.write_record ⟨"a1", 0, []⟩, Event.write_record ⟨"a2", 0, []⟩,
           Event.write_record ⟨"b1", 1, []⟩, Event.write_record ⟨"b2", 0, []⟩,
           Event.write_eof]) := by
  refine ⟨rfl, rfl⟩

/-- C13 fails on the code: on the accepted files "A" and "B", binary format,
the file-sharded strategy writes five records and the batched strategy with
batch size 2 writes only four of them, after the same header. -/
theorem strategies_write_different_records :
    (merge_main 9 (demoCfg true 2 false slow5_fmt.SLOW5_FORMAT_BINARY)
        (demoEnv false [] ["A", "B"])).map (fun run => (run.result, outputWrites run.events))
      = some (.returned .EXIT_SUCCESS,
          [Event.write_header [demoX, demoY] true,
           Event.write_record ⟨"a1", 0, []⟩, Event.write_record ⟨"a2", 0, []⟩,
           Event.write_record ⟨"b1", 1, []⟩, Event.write_record ⟨"b2", 0, []⟩,
           Event.write_record ⟨"b3", 1, []⟩,
           Event.write_eof]) ∧
    (merge_main 9 (demoCfg false 2 false slow5_fmt.SLOW5_FORMAT_BINARY)
        (demoEnv false [] ["A", "B"])).map (fun run => (run.result, outputWrites run.events))
      = some (.returned .EXIT_SUCCESS,
          [Event.write_header [demoX, demoY] true,
           Event.write_record ⟨"a1", 0, []⟩, Event.write_record ⟨"a2", 0, []⟩,
           Event.write_record ⟨"b1", 1, []⟩, Event.write_record ⟨"b2", 0, []⟩,
           Event.write_eof]) := by
  refine ⟨rfl, rfl⟩

/-! ## The batched loop -/

theorem readBatch_spec (read_error : Bool) (room : Nat) :
    ∀ (stream : List Slow5Rec) (flag_EOF : Bool) (batch rest : List Slow5Rec) (flag1 : Bool),
      readBatch read_error room stream flag_EOF = some (batch, rest, flag1) →
      stream = batch ++ rest ∧ batch.length ≤ room ∧
      (flag1 = false → flag_EOF = false ∧ batch.length = room) ∧
      (flag_EOF = true → flag1 = true) ∧
      (flag_EOF = false → flag1 = true → rest = [] ∧ batch.length < room) := by
  induction room with
  | zero =>
    intro stream flag batch rest flag1 h
    simp only [readBatch, Option.some.injEq, Prod.mk.injEq] at h
    obtain ⟨rfl, rfl, rfl⟩ := h
    simp
  | succ room ih =>
    intro stream flag batch rest flag1 h
    cases stream with
    | nil =>
      unfold readBatch at h
      by_cases hre : read_error = true
      · simp [hre] at h
      · simp only [hre, if_false, Option.some.injEq, Prod.mk.injEq] at h
        obtain ⟨rfl, rfl, rfl⟩ := h
        simp
    | cons m tail =>
      unfold readBatch at h
      cases hr : readBatch read_error room tail flag with
      | none => simp [hr] at h
      | some triple =>
        obtain ⟨b, r, f1⟩ := triple
        simp only [hr, Option.some.injEq, Prod.mk.injEq] at h
        obtain ⟨rfl, rfl, rfl⟩ := h
        obtain ⟨h1, h2, h3, h4, h5⟩ := ih tail flag b r f1 hr
        refine ⟨by simp [h1], by simp; omega, ?_, h4, ?_⟩
        · intro hf
          obtain ⟨ha, hb⟩ := h3 hf
          exact ⟨ha, by simp [hb]⟩
        · intro hf hf1
          obtain ⟨ha, hb⟩ := h5 hf hf1
          exact ⟨ha, by simp; omega⟩

theorem work_db_zero {α : Type} (work : Nat → WorkResult α) : work_db 0 work = .done [] := rfl

theorem batchLoop_capacity_zero (env : Env) (cfg : Config) (list : List (List Nat))
    (slow5_files : List String) (hK : cfg.read_id_batch_capacity = 0) (fuel : Nat) :
    ∀ (idx : Nat) (src : OpenFile) (events : List Event),
      batchLoop env cfg list slow5_files fuel idx src false events = none := by
  induction fuel with
  | zero => intro idx src events; rfl
  | succ fuel ih =>
    intro idx src events
    unfold batchLoop
    simp only [hK, readBatch, List.length_nil, work_db_zero, List.map_nil, List.append_nil]
    simpa using ih idx src events

theorem batchLoop_terminates (env : Env) (cfg : Config) (list : List (List Nat))
    (slow5_files : List String) (hK : 1 ≤ cfg.read_id_batch_capacity) (fuel : Nat) :
    ∀ (idx : Nat) (src : OpenFile) (flag_EOF : Bool) (events : List Event),
      (slow5_files.length - idx) + (if flag_EOF = true then 0 else src.stream.length + 1)
        ≤ fuel →
      idx < slow5_files.length →
      ∃ s, batchLoop env cfg list slow5_files fuel idx src flag_EOF events = some s := by
  induction fuel with
  | zero =>
    intro idx src flag events hm hidx
    omega
  | succ fuel ih =>
    intro idx src flag events hm hidx
    unfold batchLoop
    cases hb : readBatch src.read_error cfg.read_id_batch_capacity src.stream flag with
    | none => exact ⟨_, rfl⟩
    | some triple =>
      obtain ⟨mem_records, rest, flag1⟩ := triple
      obtain ⟨h1, h2, h3, h4, h5⟩ := readBatch_spec _ _ _ _ _ _ _ hb
      simp only
      cases hw : work_db mem_records.length (fun i =>
          match mem_records[i]? with
          | some m => parallel_reads_model env list idx m
          | none => WorkResult.undefined) with
      | exit_failure => exact ⟨_, rfl⟩
      | undefined => exact ⟨_, rfl⟩
      | done read_record =>
        simp only
        by_cases hflag : flag1 = true
        · simp only [hflag, if_true]
          by_cases hc : env.close_ok src.path = false
          · simp [hc]
          · simp only [hc, Bool.true_eq_false, if_false]
            by_cases hlast : idx + 1 = slow5_files.length
            · simp [hlast]
            · simp only [hlast, if_false]
              cases hp : slow5_files[idx + 1]? with
              | none => exact ⟨_, rfl⟩
              | some path =>
                simp only
                cases ho : openFrom env path with
                | none => exact ⟨_, rfl⟩
                | some src1 =>
                  simp only
                  apply ih
                  · simp only [if_true]
                    split at hm <;> omega
                  · omega
        · simp only [hflag, if_false]
          have hf : flag1 = false := by simpa using hflag
          obtain ⟨hfl, hlen⟩ := h3 hf
          apply ih
          · have hl : src.stream.length = mem_records.length + rest.length := by
              rw [h1, List.length_append]
            simp only [hf, hfl, Bool.false_eq_true, if_false] at hm ⊢
            omega
          · exact hidx

theorem batchedStage_capacity_zero (fuel : Nat) (cfg : Config) (env : Env) (st : MergeState)
    (events : List Event) (path : String) (src : OpenFile)
    (hK : cfg.read_id_batch_capacity = 0) (hp : st.slow5_files[0]? = some path)
    (ho : openFrom env path = some src) :
    batchedStage fuel cfg env st events = none := by
  unfold batchedStage
  simp only [hp, ho]
  exact batchLoop_capacity_zero env cfg st.list st.slow5_files hK fuel 0 src _

theorem afterReconcile_capacity_zero (fuel : Nat) (cfg : Config) (env : Env) (st : MergeState)
    (events : List Event) (path : String) (src : OpenFile)
    (hK : cfg.read_id_batch_capacity = 0) (hb : cfg.parallel_files = false)
    (hh : env.hdr_fwrite_ok = true) (hp : st.slow5_files[0]? = some path)
    (ho : openFrom env path = some src) :
    afterReconcile fuel cfg env st events = none := by
  have hne : ¬ st.slow5_files.length = 0 := by
    intro h0
    rw [List.length_eq_zero.mp h0] at hp
    simp at hp
  unfold afterReconcile
  simp only [hne, if_false, hh, Bool.true_eq_false, hb, Bool.false_eq_true,
    batchedStage_capacity_zero fuel cfg env st _ path src hK hp ho]

/-- C19 fails on the code: the option check accepts `-K 0`, and with batch size
0 the batched loop never ends - whatever the number of iterations allowed, the
run on the single accepted file "A" has not returned, and the same holds for
every accepted file list once the first file is open; for batch sizes of at
least 1 the loop does end. -/
theorem batched_loop_spins_at_capacity_zero :
    (∀ fuel, merge_main fuel (demoCfg false 0 false slow5_fmt.SLOW5_FORMAT_BINARY)
      (demoEnv false [] ["A"]) = none) ∧
    (∀ (fuel : Nat) (cfg : Config) (env : Env) (st : MergeState) (events : List Event)
      (path : String) (src : OpenFile),
      cfg.read_id_batch_capacity = 0 → st.slow5_files[0]? = some path →
      openFrom env path = some src → batchedStage fuel cfg env st events = none) ∧
    (∀ (env : Env) (cfg : Config) (list : List (List Nat)) (slow5_files : List String)
      (idx : Nat) (src : OpenFile) (flag_EOF : Bool) (events : List Event),
      1 ≤ cfg.read_id_batch_capacity → idx < slow5_files.length →
      ∃ fuel s, batchLoop env cfg list slow5_files fuel idx src flag_EOF events = some s) := by
  refine ⟨?_, ?_, ?_⟩
  · intro fuel
    have hrun : merge_main fuel (demoCfg false 0 false slow5_fmt.SLOW5_FORMAT_BINARY)
        (demoEnv false [] ["A"])
        = afterReconcile fuel (demoCfg false 0 false slow5_fmt.SLOW5_FORMAT_BINARY)
            (demoEnv false [] ["A"])
            { header := [demoX], list := [[0]], index := 1, slow5_files := ["A"],
              warned := false }
            [Event.mkdir "tmp", Event.list_all_items, Event.fopen_output "out.blow5" true,
             Event.slow5_open "A"] := rfl
    rw [hrun]
    exact afterReconcile_capacity_zero fuel _ _ _ _ "A"
      ⟨"A", [⟨"a1", 0, []⟩, ⟨"a2", 0, []⟩], false⟩ rfl rfl rfl rfl rfl
  · intro fuel cfg env st events path src hK hp ho
    exact batchedStage_capacity_zero fuel cfg env st events path src hK hp ho
  · intro env cfg list slow5_files idx src flag events hK hidx
    exact ⟨_, batchLoop_terminates env cfg list slow5_files hK _ idx src flag events
      (Nat.le_refl _) hidx⟩

/-! ## The batched strategy leaves the temp directory alone -/

theorem batchLoop_no_temp_events (env : Env) (cfg : Config) (list : List (List Nat))
    (slow5_files : List String) (fuel : Nat) :
    ∀ (idx : Nat) (src : OpenFile) (flag_EOF : Bool) (events : List Event) (s : Stage),
      batchLoop env cfg list slow5_files fuel idx src flag_EOF events = some s →
      (∀ e ∈ events, isTempFileEvent e = false) →
      ∀ e ∈ stageEvents s, isTempFileEvent e = false := by
  induction fuel with
  | zero => intro idx src flag events s h; simp [batchLoop] at h
  | succ fuel ih =>
    intro idx src flag events s h hev
    unfold batchLoop at h
    cases hb : readBatch src.read_error cfg.read_id_batch_capacity src.stream flag with
    | none =>
      simp only [hb, Option.some.injEq] at h
      subst h
      exact hev
    | some triple =>
      obtain ⟨mem_records, rest, flag1⟩ := triple
      simp only [hb] at h
      cases hw : work_db mem_records.length (fun i =>
          match mem_records[i]? with
          | some m => parallel_reads_model env list idx m
          | none => WorkResult.undefined) with
      | exit_failure =>
        simp only [hw, Option.some.injEq] at h
        subst h
        exact hev
      | undefined =>
        simp only [hw, Option.some.injEq] at h
        subst h
        exact hev
      | done read_record =>
        simp only [hw] at h
        have hrec : ∀ e ∈ events ++ read_record.map Event.write_record,
            isTempFileEvent e = false := by
          intro e he
          rcases List.mem_append.mp he with h1 | h1
          · exact hev e h1
          · obtain ⟨r, _, rfl⟩ := List.mem_map.mp h1
            rfl
        have hrec2 : ∀ p, ∀ e ∈ events ++ read_record.map Event.write_record
            ++ [Event.slow5_open p], isTempFileEvent e = false := by
          intro p e he
          rcases List.mem_append.mp he with h1 | h1
          · exact hrec e h1
          · rw [List.mem_singleton.mp h1]
            rfl
        by_cases hflag : flag1 = true
        · simp only [hflag, if_true] at h
          by_cases hc : env.close_ok src.path = false
          · simp only [hc, if_true, Option.some.injEq] at h
            subst h
            exact hrec
          · simp only [hc, Bool.true_eq_false, if_false] at h
            by_cases hlast : idx + 1 = slow5_files.length
            · simp only [hlast, if_true, Option.some.injEq] at h
              subst h
              exact hrec
            · simp only [hlast, if_false] at h
              cases hp : slow5_files[idx + 1]? with
              | none =>
                simp only [hp, Option.some.injEq] at h
                subst h
                exact hrec
              | some path =>
                simp only [hp] at h
                cases ho : openFrom env path with
                | none =>
                  simp only [ho, Option.some.injEq] at h
                  subst h
                  exact hrec2 path
                | some src1 =>
                  simp only [ho] at h
                  exact ih _ _ _ _ _ h (hrec2 path)
        · simp only [hflag, if_false] at h
          exact ih _ _ _ _ _ h hrec

theorem append_single_no_temp (l : List Event) (x : Event)
    (hl : ∀ e ∈ l, isTempFileEvent e = false) (hx : isTempFileEvent x = false) :
    ∀ e ∈ l ++ [x], isTempFileEvent e = false := by
  intro e he
  rcases List.mem_append.mp he with h1 | h1
  · exact hl e h1
  · rw [List.mem_singleton.mp h1]
    exact hx

theorem batchedStage_no_temp_events (fuel : Nat) (cfg : Config) (env : Env) (st : MergeState)
    (events : List Event) (s : Stage) (hs : batchedStage fuel cfg env st events = some s)
    (hev : ∀ e ∈ events, isTempFileEvent e = false) :
    ∀ e ∈ stageEvents s, isTempFileEvent e = false := by
  unfold batchedStage at hs
  cases hp : st.slow5_files[0]? with
  | none =>
    simp only [hp, Option.some.injEq] at hs
    subst hs
    exact hev
  | some path =>
    simp only [hp] at hs
    cases hop : openFrom env path with
    | none =>
      simp only [hop, Option.some.injEq] at hs
      subst hs
      exact append_single_no_temp _ _ hev rfl
    | some src =>
      simp only [hop] at hs
      exact batchLoop_no_temp_events env cfg st.list st.slow5_files fuel _ _ _ _ _
        hs (append_single_no_temp _ _ hev rfl)

theorem afterReconcile_batched_no_temp_events (fuel : Nat) (cfg : Config) (env : Env)
    (st : MergeState) (events : List Event) (run : Run) (hb : cfg.parallel_files = false)
    (h : afterReconcile fuel cfg env st events = some run)
    (hev : ∀ e ∈ events, isTempFileEvent e = false) :
    ∀ e ∈ run.events, isTempFileEvent e = false := by
  unfold afterReconcile at h
  by_cases he : st.slow5_files.length = 0
  · simp only [he, if_true, Option.some.injEq] at h
    subst h
    exact append_single_no_temp _ _ hev rfl
  · simp only [he, if_false] at h
    have hhdr := append_single_no_temp _ (Event.write_header st.header env.hdr_fwrite_ok) hev rfl
    by_cases hh : env.hdr_fwrite_ok = false
    · simp only [hh, if_true, Option.some.injEq] at h
      subst h
      simpa [hh] using hhdr
    · have hh2 : env.hdr_fwrite_ok = true := by simpa using hh
      simp only [hh2, Bool.true_eq_false, if_false, hb, Bool.false_eq_true] at h hhdr
      cases hs : batchedStage fuel cfg env st
          (events ++ [Event.write_header st.header true]) with
      | none => simp [hs] at h
      | some s =>
        have hstage := batchedStage_no_temp_events fuel cfg env st _ s hs hhdr
        simp only [hs] at h
        cases s with
        | halt r =>
          simp only [Option.some.injEq] at h
          subst h
          exact hstage
        | next events2 =>
          simp only [Option.some.injEq] at h
          subst h
          rw [finish_events]
          intro e he
          rcases List.mem_append.mp he with h1 | h1
          · exact hstage e h1
          · by_cases hf : cfg.format_out = slow5_fmt.SLOW5_FORMAT_BINARY
            · simp only [hf, if_true, List.singleton_append, List.mem_cons,
                List.mem_singleton, List.not_mem_nil, or_false] at h1
              rcases h1 with rfl | rfl | rfl <;> rfl
            · simp only [hf, if_false, List.nil_append, List.mem_cons,
                List.mem_singleton, List.not_mem_nil, or_false] at h1
              rcases h1 with rfl | rfl <;> rfl

theorem batched_run_no_temp_events (fuel : Nat) (cfg : Config) (env : Env) (run : Run)
    (hb : cfg.parallel_files = false) (h : merge_main fuel cfg env = some run) :
    ∀ e ∈ run.events, isTempFileEvent e = false := by
  unfold merge_main mergeFiles at h
  cases h0 : acquireTemp cfg env with
  | none =>
    simp only [h0, Option.some.injEq] at h
    subst h
    intro e he
    cases he
  | some events0 =>
    simp only [h0] at h
    have hpre : ∀ e ∈ events0 ++ [Event.list_all_items], isTempFileEvent e = false := by
      refine append_single_no_temp events0 Event.list_all_items ?_ rfl
      intro e he
      rcases acquireTemp_cases cfg env events0 h0 with ⟨_, h1⟩ | ⟨_, _, h1⟩
      · rw [h1, List.mem_singleton] at he
        rw [he]
        rfl
      · rw [h1] at he
        cases he
    cases ho : openOutput cfg env with
    | mk ok events =>
      have hout : ∀ e ∈ events, isTempFileEvent e = false := by
        intro e he
        unfold openOutput at ho
        cases hn : cfg.arg_fname_out with
        | none =>
          simp only [hn, Prod.mk.injEq] at ho
          rw [← ho.2] at he
          cases he
        | some path =>
          simp only [hn, Prod.mk.injEq] at ho
          rw [← ho.2, List.mem_singleton] at he
          rw [he]
          rfl
      have hpre2 : ∀ e ∈ events0 ++ [Event.list_all_items] ++ events,
          isTempFileEvent e = false := by
        intro e he
        rcases List.mem_append.mp he with h1 | h1
        · exact hpre e h1
        · exact hout e h1
      have hpre3 : ∀ e ∈ events0 ++ [Event.list_all_items] ++ events ++
          (openedInputs env.slow5_open cfg.lossy env.list_all_items_args).map Event.slow5_open,
          isTempFileEvent e = false := by
        intro e he
        rcases List.mem_append.mp he with h1 | h1
        · exact hpre2 e h1
        · obtain ⟨p, _, rfl⟩ := List.mem_map.mp h1
          rfl
      simp only [ho] at h
      cases ok with
      | false =>
        simp only [Option.some.injEq] at h
        subst h
        exact hpre2
      | true =>
        simp only at h
        cases hr : reconcile env.slow5_open cfg.lossy env.list_all_items_args with
        | error err =>
          simp only [hr] at h
          cases err with
          | no_aux_meta p =>
            simp only [Option.some.injEq] at h
            subst h
            exact append_single_no_temp _ _ hpre3 rfl
          | out_of_range =>
            simp only [Option.some.injEq] at h
            subst h
            exact hpre3
        | ok st =>
          simp only [hr] at h
          exact afterReconcile_batched_no_temp_events fuel cfg env st _ run hb h hpre3

/-- C17, as stated, fails: with the batched strategy selected, `merge_main`
creates the temp directory "tmp" when it does not exist, and returns failure,
before anything else, when "tmp" exists and lists three entries. -/
theorem batched_run_acquires_temp_dir :
    (demoCfg false 2 false slow5_fmt.SLOW5_FORMAT_BINARY).parallel_files = false ∧
    (merge_main 9 (demoCfg false 2 false slow5_fmt.SLOW5_FORMAT_BINARY)
        (demoEnv false [] ["A"])).map (fun run => (run.result, run.events.head?))
      = some (.returned .EXIT_SUCCESS, some (Event.mkdir "tmp")) ∧
    merge_main 9 (demoCfg false 2 false slow5_fmt.SLOW5_FORMAT_BINARY)
        (demoEnv true [".", "..", "old.blow5"] ["A"])
      = some ⟨.returned .EXIT_FAILURE, []⟩ := by
  refine ⟨rfl, rfl, rfl⟩

/-! ## The batches and what is written for them -/

theorem parallel_reads_model_done (env : Env) (list : List (List Nat)) (idx : Nat)
    (m o : Slow5Rec) (h : parallel_reads_model env list idx m = .done o) :
    ∃ v, lookup list idx m.read_group = some v ∧ o = { m with read_group := v } := by
  unfold parallel_reads_model at h
  cases hp : env.parse_ok m with
  | false => simp [hp] at h
  | true =>
    simp only [hp, Bool.true_eq_false, if_false] at h
    cases hl : lookup list idx m.read_group with
    | none => simp [hl] at h
    | some v =>
      simp only [hl] at h
      cases he : env.encode_ok { m with read_group := v } with
      | false => simp [he] at h
      | true =>
        simp only [he, Bool.true_eq_false, if_false, WorkResult.done.injEq] at h
        exact ⟨v, rfl, h.symm⟩

theorem runItems_reads (env : Env) (list : List (List Nat)) (idx : Nat)
    (all : List Slow5Rec) (mem : List Slow5Rec) :
    ∀ (s : Nat) (outs : List Slow5Rec),
      (∀ j, j < mem.length → all[s + j]? = mem[j]?) →
      runItems (fun i =>
          match all[i]? with
          | some m => parallel_reads_model env list idx m
          | none => WorkResult.undefined)
        (List.range' s mem.length) = .done outs →
      Translated list idx mem outs := by
  induction mem with
  | nil =>
    intro s outs _ h
    simp only [List.length_nil, List.range'_zero, runItems, WorkResult.done.injEq] at h
    subst h
    exact List.Forall₂.nil
  | cons m rest ih =>
    intro s outs hall h
    simp only [List.length_cons, List.range'_succ] at h
    unfold runItems at h
    have hget : all[s]? = some m := by
      have := hall 0 (by simp)
      simpa using this
    simp only [hget] at h
    cases hw : parallel_reads_model env list idx m with
    | exit_failure => simp [hw] at h
    | undefined => simp [hw] at h
    | done o =>
      simp only [hw] at h
      cases hr : runItems (fun i =>
          match all[i]? with
          | some m => parallel_reads_model env list idx m
          | none => WorkResult.undefined)
          (List.range' (s + 1) rest.length) with
      | exit_failure => simp [hr] at h
      | undefined => simp [hr] at h
      | done os =>
        simp only [hr, WorkResult.done.injEq] at h
        subst h
        refine List.Forall₂.cons (parallel_reads_model_done env list idx m o hw)
          (ih (s + 1) os ?_ hr)
        intro j hj
        have := hall (j + 1) (by simp; omega)
        rw [show s + 1 + j = s + (j + 1) by omega]
        simpa using this

theorem work_db_reads_done (env : Env) (list : List (List Nat)) (idx : Nat)
    (mem outs : List Slow5Rec)
    (h : work_db mem.length (fun i =>
        match mem[i]? with
        | some m => parallel_reads_model env list idx m
        | none => WorkResult.undefined) = .done outs) :
    Translated list idx mem outs := by
  unfold work_db at h
  rw [List.range_eq_range'] at h
  exact runItems_reads env list idx mem mem 0 outs (by intro j _; simp) h

theorem batchLoop_writes_batches (env : Env) (cfg : Config) (list : List (List Nat))
    (slow5_files : List String) (fuel : Nat) :
    ∀ (idx : Nat) (src : OpenFile) (flag_EOF : Bool) (events events2 : List Event),
      batchLoop env cfg list slow5_files fuel idx src flag_EOF events = some (.next events2) →
      ∃ outs : List (List Slow5Rec),
        List.Forall₂ (fun b o => Translated list b.1 b.2 o)
          (dispatchedBatches env cfg list slow5_files fuel idx src flag_EOF) outs ∧
        outputWrites events2 = outputWrites events ++ outs.flatten.map Event.write_record := by
  induction fuel with
  | zero => intro idx src flag events events2 h; simp [batchLoop] at h
  | succ fuel ih =>
    intro idx src flag events events2 h
    unfold batchLoop at h
    unfold dispatchedBatches
    cases hb : readBatch src.read_error cfg.read_id_batch_capacity src.stream flag with
    | none => simp [hb] at h
    | some triple =>
      obtain ⟨mem_records, rest, flag1⟩ := triple
      simp only [hb] at h ⊢
      cases hw : work_db mem_records.length (fun i =>
          match mem_records[i]? with
          | some m => parallel_reads_model env list idx m
          | none => WorkResult.undefined) with
      | exit_failure => simp [hw] at h
      | undefined => simp [hw] at h
      | done read_record =>
        have htr := work_db_reads_done env list idx mem_records read_record hw
        simp only [hw] at h ⊢
        by_cases hflag : flag1 = true
        · simp only [hflag, if_true] at h ⊢
          by_cases hc : env.close_ok src.path = false
          · simp [hc] at h
          · simp only [hc, Bool.true_eq_false, if_false] at h ⊢
            by_cases hlast : idx + 1 = slow5_files.length
            · simp only [hlast, if_true, Option.some.injEq, Stage.next.injEq] at h ⊢
              subst h
              refine ⟨[read_record], List.Forall₂.cons htr List.Forall₂.nil, ?_⟩
              simp [outputWrites_append, outputWrites_write_record]
            · simp only [hlast, if_false] at h ⊢
              cases hp : slow5_files[idx + 1]? with
              | none => simp [hp] at h
              | some path =>
                simp only [hp] at h ⊢
                cases ho : openFrom env path with
                | none => simp [ho] at h
                | some src1 =>
                  simp only [ho] at h ⊢
                  obtain ⟨outs, hf, hout⟩ := ih _ _ _ _ _ h
                  refine ⟨read_record :: outs, List.Forall₂.cons htr hf, ?_⟩
                  rw [hout]
                  simp [outputWrites_append, outputWrites_write_record, outputWrites]
        · simp only [hflag, if_false] at h ⊢
          obtain ⟨outs, hf, hout⟩ := ih _ _ _ _ _ h
          refine ⟨read_record :: outs, List.Forall₂.cons htr hf, ?_⟩
          rw [hout]
          simp [outputWrites_append, outputWrites_write_record]

theorem openFrom_some (env : Env) (path : String) (src : OpenFile)
    (h : openFrom env path = some src) :
    ∃ f, env.slow5_open path = some f ∧ src = ⟨path, f.records, f.read_error⟩ := by
  unfold openFrom at h
  cases hr : env.reopen_ok path with
  | false => simp [hr] at h
  | true =>
    simp only [hr, if_true] at h
    cases hf : env.slow5_open path with
    | none => simp [hf] at h
    | some f =>
      simp only [hf, Option.some.injEq] at h
      exact ⟨f, rfl, h.symm⟩

theorem firstOccurrences_of_nodup (gs : List ReadGroup) (h : (runIds gs).Nodup) :
    firstOccurrences gs = gs := by
  induction gs with
  | nil => rfl
  | cons g rest ih =>
    simp only [runIds, List.map_cons, List.nodup_cons] at h
    have hrest : firstOccurrences rest = rest := ih (by simpa [runIds] using h.2)
    simp only [firstOccurrences, hrest]
    congr 1
    rw [List.filter_eq_self]
    intro a ha
    simp only [ne_eq, decide_not, Bool.not_eq_true', decide_eq_false_iff_not]
    intro he
    exact h.1 (by rw [← he]; exact List.mem_map_of_mem _ ha)

theorem indexOf_map_of_nodup (gs : List ReadGroup) (h : (runIds gs).Nodup) :
    gs.map (fun g => List.indexOf g.run_id (runIds gs)) = List.range gs.length := by
  apply List.ext_getElem
  · simp
  · intro i h1 h2
    simp only [List.getElem_map, List.getElem_range]
    have hi : i < (runIds gs).length := by simpa [runIds] using h1
    have hg : i < gs.length := by simpa using h1
    have hget : (runIds gs)[i] = (gs[i]).run_id := by simp [runIds]
    rw [← hget]
    exact List.indexOf_getElem h i hi

theorem reconcile_single (slow5_open : String → Option Slow5File) (lossy : Bool)
    (path : String) (f : Slow5File) (hopen : slow5_open path = some f)
    (hnd : (runIds f.groups).Nodup)
    (hl : violatesLossless slow5_open lossy path = false) :
    reconcile slow5_open lossy [path] = .ok (identityState path f) := by
  rw [reconcile_ok slow5_open lossy [path] (by intro p hp; simp at hp; rw [hp]; exact hl)]
  have hs : scannedGroups slow5_open [path] = f.groups := by
    simp [scannedGroups, hopen]
  have hf : fileGroups slow5_open [path] = [f.groups] := by
    simp [fileGroups, hopen]
  have ho : openable slow5_open [path] = [path] := by
    simp [openable, hopen]
  rw [hs, hf, ho, firstOccurrences_of_nodup f.groups hnd]
  simp only [List.map_cons, List.map_nil, indexOf_map_of_nodup f.groups hnd]
  rfl

theorem lookup_identity (n j v : Nat) (h : lookup [List.range n] 0 j = some v) : v = j := by
  simp only [lookup, List.getElem?_cons_zero] at h
  rw [List.getElem?_range] at h
  · simpa using h.symm
  · by_contra hn
    rw [List.getElem?_eq_none (by simpa using hn)] at h
    cases h

theorem lookup_identity_some (n j : Nat) (h : j < n) : lookup [List.range n] 0 j = some j := by
  simp only [lookup, List.getElem?_cons_zero]
  exact List.getElem?_range h

theorem translated_identity (n : Nat) (mem outs : List Slow5Rec)
    (h : Translated [List.range n] 0 mem outs) : outs = mem := by
  unfold Translated at h
  induction h with
  | nil => rfl
  | cons hd _ ih =>
    obtain ⟨v, hv, ho⟩ := hd
    rw [ho, ih, lookup_identity n _ v hv]

theorem rewriteRecords_identity (env : Env) (n : Nat) (records : List Slow5Rec) :
    ∀ reads, rewriteRecords env [List.range n] 0 records = .done reads → reads = records := by
  induction records with
  | nil =>
    intro reads h
    simp only [rewriteRecords, WorkResult.done.injEq] at h
    exact h.symm
  | cons r rest ih =>
    intro reads h
    unfold rewriteRecords at h
    cases hlk : lookup [List.range n] 0 r.read_group with
    | none => simp [hlk] at h
    | some v =>
      have hv := lookup_identity n _ v hlk
      subst hv
      simp only [hlk] at h
      cases he : env.encode_ok { r with read_group := r.read_group } with
      | false => simp [he] at h
      | true =>
        simp only [he, Bool.true_eq_false, if_false] at h
        cases hr : rewriteRecords env [List.range n] 0 rest with
        | exit_failure => simp [hr] at h
        | undefined => simp [hr] at h
        | done reads1 =>
          simp only [hr, WorkResult.done.injEq] at h
          rw [← h, ih reads1 hr]

/-! ## The batched loop on the last accepted file -/

theorem batchLoop_last_file_batches (env : Env) (cfg : Config) (list : List (List Nat))
    (slow5_files : List String) (idx : Nat) (hlast : idx + 1 = slow5_files.length)
    (fuel : Nat) :
    ∀ (src : OpenFile) (events events2 : List Event),
      batchLoop env cfg list slow5_files fuel idx src false events = some (.next events2) →
      ((dispatchedBatches env cfg list slow5_files fuel idx src false).map Prod.snd).flatten
        = src.stream := by
  induction fuel with
  | zero => intro src events events2 h; simp [batchLoop] at h
  | succ fuel ih =>
    intro src events events2 h
    unfold batchLoop at h
    unfold dispatchedBatches
    cases hb : readBatch src.read_error cfg.read_id_batch_capacity src.stream false with
    | none => simp [hb] at h
    | some triple =>
      obtain ⟨mem_records, rest, flag1⟩ := triple
      have hspec := readBatch_spec _ _ _ _ _ _ _ hb
      simp only [hb] at h ⊢
      cases hw : work_db mem_records.length (fun i =>
          match mem_records[i]? with
          | some m => parallel_reads_model env list idx m
          | none => WorkResult.undefined) with
      | exit_failure => simp [hw] at h
      | undefined => simp [hw] at h
      | done read_record =>
        simp only [hw] at h ⊢
        cases flag1 with
        | true =>
          simp only [if_true] at h ⊢
          cases hc : env.close_ok src.path with
          | false => simp [hc] at h
          | true =>
            have hrest := (hspec.2.2.2.2 rfl rfl).1
            simp only [hlast, if_true, Bool.true_eq_false, if_false, List.map_cons,
              List.map_nil, List.flatten_cons, List.flatten_nil, List.append_nil]
            rw [hspec.1, hrest, List.append_nil]
        | false =>
          simp only [Bool.false_eq_true, if_false] at h ⊢
          have hrec := ih { src with stream := rest } _ _ h
          simp only [List.map_cons, List.flatten_cons, hrec]
          exact hspec.1.symm

theorem forall₂_translated_identity (n : Nat) (batches : List (Nat × List Slow5Rec))
    (outs : List (List Slow5Rec))
    (hidx : ∀ b ∈ batches, b.1 = 0)
    (h : List.Forall₂ (fun b o => Translated [List.range n] b.1 b.2 o) batches outs) :
    outs = batches.map Prod.snd := by
  induction h with
  | nil => rfl
  | @cons b o bs os hd _ ih =>
    have hb : b.1 = 0 := hidx b (List.mem_cons_self _ _)
    rw [hb] at hd
    rw [translated_identity n _ _ hd, ih (fun c hc => hidx c (List.mem_cons_of_mem _ hc))]
    rfl

theorem dispatchedBatches_last_file_index (env : Env) (cfg : Config) (list : List (List Nat))
    (slow5_files : List String) (idx : Nat) (hlast : idx + 1 = slow5_files.length)
    (fuel : Nat) :
    ∀ (src : OpenFile) (flag_EOF : Bool),
      ∀ b ∈ dispatchedBatches env cfg list slow5_files fuel idx src flag_EOF, b.1 = idx := by
  induction fuel with
  | zero => intro src flag b hb; simp [dispatchedBatches] at hb
  | succ fuel ih =>
    intro src flag b hb
    unfold dispatchedBatches at hb
    cases hr : readBatch src.read_error cfg.read_id_batch_capacity src.stream flag with
    | none => simp [hr] at hb
    | some triple =>
      obtain ⟨mem_records, rest, flag1⟩ := triple
      simp only [hr] at hb
      rcases List.mem_cons.mp hb with hhead | htail
      · rw [hhead]
      · cases hw : work_db mem_records.length (fun i =>
            match mem_records[i]? with
            | some m => parallel_reads_model env list idx m
            | none => WorkResult.undefined) with
        | exit_failure => simp [hw] at htail
        | undefined => simp [hw] at htail
        | done read_record =>
          simp only [hw] at htail
          cases flag1 with
          | true =>
            simp only [if_true, hlast] at htail
            cases hc : env.close_ok src.path <;> simp [hc] at htail
          | false =>
            simp only [Bool.false_eq_true, if_false] at htail
            exact ih _ _ b htail

theorem batchedStage_single (fuel : Nat) (cfg : Config) (env : Env) (path : String)
    (f : Slow5File) (hopen : env.slow5_open path = some f) (events events2 : List Event)
    (h : batchedStage fuel cfg env (identityState path f) events = some (.next events2)) :
    outputWrites events2 = outputWrites events ++ f.records.map Event.write_record := by
  unfold batchedStage at h
  have hp : (identityState path f).slow5_files[0]? = some path := rfl
  simp only [hp] at h
  cases ho : openFrom env path with
  | none => simp [ho] at h
  | some src =>
    simp only [ho] at h
    obtain ⟨g, hg, hsrc⟩ := openFrom_some env path src ho
    rw [hopen, Option.some.injEq] at hg
    subst hg
    have hlast : 0 + 1 = (identityState path f).slow5_files.length := rfl
    obtain ⟨outs, hf, hout⟩ := batchLoop_writes_batches env cfg _ _ fuel 0 src false _ _ h
    have hidx := dispatchedBatches_last_file_index env cfg (identityState path f).list
      (identityState path f).slow5_files 0 hlast fuel src false
    have houts := forall₂_translated_identity f.groups.length _ outs hidx hf
    have hflat := batchLoop_last_file_batches env cfg (identityState path f).list
      (identityState path f).slow5_files 0 hlast fuel src _ _ h
    rw [hout, houts, hflat, hsrc, outputWrites_append]
    simp [outputWrites]

/-! ## The batched loop runs to completion when nothing fails -/

theorem readBatch_total (room : Nat) :
    ∀ (stream : List Slow5Rec) (flag_EOF : Bool),
      ∃ t, readBatch false room stream flag_EOF = some t := by
  induction room with
  | zero => intro stream flag; exact ⟨_, rfl⟩
  | succ room ih =>
    intro stream flag
    cases stream with
    | nil => exact ⟨([], [], true), by simp [readBatch]⟩
    | cons m rest =>
      obtain ⟨t, ht⟩ := ih rest flag
      obtain ⟨b, r, f1⟩ := t
      exact ⟨(m :: b, r, f1), by simp [readBatch, ht]⟩

theorem parallel_reads_model_succeeds (env : Env) (list : List (List Nat)) (idx : Nat)
    (m : Slow5Rec) (hparse : ∀ r, env.parse_ok r = true) (hencode : ∀ r, env.encode_ok r = true)
    (hl : ∃ v, lookup list idx m.read_group = some v) :
    ∃ o, parallel_reads_model env list idx m = .done o := by
  obtain ⟨v, hv⟩ := hl
  unfold parallel_reads_model
  simp [hparse, hencode, hv]

theorem runItems_reads_succeed (env : Env) (list : List (List Nat)) (idx : Nat)
    (all : List Slow5Rec) (hparse : ∀ r, env.parse_ok r = true)
    (hencode : ∀ r, env.encode_ok r = true) (mem : List Slow5Rec) :
    ∀ (s : Nat),
      (∀ j, j < mem.length → all[s + j]? = mem[j]?) →
      (∀ m ∈ mem, ∃ v, lookup list idx m.read_group = some v) →
      ∃ outs, runItems (fun i =>
          match all[i]? with
          | some m => parallel_reads_model env list idx m
          | none => WorkResult.undefined)
        (List.range' s mem.length) = .done outs := by
  induction mem with
  | nil => intro s _ _; exact ⟨[], rfl⟩
  | cons m rest ih =>
    intro s hall hl
    have hget : all[s]? = some m := by
      have := hall 0 (by simp)
      simpa using this
    obtain ⟨o, ho⟩ := parallel_reads_model_succeeds env list idx m hparse hencode
      (hl m (List.mem_cons_self _ _))
    obtain ⟨os, hos⟩ := ih (s + 1) (by
      intro j hj
      have := hall (j + 1) (by simp; omega)
      rw [show s + 1 + j = s + (j + 1) by omega]
      simpa using this) (fun r hr => hl r (List.mem_cons_of_mem _ hr))
    refine ⟨o :: os, ?_⟩
    simp only [List.length_cons, List.range'_succ]
    unfold runItems
    simp only [hget, ho, hos]

theorem work_db_reads_succeed (env : Env) (list : List (List Nat)) (idx : Nat)
    (hparse : ∀ r, env.parse_ok r = true) (hencode : ∀ r, env.encode_ok r = true)
    (mem : List Slow5Rec) (hl : ∀ m ∈ mem, ∃ v, lookup list idx m.read_group = some v) :
    ∃ outs, work_db mem.length (fun i =>
        match mem[i]? with
        | some m => parallel_reads_model env list idx m
        | none => WorkResult.undefined) = .done outs := by
  unfold work_db
  rw [List.range_eq_range']
  exact runItems_reads_succeed env list idx mem hparse hencode mem 0 (by intro j _; simp) hl

theorem batchLoop_last_file_succeeds (env : Env) (cfg : Config) (list : List (List Nat))
    (slow5_files : List String) (idx : Nat) (hlast : idx + 1 = slow5_files.length)
    (hK : 1 ≤ cfg.read_id_batch_capacity)
    (hparse : ∀ r, env.parse_ok r = true) (hencode : ∀ r, env.encode_ok r = true)
    (hclose : ∀ p, env.close_ok p = true) (fuel : Nat) :
    ∀ (src : OpenFile) (events : List Event),
      src.read_error = false →
      (∀ m ∈ src.stream, ∃ v, lookup list idx m.read_group = some v) →
      src.stream.length + 1 ≤ fuel →
      ∃ events2, batchLoop env cfg list slow5_files fuel idx src false events
        = some (.next events2) := by
  induction fuel with
  | zero => intro src events _ _ h; omega
  | succ fuel ih =>
    intro src events hre hl hfuel
    unfold batchLoop
    obtain ⟨t, ht⟩ : ∃ t, readBatch src.read_error cfg.read_id_batch_capacity src.stream false
        = some t := by
      rw [hre]
      exact readBatch_total _ _ _
    obtain ⟨mem_records, rest, flag1⟩ := t
    have hspec := readBatch_spec _ _ _ _ _ _ _ ht
    simp only [ht]
    obtain ⟨outs, houts⟩ := work_db_reads_succeed env list idx hparse hencode mem_records
      (fun m hm => hl m (by rw [hspec.1]; exact List.mem_append_left _ hm))
    simp only [houts]
    cases flag1 with
    | true =>
      simp only [if_true, hclose, Bool.true_eq_false, if_false, hlast]
      exact ⟨_, rfl⟩
    | false =>
      simp only [Bool.false_eq_true, if_false]
      have hlen := (hspec.2.2.1 rfl).2
      have hstream : src.stream.length = mem_records.length + rest.length := by
        rw [hspec.1, List.length_append]
      exact ih { src with stream := rest } _ hre
        (fun m hm => hl m (by rw [hspec.1]; exact List.mem_append_right _ hm))
        (by simp only; omega)

/-! ## The file-sharded strategy on a single file -/

theorem work_db_single (cfg : Config) (env : Env) (path : String) (f : Slow5File)
    (tmp : List (String × List Slow5Rec))
    (h : work_db (identityState path f).slow5_files.length
      (parallel_files_model env cfg.output_dir (identityState path f).slow5_files
        (identityState path f).list) = .done tmp) :
    ∃ o, tmp = [o] ∧
      parallel_files_model env cfg.output_dir [path] [List.range f.groups.length] 0 = .done o := by
  unfold work_db at h
  have hl := runItems_done _ _ tmp h
  have hr : List.range (identityState path f).slow5_files.length = [0] := rfl
  rw [hr] at hl
  cases hl with
  | cons hd htl =>
    cases htl
    exact ⟨_, rfl, hd⟩

theorem shardedStage_single (cfg : Config) (env : Env) (path : String) (f : Slow5File)
    (hopen : env.slow5_open path = some f)
    (hlisting : env.list_all_items_tmp [tempPath cfg.output_dir 0] = [tempPath cfg.output_dir 0])
    (hread : env.fopen_tmp_read_ok (tempPath cfg.output_dir 0) = true)
    (events events2 : List Event)
    (h : shardedStage cfg env (identityState path f) events = .next events2) :
    outputWrites events2 = outputWrites events ++ f.records.map Event.write_record := by
  unfold shardedStage at h
  cases hw : work_db (identityState path f).slow5_files.length
      (parallel_files_model env cfg.output_dir (identityState path f).slow5_files
        (identityState path f).list) with
  | exit_failure => simp [hw] at h
  | undefined => simp [hw] at h
  | done tmp =>
    simp only [hw] at h
    obtain ⟨o, ho, hpf⟩ := work_db_single cfg env path f tmp hw
    obtain ⟨p, reads⟩ := o
    obtain ⟨hp, path1, f1, hpath1, hf1, hrw⟩ :=
      parallel_files_model_done env cfg.output_dir _ _ 0 p reads hpf
    have hpath : path1 = path := by
      simp only [List.getElem?_cons_zero, Option.some.injEq] at hpath1
      exact hpath1.symm
    subst hpath
    rw [hopen, Option.some.injEq] at hf1
    subst hf1
    have hreads := rewriteRecords_identity env _ _ reads hrw
    subst hreads
    subst hp
    subst ho
    simp only [List.map_cons, List.map_nil, hlisting] at h
    rw [concatLoop_next env _ _ _ _ h, outputWrites_append]
    have htmp : outputWrites [Event.write_tmp (tempPath cfg.output_dir 0) f.records] = [] := by
      simp [outputWrites]
    rw [htmp]
    simp [hread, copyOf]

theorem rewriteRecords_identity_succeeds (env : Env) (n : Nat)
    (hencode : ∀ r, env.encode_ok r = true) (records : List Slow5Rec)
    (hr : ∀ r ∈ records, r.read_group < n) :
    rewriteRecords env [List.range n] 0 records = .done records := by
  induction records with
  | nil => rfl
  | cons r rest ih =>
    unfold rewriteRecords
    rw [lookup_identity_some n r.read_group (hr r (List.mem_cons_self _ _))]
    simp only [hencode, Bool.true_eq_false, if_false,
      ih (fun q hq => hr q (List.mem_cons_of_mem _ hq))]

theorem shardedStage_single_succeeds (cfg : Config) (env : Env) (path : String)
    (f : Slow5File) (hq : NoFailure env) (hopen : env.slow5_open path = some f)
    (hr : ∀ r ∈ f.records, r.read_group < f.groups.length) (events : List Event) :
    ∃ events2, shardedStage cfg env (identityState path f) events = .next events2 := by
  have hpf : parallel_files_model env cfg.output_dir (identityState path f).slow5_files
      (identityState path f).list 0 = .done (tempPath cfg.output_dir 0, f.records) := by
    unfold parallel_files_model
    have hp : (identityState path f).slow5_files[0]? = some path := rfl
    have hl : (identityState path f).list = [List.range f.groups.length] := rfl
    simp only [hq.fopen_tmp_append, Bool.true_eq_false, if_false, hp, hq.reopen, if_true, hopen,
      hl, rewriteRecords_identity_succeeds env _ hq.encode f.records hr]
  have hw : work_db (identityState path f).slow5_files.length
      (parallel_files_model env cfg.output_dir (identityState path f).slow5_files
        (identityState path f).list) = .done [(tempPath cfg.output_dir 0, f.records)] := by
    unfold work_db
    have hrange : List.range (identityState path f).slow5_files.length = [0] := rfl
    rw [hrange]
    simp only [runItems, hpf]
  unfold shardedStage
  simp only [hw, List.map_cons, List.map_nil, hq.listing]
  unfold concatLoop
  simp only [hq.fopen_tmp_read, hq.remove, Bool.true_eq_false, if_false, concatLoop]
  exact ⟨_, rfl⟩

theorem batchedStage_single_succeeds (cfg : Config) (env : Env) (path : String)
    (f : Slow5File) (hq : NoFailure env) (hopen : env.slow5_open path = some f)
    (hK : 1 ≤ cfg.read_id_batch_capacity) (herr : f.read_error = false)
    (hr : ∀ r ∈ f.records, r.read_group < f.groups.length) (fuel : Nat)
    (hfuel : f.records.length + 1 ≤ fuel) (events : List Event) :
    ∃ events2, batchedStage fuel cfg env (identityState path f) events
      = some (.next events2) := by
  unfold batchedStage
  have hp : (identityState path f).slow5_files[0]? = some path := rfl
  have ho : openFrom env path = some ⟨path, f.records, f.read_error⟩ := by
    unfold openFrom
    simp only [hq.reopen, if_true, hopen]
  simp only [hp, ho]
  exact batchLoop_last_file_succeeds env cfg (identityState path f).list
    (identityState path f).slow5_files 0 rfl hK hq.parse hq.encode hq.close fuel
    ⟨path, f.records, f.read_error⟩ _ herr
    (fun m hm => ⟨m.read_group, lookup_identity_some _ _ (hr m hm)⟩) hfuel

/-! ## A whole run on a single file -/

theorem afterReconcile_single_writes (fuel : Nat) (cfg : Config) (env : Env) (path : String)
    (f : Slow5File) (hopen : env.slow5_open path = some f)
    (hsharded : cfg.parallel_files = true →
      env.list_all_items_tmp [tempPath cfg.output_dir 0] = [tempPath cfg.output_dir 0] ∧
      env.fopen_tmp_read_ok (tempPath cfg.output_dir 0) = true)
    (events : List Event) (run : Run)
    (h : afterReconcile fuel cfg env (identityState path f) events = some run)
    (hs : run.result = .returned .EXIT_SUCCESS) :
    outputWrites run.events = outputWrites events ++ Event.write_header f.groups true ::
      (f.records.map Event.write_record ++
        if cfg.format_out = slow5_fmt.SLOW5_FORMAT_BINARY then [Event.write_eof] else []) := by
  unfold afterReconcile at h
  have hlen : ¬ (identityState path f).slow5_files.length = 0 := by simp [identityState]
  have hhdr : (identityState path f).header = f.groups := rfl
  simp only [hlen, if_false, hhdr] at h
  cases hh : env.hdr_fwrite_ok with
  | false =>
    simp only [hh, if_true, Option.some.injEq] at h
    subst h
    simp at hs
  | true =>
    simp only [hh, Bool.true_eq_false, if_false] at h
    have hfin : ∀ events2,
        outputWrites events2 = outputWrites (events ++ [Event.write_header f.groups true])
          ++ f.records.map Event.write_record →
        outputWrites (finish cfg env events2).events
          = outputWrites events ++ Event.write_header f.groups true ::
            (f.records.map Event.write_record ++
              if cfg.format_out = slow5_fmt.SLOW5_FORMAT_BINARY then [Event.write_eof]
              else []) := by
      intro events2 he
      rw [finish_events, outputWrites_append, he, outputWrites_append, outputWrites_append]
      by_cases hf : cfg.format_out = slow5_fmt.SLOW5_FORMAT_BINARY <;>
        simp [hf, outputWrites]
    cases hp : cfg.parallel_files with
    | true =>
      simp only [hp, if_true] at h
      obtain ⟨hlisting, hread⟩ := hsharded hp
      cases hst : shardedStage cfg env (identityState path f)
          (events ++ [Event.write_header f.groups true]) with
      | halt r =>
        simp only [hst, Option.some.injEq] at h
        subst h
        exact absurd hs (shardedStage_halt cfg env (identityState path f) _ r hst)
      | next events2 =>
        simp only [hst, Option.some.injEq] at h
        subst h
        exact hfin events2
          (shardedStage_single cfg env path f hopen hlisting hread _ _ hst)
    | false =>
      simp only [hp, Bool.false_eq_true, if_false] at h
      cases hst : batchedStage fuel cfg env (identityState path f)
          (events ++ [Event.write_header f.groups true]) with
      | none => simp [hst] at h
      | some s =>
        cases s with
        | halt r =>
          simp only [hst, Option.some.injEq] at h
          subst h
          obtain ⟨_, _, _, _, hhalt⟩ := batchedStage_appends fuel cfg env
            (identityState path f) _ _ hst
          exact absurd hs (hhalt r rfl)
        | next events2 =>
          simp only [hst, Option.some.injEq] at h
          subst h
          exact hfin events2 (batchedStage_single fuel cfg env path f hopen _ _ hst)

theorem merge_main_single_writes (fuel : Nat) (cfg : Config) (env : Env) (path : String)
    (f : Slow5File) (hlist : env.list_all_items_args = [path])
    (hopen : env.slow5_open path = some f) (hnd : (runIds f.groups).Nodup)
    (hl : violatesLossless env.slow5_open cfg.lossy path = false)
    (hsharded : cfg.parallel_files = true →
      env.list_all_items_tmp [tempPath cfg.output_dir 0] = [tempPath cfg.output_dir 0] ∧
      env.fopen_tmp_read_ok (tempPath cfg.output_dir 0) = true)
    (run : Run) (h : merge_main fuel cfg env = some run)
    (hs : run.result = .returned .EXIT_SUCCESS) :
    outputWrites run.events = Event.write_header f.groups true ::
      (f.records.map Event.write_record ++
        if cfg.format_out = slow5_fmt.SLOW5_FORMAT_BINARY then [Event.write_eof] else []) := by
  unfold merge_main at h
  cases ha : acquireTemp cfg env with
  | none =>
    simp only [ha, Option.some.injEq] at h
    subst h
    simp at hs
  | some events0 =>
    simp only [ha] at h
    unfold mergeFiles at h
    have hpre := outputWrites_prelude cfg env events0
      (openedInputs env.slow5_open cfg.lossy [path]) ha
    cases ho : openOutput cfg env with
    | mk ok evs =>
      rw [ho] at hpre
      simp only [ho, hlist] at h
      cases ok with
      | false =>
        simp only [Option.some.injEq] at h
        subst h
        simp at hs
      | true =>
        simp only [reconcile_single env.slow5_open cfg.lossy path f hopen hnd hl] at h
        rw [afterReconcile_single_writes fuel cfg env path f hopen hsharded _ run h hs, hpre]
        rfl

theorem merge_main_single_succeeds (fuel : Nat) (cfg : Config) (env : Env) (path : String)
    (f : Slow5File) (hq : NoFailure env) (hlist : env.list_all_items_args = [path])
    (hopen : env.slow5_open path = some f) (hnd : (runIds f.groups).Nodup)
    (hl : violatesLossless env.slow5_open cfg.lossy path = false)
    (hK : 1 ≤ cfg.read_id_batch_capacity) (herr : f.read_error = false)
    (hr : ∀ r ∈ f.records, r.read_group < f.groups.length)
    (hfuel : f.records.length + 1 ≤ fuel) :
    ∃ run, merge_main fuel cfg env = some run ∧ run.result = .returned .EXIT_SUCCESS := by
  unfold merge_main
  have ha : ∃ events0, acquireTemp cfg env = some events0 := by
    unfold acquireTemp
    rcases hq.temp with h1 | h2
    · exact ⟨[Event.mkdir cfg.output_dir], by simp [h1]⟩
    · cases hs : env.stat_exists with
      | false => exact ⟨[Event.mkdir cfg.output_dir], by simp⟩
      | true =>
        have : ¬ env.list_directory.length > 2 := by omega
        exact ⟨[], by simp [this]⟩
  obtain ⟨events0, ha⟩ := ha
  simp only [ha]
  unfold mergeFiles
  have ho : ∃ evs, openOutput cfg env = (true, evs) := by
    unfold openOutput
    cases cfg.arg_fname_out with
    | none => exact ⟨_, rfl⟩
    | some p => exact ⟨[Event.fopen_output p true], by simp [hq.fopen_output]⟩
  obtain ⟨evs, ho⟩ := ho
  simp only [ho, hlist, reconcile_single env.slow5_open cfg.lossy path f hopen hnd hl]
  unfold afterReconcile
  have hlen : ¬ (identityState path f).slow5_files.length = 0 := by simp [identityState]
  simp only [hlen, if_false, hq.hdr_fwrite, Bool.true_eq_false]
  have hfin : ∀ events2, (finish cfg env events2).result = .returned .EXIT_SUCCESS := by
    intro events2
    unfold finish
    simp [hq.rmdir]
  cases hp : cfg.parallel_files with
  | true =>
    obtain ⟨events2, he⟩ := shardedStage_single_succeeds cfg env path f hq hopen hr
      (events0 ++ [Event.list_all_items] ++ evs ++
        (openedInputs env.slow5_open cfg.lossy [path]).map Event.slow5_open ++
        [Event.write_header (identityState path f).header true])
    simp only [if_true, he]
    exact ⟨_, rfl, hfin events2⟩
  | false =>
    obtain ⟨events2, he⟩ := batchedStage_single_succeeds cfg env path f hq hopen hK herr hr
      fuel hfuel
      (events0 ++ [Event.list_all_items] ++ evs ++
        (openedInputs env.slow5_open cfg.lossy [path]).map Event.slow5_open ++
        [Event.write_header (identityState path f).header true])
    simp only [Bool.false_eq_true, if_false, he]
    exact ⟨_, rfl, hfin events2⟩

theorem noFailure_demoEnv (files : List String) : NoFailure (demoEnv false [] files) :=
  { temp := Or.inl rfl
    fopen_output := rfl
    hdr_fwrite := rfl
    reopen := fun _ => rfl
    fopen_tmp_append := fun _ => rfl
    parse := fun _ => rfl
    encode := fun _ => rfl
    listing := fun _ => rfl
    fopen_tmp_read := fun _ => rfl
    remove := fun _ => rfl
    close := fun _ => rfl
    rmdir := rfl }

/-! ## C14 -/

/-- C14: merging the single input `path`, whose file `f` has local read groups
with pairwise distinct run ids (and passes the lossless check), ends the file
loop with the groups of `f` as merged header, in the same order and number, and
with the identity as the translation table of the file (`list[0][j] = j`); every
run that returns success has written the header and then each record of `f`
exactly once, in file order and with its read group unchanged (in the
file-sharded strategy provided the temp directory lists the one temp file and it
can be read); and when no call fails, the batch capacity is at least 1 and every
record names a read group of `f`, the run does return success once the fuel
exceeds the number of records. -/
theorem single_file_merge_is_identity (cfg : Config) (env : Env) (path : String)
    (f : Slow5File) (hlist : env.list_all_items_args = [path])
    (hopen : env.slow5_open path = some f) (hnd : (runIds f.groups).Nodup)
    (hl : violatesLossless env.slow5_open cfg.lossy path = false) :
    reconcile env.slow5_open cfg.lossy [path] = .ok (identityState path f) ∧
    (identityState path f).header = f.groups ∧
    (identityState path f).header.length = f.groups.length ∧
    (∀ j, j < f.groups.length → lookup (identityState path f).list 0 j = some j) ∧
    (∀ fuel run, merge_main fuel cfg env = some run →
      run.result = .returned .EXIT_SUCCESS →
      (cfg.parallel_files = true →
        env.list_all_items_tmp [tempPath cfg.output_dir 0] = [tempPath cfg.output_dir 0] ∧
        env.fopen_tmp_read_ok (tempPath cfg.output_dir 0) = true) →
      outputWrites run.events = Event.write_header f.groups true ::
        (f.records.map Event.write_record ++
          if cfg.format_out = slow5_fmt.SLOW5_FORMAT_BINARY then [Event.write_eof] else [])) ∧
    (NoFailure env → 1 ≤ cfg.read_id_batch_capacity → f.read_error = false →
      (∀ r ∈ f.records, r.read_group < f.groups.length) →
      ∀ fuel, f.records.length + 1 ≤ fuel →
        ∃ run, merge_main fuel cfg env = some run ∧
          run.result = .returned .EXIT_SUCCESS ∧
          outputWrites run.events = Event.write_header f.groups true ::
            (f.records.map Event.write_record ++
              if cfg.format_out = slow5_fmt.SLOW5_FORMAT_BINARY then [Event.write_eof]
              else [])) := by
  refine ⟨reconcile_single env.slow5_open cfg.lossy path f hopen hnd hl, rfl, rfl,
    fun j hj => lookup_identity_some _ j hj, ?_, ?_⟩
  · intro fuel run h hs hsharded
    exact merge_main_single_writes fuel cfg env path f hlist hopen hnd hl hsharded run h hs
  · intro hq hK herr hr fuel hfuel
    obtain ⟨run, h, hs⟩ := merge_main_single_succeeds fuel cfg env path f hq hlist hopen hnd hl
      hK herr hr hfuel
    refine ⟨run, h, hs, ?_⟩
    exact merge_main_single_writes fuel cfg env path f hlist hopen hnd hl
      (fun _ => ⟨hq.listing _, hq.fopen_tmp_read _⟩) run h hs

/-- C14 on the single input "B", whose groups X and Y have distinct run ids,
in the batched strategy with batch size 2. -/
theorem single_file_merge_is_identity_witness :
    (demoEnv false [] ["B"]).list_all_items_args = ["B"] ∧
    (demoEnv false [] ["B"]).slow5_open "B" = some demoFileB ∧
    (runIds demoFileB.groups).Nodup ∧
    violatesLossless (demoEnv false [] ["B"]).slow5_open
      (demoCfg false 2 false slow5_fmt.SLOW5_FORMAT_BINARY).lossy "B" = false ∧
    (reconcile (demoEnv false [] ["B"]).slow5_open
        (demoCfg false 2 false slow5_fmt.SLOW5_FORMAT_BINARY).lossy ["B"]
      = .ok (identityState "B" demoFileB) ∧
    (identityState "B" demoFileB).header = demoFileB.groups ∧
    (identityState "B" demoFileB).header.length = demoFileB.groups.length ∧
    (∀ j, j < demoFileB.groups.length → lookup (identityState "B" demoFileB).list 0 j = some j) ∧
    (∀ fuel run,
      merge_main fuel (demoCfg false 2 false slow5_fmt.SLOW5_FORMAT_BINARY)
        (demoEnv false [] ["B"]) = some run →
      run.result = .returned .EXIT_SUCCESS →
      ((demoCfg false 2 false slow5_fmt.SLOW5_FORMAT_BINARY).parallel_files = true →
        (demoEnv false [] ["B"]).list_all_items_tmp
            [tempPath (demoCfg false 2 false slow5_fmt.SLOW5_FORMAT_BINARY).output_dir 0]
          = [tempPath (demoCfg false 2 false slow5_fmt.SLOW5_FORMAT_BINARY).output_dir 0] ∧
        (demoEnv false [] ["B"]).fopen_tmp_read_ok
          (tempPath (demoCfg false 2 false slow5_fmt.SLOW5_FORMAT_BINARY).output_dir 0) = true) →
      outputWrites run.events = Event.write_header demoFileB.groups true ::
        (demoFileB.records.map Event.write_record ++
          if (demoCfg false 2 false slow5_fmt.SLOW5_FORMAT_BINARY).format_out
              = slow5_fmt.SLOW5_FORMAT_BINARY then [Event.write_eof] else [])) ∧
    (NoFailure (demoEnv false [] ["B"]) →
      1 ≤ (demoCfg false 2 false slow5_fmt.SLOW5_FORMAT_BINARY).read_id_batch_capacity →
      demoFileB.read_error = false →
      (∀ r ∈ demoFileB.records, r.read_group < demoFileB.groups.length) →
      ∀ fuel, demoFileB.records.length + 1 ≤ fuel →
        ∃ run, merge_main fuel (demoCfg false 2 false slow5_fmt.SLOW5_FORMAT_BINARY)
            (demoEnv false [] ["B"]) = some run ∧
          run.result = .returned .EXIT_SUCCESS ∧
          outputWrites run.events = Event.write_header demoFileB.groups true ::
            (demoFileB.records.map Event.write_record ++
              if (demoCfg false 2 false slow5_fmt.SLOW5_FORMAT_BINARY).format_out
                  = slow5_fmt.SLOW5_FORMAT_BINARY then [Event.write_eof] else []))) :=
  ⟨rfl, rfl, by decide, rfl,
    single_file_merge_is_identity (demoCfg false 2 false slow5_fmt.SLOW5_FORMAT_BINARY)
      (demoEnv false [] ["B"]) "B" demoFileB rfl rfl (by decide) rfl⟩


/-! ## Runs that return success -/

theorem merge_main_success (fuel : Nat) (cfg : Config) (env : Env) (run : Run)
    (hrun : merge_main fuel cfg env = some run)
    (hs : run.result = .returned .EXIT_SUCCESS) :
    ∃ events0 st, acquireTemp cfg env = some events0 ∧
      reconcile env.slow5_open cfg.lossy env.list_all_items_args = .ok st ∧
      outputWrites (events0 ++ [Event.list_all_items] ++ (openOutput cfg env).2 ++
        (openedInputs env.slow5_open cfg.lossy env.list_all_items_args).map
          Event.slow5_open) = [] ∧
      afterReconcile fuel cfg env st
        (events0 ++ [Event.list_all_items] ++ (openOutput cfg env).2 ++
          (openedInputs env.slow5_open cfg.lossy env.list_all_items_args).map
            Event.slow5_open) = some run := by
  unfold merge_main mergeFiles at hrun
  cases h0 : acquireTemp cfg env with
  | none =>
    simp only [h0, Option.some.injEq] at hrun
    subst hrun
    simp at hs
  | some events0 =>
    simp only [h0] at hrun
    have hw := outputWrites_prelude cfg env events0
      (openedInputs env.slow5_open cfg.lossy env.list_all_items_args) h0
    cases ho : openOutput cfg env with
    | mk ok events =>
      rw [ho] at hw
      simp only [ho] at hrun
      cases ok with
      | false =>
        simp only [Option.some.injEq] at hrun
        subst hrun
        simp at hs
      | true =>
        cases hr : reconcile env.slow5_open cfg.lossy env.list_all_items_args with
        | error e =>
          simp only [hr] at hrun
          cases e with
          | no_aux_meta p =>
            simp only [Option.some.injEq] at hrun
            subst hrun
            simp at hs
          | out_of_range =>
            simp only [Option.some.injEq] at hrun
            subst hrun
            simp at hs
        | ok st =>
          simp only [hr] at hrun
          exact ⟨events0, st, rfl, rfl, hw, hrun⟩

theorem afterReconcile_success_empty (fuel : Nat) (cfg : Config) (env : Env)
    (st : MergeState) (events : List Event) (run : Run)
    (h : afterReconcile fuel cfg env st events = some run) (he : st.slow5_files = []) :
    run = ⟨.returned .EXIT_SUCCESS,
      events ++ [Event.delete_directory cfg.output_dir env.rmdir_ok]⟩ := by
  unfold afterReconcile at h
  simp only [he, List.length_nil, if_true, Option.some.injEq] at h
  exact h.symm

theorem afterReconcile_success_batched (fuel : Nat) (cfg : Config) (env : Env)
    (st : MergeState) (events : List Event) (run : Run)
    (h : afterReconcile fuel cfg env st events = some run) (hne : st.slow5_files ≠ [])
    (hb : cfg.parallel_files = false) (hs : run.result = .returned .EXIT_SUCCESS) :
    ∃ events2, batchedStage fuel cfg env st (events ++ [Event.write_header st.header true])
        = some (.next events2) ∧ run = finish cfg env events2 := by
  unfold afterReconcile at h
  have hlen : ¬ st.slow5_files.length = 0 := fun e => hne (List.length_eq_zero.mp e)
  simp only [hlen, if_false] at h
  cases hh : env.hdr_fwrite_ok with
  | false =>
    simp only [hh, if_true, Option.some.injEq] at h
    subst h
    simp at hs
  | true =>
    simp only [hh, Bool.true_eq_false, if_false, hb, Bool.false_eq_true] at h
    cases hst : batchedStage fuel cfg env st (events ++ [Event.write_header st.header true]) with
    | none => simp [hst] at h
    | some s =>
      cases s with
      | halt r =>
        simp only [hst, Option.some.injEq] at h
        subst h
        obtain ⟨_, _, _, _, hhalt⟩ := batchedStage_appends fuel cfg env st _ _ hst
        exact absurd hs (hhalt r rfl)
      | next events2 =>
        simp only [hst, Option.some.injEq] at h
        exact ⟨events2, rfl, h.symm⟩

theorem afterReconcile_success_sharded (fuel : Nat) (cfg : Config) (env : Env)
    (st : MergeState) (events : List Event) (run : Run)
    (h : afterReconcile fuel cfg env st events = some run) (hne : st.slow5_files ≠ [])
    (hp : cfg.parallel_files = true) (hs : run.result = .returned .EXIT_SUCCESS) :
    ∃ events2, shardedStage cfg env st (events ++ [Event.write_header st.header true])
        = .next events2 ∧ run = finish cfg env events2 := by
  unfold afterReconcile at h
  have hlen : ¬ st.slow5_files.length = 0 := fun e => hne (List.length_eq_zero.mp e)
  simp only [hlen, if_false] at h
  cases hh : env.hdr_fwrite_ok with
  | false =>
    simp only [hh, if_true, Option.some.injEq] at h
    subst h
    simp at hs
  | true =>
    simp only [hh, Bool.true_eq_false, if_false, hp, if_true] at h
    cases hst : shardedStage cfg env st (events ++ [Event.write_header st.header true]) with
    | halt r =>
      simp only [hst, Option.some.injEq] at h
      subst h
      exact absurd hs (shardedStage_halt cfg env st _ r hst)
    | next events2 =>
      simp only [hst, Option.some.injEq] at h
      exact ⟨events2, rfl, h.symm⟩

theorem finish_success (cfg : Config) (env : Env) (events : List Event)
    (hs : (finish cfg env events).result = .returned .EXIT_SUCCESS) :
    env.rmdir_ok = true := by
  unfold finish at hs
  cases hr : env.rmdir_ok with
  | true => rfl
  | false => simp [hr] at hs

theorem outputWrites_finish (cfg : Config) (env : Env) (events : List Event) :
    outputWrites (finish cfg env events).events = outputWrites events ++
      (if cfg.format_out = slow5_fmt.SLOW5_FORMAT_BINARY then [Event.write_eof] else []) := by
  rw [finish_events, outputWrites_append]
  by_cases hf : cfg.format_out = slow5_fmt.SLOW5_FORMAT_BINARY <;> simp [hf, outputWrites]

theorem batchedStage_next (fuel : Nat) (cfg : Config) (env : Env) (st : MergeState)
    (events events2 : List Event)
    (h : batchedStage fuel cfg env st events = some (.next events2)) :
    ∃ path src outs, st.slow5_files[0]? = some path ∧ openFrom env path = some src ∧
      List.Forall₂ (fun b o => Translated st.list b.1 b.2 o)
        (dispatchedBatches env cfg st.list st.slow5_files fuel 0 src false) outs ∧
      outputWrites events2 = outputWrites events ++ outs.flatten.map Event.write_record := by
  unfold batchedStage at h
  cases hp : st.slow5_files[0]? with
  | none => simp [hp] at h
  | some path =>
    simp only [hp] at h
    cases ho : openFrom env path with
    | none => simp [ho] at h
    | some src =>
      simp only [ho] at h
      obtain ⟨outs, hf, hout⟩ := batchLoop_writes_batches env cfg st.list st.slow5_files fuel
        0 src false _ _ h
      refine ⟨path, src, outs, rfl, ho, hf, ?_⟩
      rw [hout, outputWrites_append]
      simp [outputWrites]


/-! ## C9 -/

/-- C9, as stated, fails in the file-sharded strategy. With the temp file
"tmp/1.blow5" impossible to open for reading (for instance because it is gone
by then), line 451 skips it and the run returns success although the records
that work item 1 encoded for "B" are not in the output. With the output file
inside the temp directory and listed with the temp files, its bytes are
appended after the records and before the end-of-stream marker. -/
theorem successful_run_output_follows_listing :
    checkOutputName slow5_fmt.SLOW5_FORMAT_BINARY
      (demoCfg true 4096 false slow5_fmt.SLOW5_FORMAT_BINARY).arg_fname_out = .accepted ∧
    merge_main 0 (demoCfg true 4096 false slow5_fmt.SLOW5_FORMAT_BINARY)
        (demoEnvUnreadable ["A", "B"])
      = some ⟨.returned .EXIT_SUCCESS,
          [Event.mkdir "tmp", Event.list_all_items, Event.fopen_output "out.blow5" true,
           Event.slow5_open "A", Event.slow5_open "B",
           Event.write_header [demoX, demoY] true,
           Event.write_tmp "tmp/0.blow5" [⟨"a1", 0, []⟩, ⟨"a2", 0, []⟩],
           Event.write_tmp "tmp/1.blow5" [⟨"b1", 1, []⟩, ⟨"b2", 0, []⟩, ⟨"b3", 1, []⟩],
           Event.write_record ⟨"a1", 0, []⟩, Event.write_record ⟨"a2", 0, []⟩,
           Event.remove "tmp/0.blow5" true,
           Event.write_eof, Event.close_output, Event.delete_directory "tmp" true]⟩ ∧
    checkOutputName slow5_fmt.SLOW5_FORMAT_BINARY demoCfgOutputInTemp.arg_fname_out
      = .accepted ∧
    (merge_main 0 demoCfgOutputInTemp (demoEnvListsOutput ["A", "B"])).map
        (fun run => (run.result, outputWrites run.events))
      = some (.returned .EXIT_SUCCESS,
          [Event.write_header [demoX, demoY] true,
           Event.write_record ⟨"a1", 0, []⟩, Event.write_record ⟨"a2", 0, []⟩,
           Event.write_record ⟨"b1", 1, []⟩, Event.write_record ⟨"b2", 0, []⟩,
           Event.write_record ⟨"b3", 1, []⟩,
           Event.write_bytes_of "tmp/out.blow5",
           Event.write_eof]) := by
  refine ⟨by decide, rfl, by decide, rfl⟩

/-- C9, amended: in every run of `merge_main` that returns success with a
non-empty accepted file list, the writes to the output stream are the merged
header, once; then a body; then the end-of-stream marker, once, exactly when the
target format is binary - and nothing else. In the batched strategy the body is
the translated records of every batch handed to `work_db`, in read order. In the
file-sharded strategy the body is, for every file that the listing of the temp
directory returns and that can be opened, in listing order, the records that
its work item encoded (or the bytes of the file, when no work item created it);
when the listing is a permutation of the temp files and each of them can be
opened, the body is the records encoded by all work items, item by item, each
item once. -/
theorem output_stream_contents (fuel : Nat) (cfg : Config) (env : Env) (st : MergeState)
    (run : Run)
    (hrec : reconcile env.slow5_open cfg.lossy env.list_all_items_args = .ok st)
    (hne : st.slow5_files ≠ [])
    (hrun : merge_main fuel cfg env = some run)
    (hs : run.result = .returned .EXIT_SUCCESS) :
    ∃ body : List Event,
      outputWrites run.events = Event.write_header st.header true ::
        (body ++
          if cfg.format_out = slow5_fmt.SLOW5_FORMAT_BINARY then [Event.write_eof] else []) ∧
      (cfg.parallel_files = false →
        ∃ path src outs, st.slow5_files[0]? = some path ∧ openFrom env path = some src ∧
          List.Forall₂ (fun b o => Translated st.list b.1 b.2 o)
            (dispatchedBatches env cfg st.list st.slow5_files fuel 0 src false) outs ∧
          body = outs.flatten.map Event.write_record) ∧
      (cfg.parallel_files = true →
        ∃ tmp, work_db st.slow5_files.length
            (parallel_files_model env cfg.output_dir st.slow5_files st.list) = .done tmp ∧
          tmp.map Prod.fst
            = (List.range st.slow5_files.length).map (tempPath cfg.output_dir) ∧
          List.Forall₂ (fun i t => ∃ path f, st.slow5_files[i]? = some path ∧
              env.slow5_open path = some f ∧
              rewriteRecords env st.list i f.records = .done t.2)
            (List.range st.slow5_files.length) tmp ∧
          body = ((env.list_all_items_tmp (tmp.map Prod.fst)).filter
            (fun p => env.fopen_tmp_read_ok p)).flatMap (copyOf tmp) ∧
          ((env.list_all_items_tmp
              ((List.range st.slow5_files.length).map (tempPath cfg.output_dir))).Perm
              ((List.range st.slow5_files.length).map (tempPath cfg.output_dir)) →
            (∀ i, i < st.slow5_files.length →
              env.fopen_tmp_read_ok (tempPath cfg.output_dir i) = true) →
            ∃ order : List (String × List Slow5Rec), order.Perm tmp ∧
              body = (order.flatMap Prod.snd).map Event.write_record)) := by
  obtain ⟨events0, st1, _, hrec1, hpre, hafter⟩ := merge_main_success fuel cfg env run hrun hs
  rw [hrec] at hrec1
  cases hrec1
  have hhdr : ∀ events, outputWrites (events ++ [Event.write_header st.header true])
      = outputWrites events ++ [Event.write_header st.header true] := by
    intro events
    rw [outputWrites_append]
    simp [outputWrites]
  cases hp : cfg.parallel_files with
  | false =>
    obtain ⟨events2, hstage, hfin⟩ :=
      afterReconcile_success_batched fuel cfg env st _ run hafter hne hp hs
    obtain ⟨path, src, outs, hpath, hopen, hf, hout⟩ :=
      batchedStage_next fuel cfg env st _ events2 hstage
    refine ⟨outs.flatten.map Event.write_record, ?_,
      fun _ => ⟨path, src, outs, hpath, hopen, hf, rfl⟩, fun h => by cases h⟩
    rw [hfin, outputWrites_finish, hout, hhdr, hpre]
    simp
  | true =>
    obtain ⟨events2, hstage, hfin⟩ :=
      afterReconcile_success_sharded fuel cfg env st _ run hafter hne hp hs
    obtain ⟨tmp, hw, hpaths, hnd, hitems, hout⟩ := shardedStage_next cfg env st _ events2 hstage
    refine ⟨((env.list_all_items_tmp (tmp.map Prod.fst)).filter
        (fun p => env.fopen_tmp_read_ok p)).flatMap (copyOf tmp), ?_,
      (fun h => by cases h), fun _ => ⟨tmp, hw, hpaths, hitems, rfl, ?_⟩⟩
    · rw [hfin, outputWrites_finish, hout, hhdr, hpre]
      simp
    · intro hperm hread
      rw [← hpaths] at hperm
      have hall : ∀ p ∈ env.list_all_items_tmp (tmp.map Prod.fst),
          env.fopen_tmp_read_ok p = true := by
        intro p hp1
        have hp2 := hperm.mem_iff.mp hp1
        rw [hpaths] at hp2
        obtain ⟨i, hi, hpi⟩ := List.mem_map.mp hp2
        rw [← hpi]
        exact hread i (List.mem_range.mp hi)
      rw [List.filter_eq_self.mpr (by simpa using hall)]
      exact flatMap_copyOf_perm tmp hnd _ hperm

/-- C9, amended, on "A", "missing", "B": the batched strategy with binary output
to "out.blow5", and the file-sharded strategy with ASCII output to "out.slow5"
and the temp directory listed in item order. -/
theorem output_stream_contents_witness :
    (checkOutputName slow5_fmt.SLOW5_FORMAT_BINARY
        (demoCfg false 2 false slow5_fmt.SLOW5_FORMAT_BINARY).arg_fname_out = .accepted ∧
      reconcile (demoEnv false [] ["A", "missing", "B"]).slow5_open
        (demoCfg false 2 false slow5_fmt.SLOW5_FORMAT_BINARY).lossy
        (demoEnv false [] ["A", "missing", "B"]).list_all_items_args = .ok demoFinal ∧
      demoFinal.slow5_files ≠ [] ∧
      merge_main 9 (demoCfg false 2 false slow5_fmt.SLOW5_FORMAT_BINARY)
        (demoEnv false [] ["A", "missing", "B"]) = some demoBatchedRun ∧
      demoBatchedRun.result = .returned .EXIT_SUCCESS ∧
      ∃ body : List Event,
        outputWrites demoBatchedRun.events = Event.write_header demoFinal.header true ::
          (body ++
            if (demoCfg false 2 false slow5_fmt.SLOW5_FORMAT_BINARY).format_out
                = slow5_fmt.SLOW5_FORMAT_BINARY then [Event.write_eof] else []) ∧
        ∃ path src outs, demoFinal.slow5_files[0]? = some path ∧
          openFrom (demoEnv false [] ["A", "missing", "B"]) path = some src ∧
          List.Forall₂ (fun b o => Translated demoFinal.list b.1 b.2 o)
            (dispatchedBatches (demoEnv false [] ["A", "missing", "B"])
              (demoCfg false 2 false slow5_fmt.SLOW5_FORMAT_BINARY) demoFinal.list
              demoFinal.slow5_files 9 0 src false) outs ∧
          body = outs.flatten.map Event.write_record) ∧
    (checkOutputName slow5_fmt.SLOW5_FORMAT_ASCII (demoCfgAscii true 2).arg_fname_out
        = .accepted ∧
      reconcile (demoEnv false [] ["A", "missing", "B"]).slow5_open (demoCfgAscii true 2).lossy
        (demoEnv false [] ["A", "missing", "B"]).list_all_items_args = .ok demoFinal ∧
      merge_main 0 (demoCfgAscii true 2) (demoEnv false [] ["A", "missing", "B"])
        = some demoShardedRun ∧
      demoShardedRun.result = .returned .EXIT_SUCCESS ∧
      ∃ body : List Event,
        outputWrites demoShardedRun.events = Event.write_header demoFinal.header true ::
          (body ++
            if (demoCfgAscii true 2).format_out = slow5_fmt.SLOW5_FORMAT_BINARY then
              [Event.write_eof]
            else []) ∧
        ∃ tmp, work_db demoFinal.slow5_files.length
            (parallel_files_model (demoEnv false [] ["A", "missing", "B"])
              (demoCfgAscii true 2).output_dir demoFinal.slow5_files demoFinal.list)
              = .done tmp ∧
          tmp.map Prod.fst = (List.range demoFinal.slow5_files.length).map
            (tempPath (demoCfgAscii true 2).output_dir) ∧
          List.Forall₂ (fun i t => ∃ path f, demoFinal.slow5_files[i]? = some path ∧
              (demoEnv false [] ["A", "missing", "B"]).slow5_open path = some f ∧
              rewriteRecords (demoEnv false [] ["A", "missing", "B"]) demoFinal.list i
                f.records = .done t.2)
            (List.range demoFinal.slow5_files.length) tmp ∧
          body = (((demoEnv false [] ["A", "missing", "B"]).list_all_items_tmp
              (tmp.map Prod.fst)).filter
            (fun p => (demoEnv false [] ["A", "missing", "B"]).fopen_tmp_read_ok p)).flatMap
              (copyOf tmp) ∧
          ∃ order : List (String × List Slow5Rec), order.Perm tmp ∧
            body = (order.flatMap Prod.snd).map Event.write_record) :=
  ⟨⟨by decide, rfl, by decide, rfl, rfl,
    (output_stream_contents 9 (demoCfg false 2 false slow5_fmt.SLOW5_FORMAT_BINARY)
      (demoEnv false [] ["A", "missing", "B"]) demoFinal demoBatchedRun rfl (by decide) rfl
      rfl).elim (fun body h => ⟨body, h.1, h.2.1 rfl⟩)⟩,
   ⟨by decide, rfl, rfl, rfl,
    (output_stream_contents 0 (demoCfgAscii true 2)
      (demoEnv false [] ["A", "missing", "B"]) demoFinal demoShardedRun rfl (by decide) rfl
      rfl).elim (fun body h => ⟨body, h.1,
        (h.2.2 rfl).elim (fun tmp k => ⟨tmp, k.1, k.2.1, k.2.2.1, k.2.2.2.1,
          k.2.2.2.2 (List.Perm.refl _) (fun _ _ => rfl)⟩)⟩)⟩⟩


/-! ## C17 -/

theorem merge_main_success_ends_with_removal (fuel : Nat) (cfg : Config) (env : Env)
    (run : Run) (hrun : merge_main fuel cfg env = some run)
    (hs : run.result = .returned .EXIT_SUCCESS) :
    ∃ before, run.events
      = before ++ [Event.delete_directory cfg.output_dir env.rmdir_ok] := by
  obtain ⟨events0, st, _, _, _, hafter⟩ := merge_main_success fuel cfg env run hrun hs
  have hfin : ∀ events2, run = finish cfg env events2 →
      ∃ before, run.events
        = before ++ [Event.delete_directory cfg.output_dir env.rmdir_ok] := by
    intro events2 h
    refine ⟨events2 ++
      ((if cfg.format_out = slow5_fmt.SLOW5_FORMAT_BINARY then [Event.write_eof] else []) ++
        [Event.close_output]), ?_⟩
    rw [h, finish_events]
    simp
  by_cases he : st.slow5_files = []
  · rw [afterReconcile_success_empty fuel cfg env st _ run hafter he]
    exact ⟨_, rfl⟩
  · cases hp : cfg.parallel_files with
    | false =>
      obtain ⟨events2, _, h⟩ :=
        afterReconcile_success_batched fuel cfg env st _ run hafter he hp hs
      exact hfin events2 h
    | true =>
      obtain ⟨events2, _, h⟩ :=
        afterReconcile_success_sharded fuel cfg env st _ run hafter he hp hs
      exact hfin events2 h

theorem merge_main_removal_failure (fuel : Nat) (cfg : Config) (env : Env) (run : Run)
    (st : MergeState) (hrun : merge_main fuel cfg env = some run)
    (hrec : reconcile env.slow5_open cfg.lossy env.list_all_items_args = .ok st)
    (hne : st.slow5_files ≠ []) (hr : env.rmdir_ok = false) :
    run.result ≠ .returned .EXIT_SUCCESS := by
  intro hs
  obtain ⟨events0, st1, _, hrec1, _, hafter⟩ := merge_main_success fuel cfg env run hrun hs
  rw [hrec] at hrec1
  cases hrec1
  have hfin : ∀ events2, run = finish cfg env events2 → False := by
    intro events2 h
    rw [h] at hs
    have := finish_success cfg env events2 hs
    rw [hr] at this
    cases this
  cases hp : cfg.parallel_files with
  | false =>
    obtain ⟨events2, _, h⟩ :=
      afterReconcile_success_batched fuel cfg env st _ run hafter hne hp hs
    exact hfin events2 h
  | true =>
    obtain ⟨events2, _, h⟩ :=
      afterReconcile_success_sharded fuel cfg env st _ run hafter hne hp hs
    exact hfin events2 h

/-- C17, amended: with the batched strategy selected no temp file is created,
filled or removed. The temp directory itself is handled by the batched
strategy too: it is created first when it does not exist; the run returns
failure before anything else when it exists and lists more than two entries;
every run that returns success has ended with the attempt to remove the
directory; and when some input file was accepted, a run in which that removal
fails does not return success. -/
theorem batched_temp_dir_handling (fuel : Nat) (cfg : Config) (env : Env) (run : Run)
    (hb : cfg.parallel_files = false) (hrun : merge_main fuel cfg env = some run) :
    (∀ e ∈ run.events, isTempFileEvent e = false) ∧
    (env.stat_exists = false →
      ∃ rest, run.events = Event.mkdir cfg.output_dir :: Event.list_all_items :: rest) ∧
    (env.stat_exists = true → env.list_directory.length > 2 →
      run = ⟨.returned .EXIT_FAILURE, []⟩) ∧
    (run.result = .returned .EXIT_SUCCESS →
      ∃ before, run.events
        = before ++ [Event.delete_directory cfg.output_dir env.rmdir_ok]) ∧
    (∀ st, reconcile env.slow5_open cfg.lossy env.list_all_items_args = .ok st →
      st.slow5_files ≠ [] → env.rmdir_ok = false →
      run.result ≠ .returned .EXIT_SUCCESS) := by
  refine ⟨batched_run_no_temp_events fuel cfg env run hb hrun, ?_, ?_, ?_, ?_⟩
  · intro hs
    have h0 : acquireTemp cfg env = some [Event.mkdir cfg.output_dir] := by
      simp [acquireTemp, hs]
    obtain ⟨rest, hr⟩ := merge_main_events fuel cfg env _ run h0 hrun
    exact ⟨rest, by simpa using hr⟩
  · intro hs hl
    have : merge_main fuel cfg env = some ⟨.returned .EXIT_FAILURE, []⟩ := by
      simp [merge_main, acquireTemp, hs, hl]
    rw [this] at hrun
    exact (Option.some.inj hrun).symm
  · intro hs
    exact merge_main_success_ends_with_removal fuel cfg env run hrun hs
  · intro st hrec hne hr
    exact merge_main_removal_failure fuel cfg env run st hrun hrec hne hr

/-- C17, amended, on three batched runs: on "A", "missing", "B" with no temp
directory yet; on "A" with a temp directory that lists a third entry; and on "A"
when the temp directory cannot be removed at the end. -/
theorem batched_temp_dir_handling_witness :
    ((demoCfg false 2 false slow5_fmt.SLOW5_FORMAT_BINARY).parallel_files = false ∧
      merge_main 9 (demoCfg false 2 false slow5_fmt.SLOW5_FORMAT_BINARY)
        (demoEnv false [] ["A", "missing", "B"]) = some demoBatchedRun ∧
      (∀ e ∈ demoBatchedRun.events, isTempFileEvent e = false) ∧
      (∃ rest, demoBatchedRun.events = Event.mkdir "tmp" :: Event.list_all_items :: rest) ∧
      (∃ before, demoBatchedRun.events = before ++ [Event.delete_directory "tmp" true])) ∧
    (merge_main 9 (demoCfg false 2 false slow5_fmt.SLOW5_FORMAT_BINARY)
        (demoEnv true [".", "..", "old.blow5"] ["A"])
        = some ⟨.returned .EXIT_FAILURE, []⟩ ∧
      (demoEnv true [".", "..", "old.blow5"] ["A"]).stat_exists = true ∧
      (demoEnv true [".", "..", "old.blow5"] ["A"]).list_directory.length > 2 ∧
      (⟨.returned .EXIT_FAILURE, []⟩ : Run) = ⟨.returned .EXIT_FAILURE, []⟩) ∧
    (merge_main 9 (demoCfg false 2 false slow5_fmt.SLOW5_FORMAT_BINARY)
        (demoEnvNoRmdir ["A"])
        = some ⟨.returned .EXIT_FAILURE,
            [Event.mkdir "tmp", Event.list_all_items, Event.fopen_output "out.blow5" true,
             Event.slow5_open "A", Event.write_header [demoX] true, Event.slow5_open "A",
             Event.write_record ⟨"a1", 0, []⟩, Event.write_record ⟨"a2", 0, []⟩,
             Event.write_eof, Event.close_output, Event.delete_directory "tmp" false]⟩ ∧
      reconcile (demoEnvNoRmdir ["A"]).slow5_open
        (demoCfg false 2 false slow5_fmt.SLOW5_FORMAT_BINARY).lossy
        (demoEnvNoRmdir ["A"]).list_all_items_args
        = .ok (identityState "A" ⟨[demoX], true, [⟨"a1", 0, []⟩, ⟨"a2", 0, []⟩], false⟩) ∧
      (demoEnvNoRmdir ["A"]).rmdir_ok = false ∧
      (Termination.returned ExitStatus.EXIT_FAILURE) ≠ .returned .EXIT_SUCCESS) :=
  ⟨⟨rfl, rfl,
    (batched_temp_dir_handling 9 (demoCfg false 2 false slow5_fmt.SLOW5_FORMAT_BINARY)
      (demoEnv false [] ["A", "missing", "B"]) demoBatchedRun rfl rfl).1,
    (batched_temp_dir_handling 9 (demoCfg false 2 false slow5_fmt.SLOW5_FORMAT_BINARY)
      (demoEnv false [] ["A", "missing", "B"]) demoBatchedRun rfl rfl).2.1 rfl,
    (batched_temp_dir_handling 9 (demoCfg false 2 false slow5_fmt.SLOW5_FORMAT_BINARY)
      (demoEnv false [] ["A", "missing", "B"]) demoBatchedRun rfl rfl).2.2.2.1 rfl⟩,
   ⟨rfl, rfl, by decide,
    (batched_temp_dir_handling 9 (demoCfg false 2 false slow5_fmt.SLOW5_FORMAT_BINARY)
      (demoEnv true [".", "..", "old.blow5"] ["A"]) ⟨.returned .EXIT_FAILURE, []⟩ rfl
      rfl).2.2.1 rfl (by decide)⟩,
   ⟨rfl, rfl, rfl,
    (batched_temp_dir_handling 9 (demoCfg false 2 false slow5_fmt.SLOW5_FORMAT_BINARY)
      (demoEnvNoRmdir ["A"])
      ⟨.returned .EXIT_FAILURE,
        [Event.mkdir "tmp", Event.list_all_items, Event.fopen_output "out.blow5" true,
         Event.slow5_open "A", Event.write_header [demoX] true, Event.slow5_open "A",
         Event.write_record ⟨"a1", 0, []⟩, Event.write_record ⟨"a2", 0, []⟩,
         Event.write_eof, Event.close_output, Event.delete_directory "tmp" false]⟩ rfl
      rfl).2.2.2.2 (identityState "A" ⟨[demoX], true, [⟨"a1", 0, []⟩, ⟨"a2", 0, []⟩], false⟩)
      rfl (by decide) rfl⟩⟩

end Slow5Merge
